import Mathlib

/-!
# PointCloud: clustering and classification of a coloured point cloud

A shallow embedding of the C++ sources (`Point`, `CloudPoint`, `Cluster`,
`DataSet`, `ClusteringAlg`, `ClassificationAlg`) and theorems about them.

Modelling conventions
* `float` / `double` values are exact rationals (`ℚ`): rounding is not modelled.
* `int` values are unbounded integers (`Int`); container sizes and requested
  element counts are naturals.
* A run that reads a vector out of range, or whose outcome depends on the result
  of a division by zero, has no value in exact arithmetic: the embedding of such
  a function returns `none` there. The one exception is a k-means seed that is
  not a number (the mean of a group without members): it is a seed `none`, with
  which every comparison is false, as for the C++ value.
* Pointers to clusters (`Cluster*`) are positions in the vector they point into;
  the owned pointer `m_core` is an optional cluster.
* `rand()` is a stream of outcomes, each reduced into `[0, RAND_MAX]`;
  `RAND_MAX` is a parameter (the constant comes from the C library).
* The static counter `CloudPoint::s_nextId` is threaded explicitly (`nextId`)
  through the functions that construct cloud points.
-/

namespace PointCloud

/-! ## Point -/

/-- A 3D point (`Point.h`): `(x, z)` horizontal, `y` vertical. -/
structure Point where
  x : ℚ
  y : ℚ
  z : ℚ
deriving DecidableEq

/-- The point built by `Point::Point()`: the origin. -/
def Point.origin : Point := ⟨0, 0, 0⟩

/-- Squared distance in the `(x, z)` plane, `Point::dist2DSq`. -/
def Point.dist2DSq (self p : Point) : ℚ :=
  (p.x - self.x) * (p.x - self.x) + (p.z - self.z) * (p.z - self.z)

/-- Squared distance in space, `Point::dist3DSq`. -/
def Point.dist3DSq (self p : Point) : ℚ :=
  (p.x - self.x) * (p.x - self.x) + (p.y - self.y) * (p.y - self.y)
    + (p.z - self.z) * (p.z - self.z)

/-! ## CloudPoint -/

/-- A point with an RGB colour triplet and an identifier (`CloudPoint.h`). -/
structure CloudPoint extends Point where
  r : Int
  g : Int
  b : Int
  id : Int
deriving DecidableEq

/-- The constructor `CloudPoint::CloudPoint(x, y, z, r, g, b)`: the identifier is
the current value of the static counter, which is then incremented. Returns the
point and the new counter. -/
def CloudPoint.new (x y z : ℚ) (r g b : Int) (nextId : Int) : CloudPoint × Int :=
  (⟨⟨x, y, z⟩, r, g, b, nextId⟩, nextId + 1)

/-- The default constructor `CloudPoint::CloudPoint()`: a black point at the origin. -/
def CloudPoint.default (nextId : Int) : CloudPoint × Int :=
  CloudPoint.new 0 0 0 0 0 0 nextId

/-- Validity check `CloudPoint::isValid`. -/
def CloudPoint.isValid (cp : CloudPoint) : Bool :=
  (decide (0 ≤ cp.r) && decide (cp.r < 256)) &&
  (decide (0 ≤ cp.g) && decide (cp.g < 256)) &&
  (decide (0 ≤ cp.b) && decide (cp.b < 256))

/-! ## Cluster -/

/-- A cluster of cloud points (`Cluster.h`). `core` is the owned pointer `m_core`
(`none` is the null pointer); `m_layers`, `m_splitClusters` and `m_fPerCluster`
are the mutable caches read and written by `layers` and `randomSplit`. -/
structure Cluster where
  points : List CloudPoint
  com : Point
  seed : Point
  pcaColor : Point
  core : Option Cluster
  density : ℚ
  classId : Int
  m_layers : List CloudPoint
  m_splitClusters : List Cluster
  m_fPerCluster : ℚ

/-- The default constructor `Cluster::Cluster()`: a cluster with no points. -/
def Cluster.empty : Cluster where
  points := []
  com := Point.origin
  seed := Point.origin
  pcaColor := Point.origin
  core := none
  density := 0
  classId := -1
  m_layers := []
  m_splitClusters := []
  m_fPerCluster := 0

/-- Adds a point and updates the center of mass, `Cluster::addPoint`. -/
def Cluster.addPoint (c : Cluster) (cp : CloudPoint) : Cluster :=
  { c with
    com :=
      { x := (c.com.x * c.points.length + cp.x) / (c.points.length + 1)
        y := (c.com.y * c.points.length + cp.y) / (c.points.length + 1)
        z := (c.com.z * c.points.length + cp.z) / (c.points.length + 1) }
    points := c.points ++ [cp]
    m_layers := []
    m_splitClusters := [] }

/-- Adds the points of another cluster one by one, `Cluster::addPoints`. -/
def Cluster.addPoints (c cl : Cluster) : Cluster :=
  cl.points.foldl Cluster.addPoint c

/-- The coordinate-wise arithmetic mean of a sequence of cloud points. -/
def meanPoint (ps : List CloudPoint) : Point :=
  { x := (ps.map (fun p => p.x)).sum / ps.length
    y := (ps.map (fun p => p.y)).sum / ps.length
    z := (ps.map (fun p => p.z)).sum / ps.length }


/-- The running-mean invariant: the center of mass times the number of points is
the coordinate-wise sum of the points. -/
def Cluster.ComIsMean (c : Cluster) : Prop :=
  c.com.x * c.points.length = (c.points.map (fun p => p.x)).sum ∧
  c.com.y * c.points.length = (c.points.map (fun p => p.y)).sum ∧
  c.com.z * c.points.length = (c.points.map (fun p => p.z)).sum

/-! ## The random generator -/

/-- The outcomes of the successive calls of `rand()`. -/
abbrev Rng := Nat → Nat

/-- One call of `rand()`: a value in `[0, RAND_MAX]` and the generator afterwards. -/
def rand (RAND_MAX : Nat) (rng : Rng) : Nat × Rng :=
  (rng 0 % (RAND_MAX + 1), fun i => rng (i + 1))

/-! ## Cluster: layer profile and random sub-clusters -/

/-- The conversion `(int)` of a floating-point value: truncation toward zero. -/
def truncToInt (q : ℚ) : Int := Int.tdiv q.num q.den

/-- The call `m_layers.resize(n)`: keeps the first `n` elements, or appends
default-constructed cloud points (each takes the next identifier). -/
def resizeLayers : List CloudPoint → Nat → Int → List CloudPoint × Int
  | [], 0, nextId => ([], nextId)
  | [], n + 1, nextId =>
    let rest := resizeLayers [] n (nextId + 1)
    ((CloudPoint.default nextId).1 :: rest.1, rest.2)
  | _ :: _, 0, nextId => ([], nextId)
  | l :: ls, n + 1, nextId =>
    let rest := resizeLayers ls n nextId
    (l :: rest.1, rest.2)

/-- The loop of `Cluster::layers` that computes `ymax`. -/
def layersYmax (points : List CloudPoint) : ℚ :=
  points.foldl (fun ymax p => if p.y > ymax then p.y else ymax) 0

/-- The layer index of a point in `Cluster::layers`:
`(int)(nLayers*p.y()/ymax)`, lowered to `nLayers-1` when it is `nLayers` or more.
There is no value when `ymax` is zero (the quotient is not a number). -/
def layerIndex (nLayers : Nat) (ymax : ℚ) (p : CloudPoint) : Option Int :=
  if ymax = 0 then none
  else
    let iLayer := truncToInt (nLayers * p.y / ymax)
    some (if iLayer ≥ nLayers then (nLayers : Int) - 1 else iLayer)

/-- The accumulation loop of `Cluster::layers`: every point adds its `y`, `r`, `g`,
`b` to its layer and increments the layer's counter. No value when a layer index
is out of the range of `m_layers`. -/
def layersAccumulate (nLayers : Nat) (ymax : ℚ) :
    List CloudPoint → List CloudPoint × List Int → Option (List CloudPoint × List Int)
  | [], acc => some acc
  | p :: ps, (layers, nPointsPerLayer) =>
    match layerIndex nLayers ymax p with
    | none => none
    | some iLayer =>
      if iLayer < 0 then none
      else
        match layers.get? iLayer.toNat with
        | none => none
        | some layer =>
          layersAccumulate nLayers ymax ps
            (layers.set iLayer.toNat
              { layer with y := layer.y + p.y, r := layer.r + p.r,
                           g := layer.g + p.g, b := layer.b + p.b },
             nPointsPerLayer.modify (fun n => n + 1) iLayer.toNat)

/-- The last loop of `Cluster::layers`: a layer with points takes the seed's `x`
and `z` and the averages of `y`, `r`, `g`, `b` (integer division for the colours);
a layer without points is left as it is (a warning is printed). -/
def layersAverage (seed : Point) (layer : CloudPoint) (n : Int) : CloudPoint :=
  if n ≠ 0 then
    { layer with x := seed.x, y := layer.y / n, z := seed.z,
                 r := Int.tdiv layer.r n, g := Int.tdiv layer.g n, b := Int.tdiv layer.b n }
  else layer

/-- The layer profile `Cluster::layers(nLayers)`: the returned vector, the cluster
with its cache `m_layers` updated, and the identifier counter afterwards. -/
def Cluster.layers (c : Cluster) (nLayers : Nat) (nextId : Int) :
    Option (List CloudPoint × Cluster × Int) :=
  if nLayers = c.m_layers.length then some (c.m_layers, c, nextId)
  else
    let ymax := layersYmax c.points
    let resized := resizeLayers c.m_layers nLayers nextId
    match layersAccumulate nLayers ymax c.points (resized.1, List.replicate nLayers 0) with
    | none => none
    | some (sums, nPointsPerLayer) =>
      let m_layers := List.zipWith (layersAverage c.seed) sums nPointsPerLayer
      some (m_layers, { c with m_layers := m_layers }, resized.2)

/-- The call `m_splitClusters.resize(n)`: keeps the first `n` sub-clusters, or
appends default-constructed clusters. -/
def resizeClusters (cls : List Cluster) (n : Nat) : List Cluster :=
  cls.take n ++ List.replicate (n - cls.length) Cluster.empty

/-- The inner loop of `Cluster::randomSplit` for one sub-cluster: every point of the
parent is added when `rand() / (double)RAND_MAX < fPerCluster`. -/
def splitFill (RAND_MAX : Nat) (fPerCluster : ℚ) :
    List CloudPoint → Cluster → Rng → Cluster × Rng
  | [], sub, rng => (sub, rng)
  | p :: ps, sub, rng =>
    let draw := rand RAND_MAX rng
    let f : ℚ := (draw.1 : ℚ) / (RAND_MAX : ℚ)
    if f < fPerCluster then splitFill RAND_MAX fPerCluster ps (sub.addPoint p) draw.2
    else splitFill RAND_MAX fPerCluster ps sub draw.2

/-- The outer loop of `Cluster::randomSplit` over the sub-clusters. -/
def splitLoop (RAND_MAX : Nat) (fPerCluster : ℚ) (points : List CloudPoint) :
    List Cluster → Rng → List Cluster × Rng
  | [], rng => ([], rng)
  | sub :: subs, rng =>
    let filled := splitFill RAND_MAX fPerCluster points sub rng
    let rest := splitLoop RAND_MAX fPerCluster points subs filled.2
    (filled.1 :: rest.1, rest.2)

/-- The random sub-clusters `Cluster::randomSplit(nClusters, fPerCluster)`: the
returned vector, the cluster with its cache `m_splitClusters` updated, and the
generator afterwards. -/
def Cluster.randomSplit (RAND_MAX : Nat) (c : Cluster) (nClusters : Nat) (fPerCluster : ℚ)
    (rng : Rng) : List Cluster × Cluster × Rng :=
  if nClusters = c.m_splitClusters.length ∧ fPerCluster = c.m_fPerCluster then
    (c.m_splitClusters, c, rng)
  else
    let filled := splitLoop RAND_MAX fPerCluster c.points
      (resizeClusters c.m_splitClusters nClusters) rng
    (filled.1, { c with m_splitClusters := filled.1 }, filled.2)

/-! ## Configuration and DataSet -/

/-- The configuration values that the algorithms read with `config.get(...)`: the
options declared in `parseCommandLine` (`pointCloud.cxx`), by their names there. The
class `Config` itself comes from `optparse.h`. -/
structure Config where
  evaluationDataFraction : ℚ
  skipPreClustering : Bool
  preClusteringSize : ℚ
  densityWindow : ℚ
  seedDensityThreshold : ℚ
  clusterCoreSize : ℚ
  nLayersPerCluster : Nat
  trainingClustersSplitN : Nat
  trainingClustersSplitF : ℚ
  maxKmeansIterations : Int

/-- The data to be analysed (`DataSet.h`). -/
structure DataSet where
  points : List CloudPoint
  preClusters : List Cluster
  clusters : List Cluster
  m_mins : List ℚ
  m_maxs : List ℚ

/-- The constructor `DataSet::DataSet()`: an empty data set. -/
def DataSet.empty : DataSet where
  points := []
  preClusters := []
  clusters := []
  m_mins := List.replicate 6 0
  m_maxs := List.replicate 6 0

/-- One line `X Y Z R G B` of the input file, as extracted by `operator>>`. -/
structure Row where
  x : ℚ
  y : ℚ
  z : ℚ
  r : Int
  g : Int
  b : Int
deriving DecidableEq

/-- The cloud point `cp` of one pass of the reading loop: constructed with the next
identifier, then filled from the row by `operator>>`. -/
def Row.toCloudPoint (row : Row) (id : Int) : CloudPoint :=
  ⟨⟨row.x, row.y, row.z⟩, row.r, row.g, row.b, id⟩

/-- The local state of the reading loop of `DataSet::readFromFile`. -/
structure ReadState where
  trainingData : DataSet
  evaluationData : DataSet
  mins : List ℚ
  maxs : List ℚ
  isFirst : Bool
  rng : Rng
  nextId : Int

/-- The six coordinates `x, y, z, r, g, b` of a cloud point, as `float`. -/
def CloudPoint.coordinates (cp : CloudPoint) : List ℚ :=
  [cp.x, cp.y, cp.z, (cp.r : ℚ), (cp.g : ℚ), (cp.b : ℚ)]

/-- The reading loop of `DataSet::readFromFile`. Each element of the input is one
pass of the loop: `some row` when the extraction `ifile >> cp` leaves the stream
good, `none` when it does not (the pass only constructs `cp`). The loop returns
`false` at the first invalid point, leaving the data sets as they are then. -/
def readLoop (RAND_MAX : Nat) (evalFrac : ℚ) : List (Option Row) → ReadState → Bool × ReadState
  | [], s => (true, s)
  | none :: rest, s => readLoop RAND_MAX evalFrac rest { s with nextId := s.nextId + 1 }
  | some row :: rest, s =>
    let cp : CloudPoint := row.toCloudPoint s.nextId
    if cp.isValid then
      let draw := rand RAND_MAX s.rng
      let r : ℚ := (draw.1 : ℚ) / (RAND_MAX : ℚ)
      let evaluationData :=
        if r < evalFrac then { s.evaluationData with points := s.evaluationData.points ++ [cp] }
        else s.evaluationData
      let trainingData :=
        if r < evalFrac then s.trainingData
        else { s.trainingData with points := s.trainingData.points ++ [cp] }
      let mins :=
        if s.isFirst then cp.coordinates
        else List.zipWith (fun m c => if m > c then c else m) s.mins cp.coordinates
      let maxs :=
        if s.isFirst then cp.coordinates
        else List.zipWith (fun m c => if m < c then c else m) s.maxs cp.coordinates
      readLoop RAND_MAX evalFrac rest
        { trainingData := trainingData, evaluationData := evaluationData, mins := mins,
          maxs := maxs, isFirst := false, rng := draw.2, nextId := s.nextId + 1 }
    else (false, { s with nextId := s.nextId + 1 })

/-- Reads the points into the training and evaluation sets, `DataSet::readFromFile`.
`ifile` is `none` when the file cannot be opened. Returns the success flag, the two
data sets, the generator and the identifier counter afterwards. -/
def DataSet.readFromFile (RAND_MAX : Nat) (config : Config) (ifile : Option (List (Option Row)))
    (trainingData evaluationData : DataSet) (rng : Rng) (nextId : Int) :
    Bool × DataSet × DataSet × Rng × Int :=
  match ifile with
  | none => (false, trainingData, evaluationData, rng, nextId)
  | some passes =>
    let res := readLoop RAND_MAX config.evaluationDataFraction passes
      { trainingData := trainingData, evaluationData := evaluationData,
        mins := List.replicate 6 0, maxs := List.replicate 6 0, isFirst := true,
        rng := rng, nextId := nextId }
    if res.1 then
      (true, { res.2.trainingData with m_mins := res.2.mins, m_maxs := res.2.maxs },
        { res.2.evaluationData with m_mins := res.2.mins, m_maxs := res.2.maxs },
        res.2.rng, res.2.nextId)
    else (false, res.2.trainingData, res.2.evaluationData, res.2.rng, res.2.nextId)

/-! ## ClusteringAlg -/

/-- The box test shared by `computeDensities` and `runSeededClustering`: `clj` is
skipped (`continue`) for `cli` when their centers of mass differ by more than `d`
in `x` or in `z`. -/
def outsideWindow (d : ℚ) (cli clj : Cluster) : Bool :=
  decide (|clj.com.x - cli.com.x| > d) || decide (|clj.com.z - cli.com.z| > d)

/-- The inner loop of `ClusteringAlg::computeDensities`: the number of points of the
pre-clusters inside the window around `cli`. -/
def rawDensity (d : ℚ) (preClusters : List Cluster) (cli : Cluster) : ℚ :=
  preClusters.foldl
    (fun density clj => if outsideWindow d cli clj then density
      else density + (clj.points.length : ℚ)) 0

/-- The running maximum `dmax` of `ClusteringAlg::computeDensities`. -/
def maxDensity (preClusters : List Cluster) : ℚ :=
  preClusters.foldl (fun dmax cli => if cli.density > dmax then cli.density else dmax) 0

/-- Density of every pre-cluster, normalised to the maximum,
`ClusteringAlg::computeDensities`. The first loop reads only `com` and `points` of
the pre-clusters, which it does not change. No value when there are pre-clusters
and the maximum is zero (the normalisation divides by zero). -/
def computeDensities (ds : DataSet) (config : Config) : Option DataSet :=
  let d := config.densityWindow
  let counted := ds.preClusters.map
    (fun cli => { cli with density := rawDensity d ds.preClusters cli })
  let dmax := maxDensity counted
  if counted.isEmpty then some { ds with preClusters := counted }
  else if dmax = 0 then none
  else some { ds with
    preClusters := counted.map (fun cli => { cli with density := cli.density / dmax }) }

/-- The inner loop of the seed search of `ClusteringAlg::runSeededClustering` for
pre-cluster `i`, over the pre-clusters `j` with their indices: the value of
`isLocalMax` when the loop is left. -/
def localMaxLoop (d : ℚ) (i : Nat) (cli : Cluster) : List (Nat × Cluster) → Bool → Bool
  | [], isLocalMax => isLocalMax
  | (j, clj) :: rest, isLocalMax =>
    if i = j then localMaxLoop d i cli rest isLocalMax
    else if outsideWindow d cli clj then localMaxLoop d i cli rest isLocalMax
    else if clj.density > cli.density then false
    else if clj.density = cli.density ∧ i < j then localMaxLoop d i cli rest false
    else localMaxLoop d i cli rest isLocalMax

/-- Whether pre-cluster `i` is taken as a local density maximum. -/
def isLocalMax (d : ℚ) (preClusters : List Cluster) (i : Nat) (cli : Cluster) : Bool :=
  localMaxLoop d i cli preClusters.enum true

/-- The seed cluster built from a local maximum: its points, its density, and its
center of mass as seed position. -/
def seedCluster (cli : Cluster) : Cluster :=
  { Cluster.empty.addPoints cli with density := cli.density, seed := cli.com }

/-- The first loop of `ClusteringAlg::runSeededClustering`: local maxima become
seeds, the other pre-clusters are leftovers. Returns `(seeds, leftovers)`. -/
def findSeeds (d : ℚ) (preClusters : List Cluster) :
    List (Nat × Cluster) → List Cluster × List Cluster → List Cluster × List Cluster
  | [], acc => acc
  | (i, cli) :: rest, (seeds, leftovers) =>
    if isLocalMax d preClusters i cli then
      findSeeds d preClusters rest (seeds ++ [seedCluster cli], leftovers)
    else findSeeds d preClusters rest (seeds, leftovers ++ [cli])

/-- The second loop of `ClusteringAlg::runSeededClustering`: seeds below the density
threshold join the leftovers, the others are appended to the final clusters.
Returns `(clusters, leftovers)`. -/
def selectSeeds (densityTh : ℚ) :
    List Cluster → List Cluster × List Cluster → List Cluster × List Cluster
  | [], acc => acc
  | cl :: rest, (clusters, leftovers) =>
    if cl.density < densityTh then selectSeeds densityTh rest (clusters, leftovers ++ [cl])
    else selectSeeds densityTh rest (clusters ++ [cl], leftovers)

/-- The search of the nearest seed for a leftover, over the clusters `j ≥ 1` with
their indices: the index `icl` when the loop is left. -/
def nearestLoop (cli : Cluster) : List (Nat × Cluster) → Nat → ℚ → Nat
  | [], icl, _ => icl
  | (j, cl) :: rest, icl, minDist2DSq =>
    let dist2DSq := cl.seed.dist2DSq cli.com
    if dist2DSq < minDist2DSq then nearestLoop cli rest j dist2DSq
    else nearestLoop cli rest icl minDist2DSq

/-- One pass of the third loop of `ClusteringAlg::runSeededClustering`: the points of
the leftover are added to the nearest cluster. No value when there is no cluster
(`clusters[0]` is read). -/
def assignLeftover (clusters : List Cluster) (cli : Cluster) : Option (List Cluster) :=
  match clusters with
  | [] => none
  | c0 :: _ =>
    let icl := nearestLoop cli (clusters.enum.drop 1) 0 (c0.seed.dist2DSq cli.com)
    some (clusters.modify (fun cl => cl.addPoints cli) icl)

/-- The third loop of `ClusteringAlg::runSeededClustering` over the leftovers. -/
def assignLeftovers : List Cluster → List Cluster → Option (List Cluster)
  | [], clusters => some clusters
  | cli :: rest, clusters =>
    match assignLeftover clusters cli with
    | none => none
    | some clusters1 => assignLeftovers rest clusters1

/-- Seeded clustering, `ClusteringAlg::runSeededClustering`: the final clusters
are appended to `ds.clusters`. -/
def runSeededClustering (ds : DataSet) (config : Config) : Option DataSet :=
  let found := findSeeds config.densityWindow ds.preClusters ds.preClusters.enum ([], [])
  let selected := selectSeeds config.seedDensityThreshold found.1 (ds.clusters, found.2)
  match assignLeftovers selected.2 selected.1 with
  | none => none
  | some clusters => some { ds with clusters := clusters }

/-- The pooled sums of the first loop of `ClusteringAlg::cleanupClusters`. -/
structure CovSums where
  sx : ℚ
  sz : ℚ
  sxx : ℚ
  szz : ℚ
  sxz : ℚ
  nPoints : ℚ

/-- The body of the first loop of `cleanupClusters` for one point of a cluster. -/
def covAdd (clPos : Point) (s : CovSums) (p : CloudPoint) : CovSums :=
  let dx := clPos.x - p.x
  let dz := clPos.z - p.z
  { sx := s.sx + dx, sz := s.sz + dz, sxx := s.sxx + dx * dx, szz := s.szz + dz * dz,
    sxz := s.sxz + dx * dz, nPoints := s.nPoints + 1 }

/-- The first loop of `cleanupClusters` over all points of all clusters. -/
def covSums (clusters : List Cluster) : CovSums :=
  clusters.foldl (fun s cl => cl.points.foldl (covAdd cl.seed) s) ⟨0, 0, 0, 0, 0, 0⟩

/-- The shared covariance `(sxx, szz, sxz)` of `cleanupClusters`, after the
normalisation by `nPoints` and the subtraction of the means. -/
def covariance (s : CovSums) : ℚ × ℚ × ℚ :=
  let sx := s.sx / s.nPoints
  let sz := s.sz / s.nPoints
  (s.sxx / s.nPoints - sx * sx, s.szz / s.nPoints - sz * sz, s.sxz / s.nPoints - sx * sz)

/-- The determinant `D` of `cleanupClusters`. -/
def covDet (cov : ℚ × ℚ × ℚ) : ℚ := cov.1 * cov.2.1 - cov.2.2 * cov.2.2

/-- The normalised deviation `dS` of a point from the seed position `clPos`. -/
def deviation (cov : ℚ × ℚ × ℚ) (clPos : Point) (p : CloudPoint) : ℚ :=
  let dx := clPos.x - p.x
  let dz := clPos.z - p.z
  (dx * dx * cov.2.1 + dz * dz * cov.1 - 2 * dx * dz * cov.2.2) / covDet cov

/-- The core of one cluster in `cleanupClusters`: the points with `dS ≤ smax`, added
in order to a new cluster. -/
def coreOf (cov : ℚ × ℚ × ℚ) (smax : ℚ) (cl : Cluster) : Cluster :=
  cl.points.foldl
    (fun core p => if deviation cov cl.seed p > smax then core else core.addPoint p)
    Cluster.empty

/-- Outlier removal, `ClusteringAlg::cleanupClusters`: every cluster gets a core. No
value when some cluster has a point and the determinant is zero (`dS` divides by
zero). -/
def cleanupClusters (ds : DataSet) (config : Config) : Option DataSet :=
  let cov := covariance (covSums ds.clusters)
  let smax := config.clusterCoreSize * config.clusterCoreSize
  if ds.clusters.any (fun cl => !cl.points.isEmpty) && decide (covDet cov = 0) then none
  else some { ds with
    clusters := ds.clusters.map (fun cl => { cl with core := some (coreOf cov smax cl) }) }

/-! ## ClassificationAlg: k-means on the PCA colours -/

/-- The state of the loop of `ClassificationAlg::runKmeansOnPCA`. A seed is `none`
when it is not a number (the mean of a group without members, `0/0`): every
comparison with its distance is false. The groups hold the positions of their
members in the input vector `clusters`. -/
structure KmeansState where
  seeds : List (Option Point)
  pcaClusters : List (List Nat)
  converged : Bool
  nIterations : Int
deriving DecidableEq

/-- The draw of one initial seed in `runKmeansOnPCA`: `rand() % clusters.size()`,
repeated while the index is already used. No value when there is no cluster or
when `fuel` draws do not give an unused index. -/
def drawIndex (RAND_MAX : Nat) (nClusters : Nat) (used : List Nat) : Nat → Rng → Option (Nat × Rng)
  | 0, _ => none
  | fuel + 1, rng =>
    if nClusters = 0 then none
    else
      let draw := rand RAND_MAX rng
      let iCl := draw.1 % nClusters
      if used.contains iCl then drawIndex RAND_MAX nClusters used fuel draw.2
      else some (iCl, draw.2)

/-- The initialisation loop of `runKmeansOnPCA`: `kmeans` seeds, the PCA colours of
distinct randomly drawn clusters. -/
def initSeeds (RAND_MAX : Nat) (clusters : List Cluster) (fuel : Nat) :
    Nat → List Point → List Nat → Rng → Option (List Point × Rng)
  | 0, seeds, _, rng => some (seeds, rng)
  | k + 1, seeds, used, rng =>
    match drawIndex RAND_MAX clusters.length used fuel rng with
    | none => none
    | some (iCl, rng1) =>
      match clusters.get? iCl with
      | none => none
      | some cl => initSeeds RAND_MAX clusters fuel k (seeds ++ [cl.pcaColor]) (used ++ [iCl]) rng1

/-- The search of the nearest seed in the assignment step, over the seeds with their
indices: the index `jj` when the loop is left (`-1` when no distance was below the
initial `minDist`). -/
def nearestSeedLoop (pcaColor : Point) : List (Nat × Option Point) → Int → ℚ → Int
  | [], jj, _ => jj
  | (_, none) :: rest, jj, minDist => nearestSeedLoop pcaColor rest jj minDist
  | (j, some seed) :: rest, jj, minDist =>
    let dist := pcaColor.dist3DSq seed
    if dist < minDist then nearestSeedLoop pcaColor rest (j : Int) dist
    else nearestSeedLoop pcaColor rest jj minDist

/-- The group index of one object in the assignment step. -/
def nearestSeed (seeds : List (Option Point)) (cl : Cluster) : Int :=
  nearestSeedLoop cl.pcaColor seeds.enum (-1) 99999

/-- The assignment loop over the input clusters with their positions. No value when
`pcaClusters[jj]` is out of range. -/
def assignLoop (seeds : List (Option Point)) :
    List (Nat × Cluster) → List (List Nat) → Option (List (List Nat))
  | [], pcaClusters => some pcaClusters
  | (i, cl) :: rest, pcaClusters =>
    let jj := nearestSeed seeds cl
    if jj < 0 then none
    else
      match pcaClusters.get? jj.toNat with
      | none => none
      | some group => assignLoop seeds rest (pcaClusters.set jj.toNat (group ++ [i]))

/-- The assignment step of `runKmeansOnPCA`: the groups are cleared, then every
object joins the group of its nearest seed. -/
def assignStep (seeds : List (Option Point)) (clusters : List Cluster)
    (pcaClusters : List (List Nat)) : Option (List (List Nat)) :=
  assignLoop seeds clusters.enum (pcaClusters.map (fun _ => []))

/-- The new seed of a group in the update step: the sum of the PCA colours of its
members divided by their number; not a number for a group without members. -/
def groupMean (clusters : List Cluster) (group : List Nat) : Option Point :=
  let colors := group.filterMap (fun i => (clusters.get? i).map (fun cl => cl.pcaColor))
  if group.length = 0 then none
  else some
    { x := (colors.map (fun c => c.x)).sum / group.length
      y := (colors.map (fun c => c.y)).sum / group.length
      z := (colors.map (fun c => c.z)).sum / group.length }

/-- The test `newSeed.dist3DSq(oldSeed) > 0.001` of the update step. -/
def seedMoved (newSeed oldSeed : Option Point) : Bool :=
  match newSeed, oldSeed with
  | some n, some o => decide (n.dist3DSq o > 1 / 1000)
  | _, _ => false

/-- The update loop of `runKmeansOnPCA` over the groups with their indices: returns
the seeds and the flag `converged`. No value when `seeds[i]` is out of range. -/
def updateLoop (clusters : List Cluster) :
    List (Nat × List Nat) → List (Option Point) → Bool → Option (List (Option Point) × Bool)
  | [], seeds, converged => some (seeds, converged)
  | (i, group) :: rest, seeds, converged =>
    match seeds.get? i with
    | none => none
    | some oldSeed =>
      let newSeed := groupMean clusters group
      updateLoop clusters rest (seeds.set i newSeed)
        (if seedMoved newSeed oldSeed then false else converged)

/-- The loop `while(!converged && nIterations < nIterationsMax)` of
`runKmeansOnPCA`; the first argument is the number of iterations still allowed. -/
def kmeansLoop (clusters : List Cluster) : Nat → KmeansState → Option KmeansState
  | 0, s => some s
  | n + 1, s =>
    if s.converged then some s
    else
      match assignStep s.seeds clusters s.pcaClusters with
      | none => none
      | some pcaClusters =>
        match updateLoop clusters pcaClusters.enum s.seeds true with
        | none => none
        | some (seeds, converged) =>
          kmeansLoop clusters n
            { seeds := seeds, pcaClusters := pcaClusters, converged := converged,
              nIterations := s.nIterations + 1 }

/-- K-means on the PCA colours, `ClassificationAlg::runKmeansOnPCA`. The C++
function returns `nIterations` and fills `pcaClusters`; the final loop state also
holds the local `seeds` and `converged`. `fuel` bounds the draws of one initial
seed. -/
def runKmeansOnPCA (RAND_MAX : Nat) (kmeans : Nat) (clusters : List Cluster)
    (pcaClusters : List (List Nat)) (config : Config) (rng : Rng) (fuel : Nat) :
    Option (KmeansState × Rng) :=
  match initSeeds RAND_MAX clusters fuel kmeans [] [] rng with
  | none => none
  | some (seeds, rng1) =>
    match kmeansLoop clusters config.maxKmeansIterations.toNat
        { seeds := seeds.map some, pcaClusters := pcaClusters, converged := false,
          nIterations := 0 } with
    | none => none
    | some s => some (s, rng1)

/-- All points of a list of clusters, cluster after cluster. -/
def allPoints : List Cluster → List CloudPoint
  | [] => []
  | cl :: rest => cl.points ++ allPoints rest

/-- The seeds that `runSeededClustering` accepts: the local maxima whose density is not
below the threshold. -/
def acceptedSeeds (ds : DataSet) (config : Config) : List Cluster :=
  (selectSeeds config.seedDensityThreshold
    (findSeeds config.densityWindow ds.preClusters ds.preClusters.enum ([], [])).1 ([], [])).1

/-- The cloud points of the rows that come before the first invalid row, with the
identifiers that the reading loop gives them. -/
def rowsBeforeInvalid : List (Option Row) → Int → List CloudPoint
  | [], _ => []
  | none :: rest, nextId => rowsBeforeInvalid rest (nextId + 1)
  | some row :: rest, nextId =>
    if (row.toCloudPoint nextId).isValid then
      row.toCloudPoint nextId :: rowsBeforeInvalid rest (nextId + 1)
    else []

/-! ## ClusteringAlg: pre-clustering and the chain -/

/-- The search of `ClusteringAlg::runPreClustering` for the first pre-cluster whose
center of mass is within `dmin` of the point in `x` and in `z`, over the pre-clusters
with their indices: the index `icl` when the loop is left (`-1` when none matches). -/
def preClusterSearch (dmin : ℚ) (cp : CloudPoint) : List (Nat × Cluster) → Int
  | [] => -1
  | (j, cl) :: rest =>
    if |cl.com.x - cp.x| > dmin then preClusterSearch dmin cp rest
    else if |cl.com.z - cp.z| > dmin then preClusterSearch dmin cp rest
    else (j : Int)

/-- The body of the loop of `ClusteringAlg::runPreClustering` for one point: the point
is added to the pre-cluster found, or to a new pre-cluster appended to the vector. -/
def preClusterStep (skipPreClustering : Bool) (dmin : ℚ) (clusters : List Cluster)
    (cp : CloudPoint) : List Cluster :=
  let icl : Int := if !skipPreClustering then preClusterSearch dmin cp clusters.enum else -1
  if icl ≥ 0 then clusters.modify (fun cl => cl.addPoint cp) icl.toNat
  else clusters ++ [Cluster.empty.addPoint cp]

/-- Pre-clustering, `ClusteringAlg::runPreClustering`: the points of the data set, in
order, are grouped into `ds.preClusters`. -/
def runPreClustering (ds : DataSet) (config : Config) : DataSet :=
  { ds with
    preClusters := ds.points.foldl
      (preClusterStep config.skipPreClustering config.preClusteringSize) ds.preClusters }

/-- The clustering chain `ClusteringAlg::runClustering`: pre-clustering, densities,
seeded clustering, cleanup. -/
def runClustering (ds : DataSet) (config : Config) : Option DataSet :=
  match computeDensities (runPreClustering ds config) config with
  | none => none
  | some ds1 =>
    match runSeededClustering ds1 config with
    | none => none
    | some ds2 => cleanupClusters ds2 config

/-- The clusters that are built from the empty cluster by `addPoint` and `addPoints`
only. -/
inductive Cluster.Built : Cluster → Prop
  | empty : Cluster.Built Cluster.empty
  | addPoint (c : Cluster) (cp : CloudPoint) : Cluster.Built c → Cluster.Built (c.addPoint cp)
  | addPoints (c cl : Cluster) : Cluster.Built c → Cluster.Built (c.addPoints cl)

/-- The local-maximum rule in the words of the specification: no other pre-cluster
inside the window has strictly greater density, and `i < j` for every other
pre-cluster `j` inside the window with the same density. -/
def claimedLocalMax (d : ℚ) (preClusters : List Cluster) (i : Nat) (cli : Cluster) : Bool :=
  preClusters.enum.all (fun x =>
    decide (x.1 = i) || outsideWindow d cli x.2 ||
      (decide (x.2.density ≤ cli.density) &&
        (decide (x.2.density ≠ cli.density) || decide (i < x.1))))

/-- The layer index in the words of the specification: `floor(n * y / y_max)` clamped
into `[0, n-1]`. -/
def claimedLayerIndex (nLayers : Nat) (ymax : ℚ) (p : CloudPoint) : Int :=
  max 0 (min ((nLayers : Int) - 1) (Rat.floor (nLayers * p.y / ymax)))

/-- The points of a cluster that `Cluster::layers` puts into layer `i`. -/
def binPoints (nLayers : Nat) (ymax : ℚ) (points : List CloudPoint) (i : Nat) :
    List CloudPoint :=
  points.filter (fun p => decide (layerIndex nLayers ymax p = some (i : Int)))

/-- The exact averages of the `r`, `g` and `b` of a sequence of cloud points. -/
def meanColour (ps : List CloudPoint) : ℚ × ℚ × ℚ :=
  (((ps.map (fun p => p.r)).sum : ℚ) / ps.length,
   ((ps.map (fun p => p.g)).sum : ℚ) / ps.length,
   ((ps.map (fun p => p.b)).sum : ℚ) / ps.length)

/-- A layer to which the `y`, `r`, `g`, `b` of a sequence of points have been added. -/
def layerAdd (layer : CloudPoint) (qs : List CloudPoint) : CloudPoint :=
  { layer with
    y := layer.y + (qs.map (fun p => p.y)).sum
    r := layer.r + (qs.map (fun p => p.r)).sum
    g := layer.g + (qs.map (fun p => p.g)).sum
    b := layer.b + (qs.map (fun p => p.b)).sum }

/-! ## ClassificationAlg: the unsupervised classification -/

/-- The class names that `ClassificationAlg::runPCA` pushes to `m_classNames`, by class
id. -/
def classNames : List String := ["TeamA", "TeamB", "Referees"]

/-- The search of `runPCA` for the group of the referees, over the groups with their
indices: `iReferees` when the loop is left, from the running `iReferees` and `minSize`. -/
def findReferees : List (Nat × List Nat) → Int → Nat → Int
  | [], iReferees, _ => iReferees
  | (i, group) :: rest, iReferees, minSize =>
    if group.length < minSize then findReferees rest (i : Int) group.length
    else findReferees rest iReferees minSize

/-- The index `iReferees` of `runPCA`: the search starts from `-1` and `minSize = 999`. -/
def refereesIndex (pcaClusters : List (List Nat)) : Int :=
  findReferees pcaClusters.enum (-1) 999

/-- The class id `thisClassId` that the labelling loop of `runPCA` gives to group `i`,
from the running `classId`: the last class id for the group of the referees. -/
def thisClassId (nGroups : Nat) (iReferees : Int) (i : Nat) (classId : Int) : Int :=
  if (i : Int) = iReferees then (nGroups : Int) - 1 else classId

/-- The class ids of the groups in the labelling loop of `runPCA`, over the groups with
their indices, from the running `classId`. -/
def groupClassIds (nGroups : Nat) (iReferees : Int) : List (Nat × List Nat) → Int → List Int
  | [], _ => []
  | (i, _) :: rest, classId =>
    thisClassId nGroups iReferees i classId ::
      groupClassIds nGroups iReferees rest
        (if (i : Int) = iReferees then classId else classId + 1)

/-- The inner loop of the labelling of `runPCA`: `setClassId` on every member of a
group; the members are positions in the vector of the k-means inputs. -/
def setGroupClassId (classId : Int) (group : List Nat) (inputs : List Cluster) : List Cluster :=
  group.foldl (fun objs j => objs.modify (fun cl => { cl with classId := classId }) j) inputs

/-- The labelling loop of `runPCA` over the groups with their indices, from the running
`classId`. -/
def labelLoop (nGroups : Nat) (iReferees : Int) :
    List (Nat × List Nat) → Int → List Cluster → List Cluster
  | [], _, inputs => inputs
  | (i, group) :: rest, classId, inputs =>
    labelLoop nGroups iReferees rest
      (if (i : Int) = iReferees then classId else classId + 1)
      (setGroupClassId (thisClassId nGroups iReferees i classId) group inputs)

/-- The labelling of `runPCA`: the smallest group is searched, then every object gets
the class id of its group. -/
def labelGroups (pcaClusters : List (List Nat)) (inputs : List Cluster) : List Cluster :=
  labelLoop pcaClusters.length (refereesIndex pcaClusters) pcaClusters.enum 0 inputs

/-- The feature vector of a layer profile: `r`, `g`, `b` of every layer. -/
def featureRow (layers : List CloudPoint) : List ℚ :=
  layers.flatMap (fun p => [(p.r : ℚ), (p.g : ℚ), (p.b : ℚ)])

/-- The call of `layers(nLayers)` on every cluster of a vector, in order: the profiles
and the clusters with their caches updated. -/
def layersEach (nLayers : Nat) :
    List Cluster → Int → Option (List (List CloudPoint) × List Cluster × Int)
  | [], nextId => some ([], [], nextId)
  | pl :: rest, nextId =>
    match pl.layers nLayers nextId with
    | none => none
    | some (layers, pl1, id1) =>
      match layersEach nLayers rest id1 with
      | none => none
      | some (ls, rest1, id2) => some (layers :: ls, pl1 :: rest1, id2)

/-- The loop of `ClassificationAlg::trainPCA` over the training clusters: the core of
each is split and the feature vector of every sub-cluster is a row of the PCA. Returns
the rows and the training clusters (the caches of the cores and of their sub-clusters
are updated). No value when a cluster has no core. -/
def trainPCALoop (RAND_MAX : Nat) (config : Config) :
    List Cluster → Rng → Int → Option (List (List ℚ) × List Cluster × Rng × Int)
  | [], rng, nextId => some ([], [], rng, nextId)
  | bigCl :: rest, rng, nextId =>
    match bigCl.core with
    | none => none
    | some core =>
      let split := Cluster.randomSplit RAND_MAX core config.trainingClustersSplitN
        config.trainingClustersSplitF rng
      match layersEach config.nLayersPerCluster split.1 nextId with
      | none => none
      | some (ls, subs, id1) =>
        match trainPCALoop RAND_MAX config rest split.2.2 id1 with
        | none => none
        | some (rows, rest1, rng1, id2) =>
          some (ls.map featureRow ++ rows,
            { bigCl with core := some { split.2.1 with m_splitClusters := subs } } :: rest1,
            rng1, id2)

/-- The first loop of `runPCA` over the training clusters: the core of each is split
again, and the core and its sub-clusters are pushed to `kmeansInputs`. Returns the
training clusters and the objects that `kmeansInputs` points to, in order. -/
def kmeansInputsLoop (RAND_MAX : Nat) (config : Config) :
    List Cluster → Rng → Option (List Cluster × List Cluster × Rng)
  | [], rng => some ([], [], rng)
  | bigCl :: rest, rng =>
    match bigCl.core with
    | none => none
    | some core =>
      let split := Cluster.randomSplit RAND_MAX core config.trainingClustersSplitN
        config.trainingClustersSplitF rng
      match kmeansInputsLoop RAND_MAX config rest split.2.2 with
      | none => none
      | some (rest1, inputs, rng1) =>
        some ({ bigCl with core := some split.2.1 } :: rest1,
          split.2.1 :: split.1 ++ inputs, rng1)

/-- The second loop of `runPCA`: the cores of the evaluation clusters, which are pushed
to `kmeansInputs`. No value when a cluster has no core. -/
def evaluationCores : List Cluster → Option (List Cluster)
  | [] => some []
  | cl :: rest =>
    match cl.core, evaluationCores rest with
    | some core, some cores => some (core :: cores)
    | _, _ => none

/-- The loop of `ClassificationAlg::applyPCA`: the feature vector of every object is
projected and its three leading components become the object's `pcaColor`. `X2P` is the
projection of the trained `TPrincipal` (a class of the ROOT library). No value when the
projection has fewer than three components. -/
def applyPCA (X2P : List ℚ → List ℚ) (nLayers : Nat) :
    List Cluster → Int → Option (List Cluster × Int)
  | [], nextId => some ([], nextId)
  | cl :: rest, nextId =>
    match cl.layers nLayers nextId with
    | none => none
    | some (layers, cl1, id1) =>
      match X2P (featureRow layers) with
      | p0 :: p1 :: p2 :: _ =>
        match applyPCA X2P nLayers rest id1 with
        | none => none
        | some (rest1, id2) => some ({ cl1 with pcaColor := ⟨p0, p1, p2⟩ } :: rest1, id2)
      | _ => none

/-- The objects of `kmeansInputs` at their places in the training clusters: for each
cluster the next object is its core and the following ones are the sub-clusters of that
core. Returns the clusters and the objects that are left. -/
def storeTrainingInputs : List Cluster → List Cluster → Option (List Cluster × List Cluster)
  | [], objs => some ([], objs)
  | bigCl :: rest, objs =>
    match bigCl.core, objs with
    | some core, obj :: objs1 =>
      if core.m_splitClusters.length ≤ objs1.length then
        match storeTrainingInputs rest (objs1.drop core.m_splitClusters.length) with
        | none => none
        | some (rest1, left) =>
          some ({ bigCl with
                  core := some { obj with
                    m_splitClusters := objs1.take core.m_splitClusters.length } } :: rest1,
            left)
      else none
    | _, _ => none

/-- The objects of `kmeansInputs` at their places in the evaluation clusters: the next
object is the core of the next cluster. -/
def storeEvaluationInputs : List Cluster → List Cluster → Option (List Cluster)
  | [], _ => some []
  | _ :: _, [] => none
  | cl :: rest, obj :: objs =>
    match storeEvaluationInputs rest objs with
    | none => none
    | some rest1 => some ({ cl with core := some obj } :: rest1)

/-- The last loops of `runPCA`: the class id of every cluster becomes the class id of
its core. No value when a cluster has no core. -/
def mirrorClassIds : List Cluster → Option (List Cluster)
  | [] => some []
  | cl :: rest =>
    match cl.core, mirrorClassIds rest with
    | some core, some rest1 => some ({ cl with classId := core.classId } :: rest1)
    | _, _ => none

/-- The unsupervised classification `ClassificationAlg::runPCA`. `fit` is the training
of the `TPrincipal` of the ROOT library (`AddRow`, `MakePrincipals`): from the training
rows to the projection `X2P`. The objects behind the pointers of `kmeansInputs` are
held in one list, in the order of the pointers, and stored at their places in the data
sets after the labelling. Returns the two data sets, `m_classNames`, the generator and
the identifier counter. -/
def runPCA (RAND_MAX : Nat) (fit : List (List ℚ) → List ℚ → List ℚ)
    (trainingDS evaluationDS : DataSet) (config : Config) (rng : Rng) (nextId : Int)
    (fuel : Nat) : Option (DataSet × DataSet × List String × Rng × Int) :=
  match trainPCALoop RAND_MAX config trainingDS.clusters rng nextId with
  | none => none
  | some (rows, training1, rng1, id1) =>
    match kmeansInputsLoop RAND_MAX config training1 rng1,
        evaluationCores evaluationDS.clusters with
    | some (training2, trainingInputs, rng2), some evaluationInputs =>
      match applyPCA (fit rows) config.nLayersPerCluster
          (trainingInputs ++ evaluationInputs) id1 with
      | none => none
      | some (kmeansInputs, id2) =>
        match runKmeansOnPCA RAND_MAX 3 kmeansInputs [[], [], []] config rng2 fuel with
        | none => none
        | some (s, rng3) =>
          match storeTrainingInputs training2 (labelGroups s.pcaClusters kmeansInputs) with
          | none => none
          | some (training3, left) =>
            match storeEvaluationInputs evaluationDS.clusters left with
            | none => none
            | some evaluation3 =>
              match mirrorClassIds training3, mirrorClassIds evaluation3 with
              | some training4, some evaluation4 =>
                some ({ trainingDS with clusters := training4 },
                  { evaluationDS with clusters := evaluation4 }, classNames, rng3, id2)
              | _, _ => none
    | _, _ => none

/-! ## The scenario of two separate blobs -/

/-- The first three stages of `ClusteringAlg::runClustering`: pre-clustering, densities,
seeded clustering. -/
def runSeededPipeline (ds : DataSet) (config : Config) : Option DataSet :=
  match computeDensities (runPreClustering ds config) config with
  | none => none
  | some ds1 => runSeededClustering ds1 config

/-- The centre `(0, 0, 0)` of the first blob of the scenario. -/
def blobA : Point := ⟨0, 0, 0⟩

/-- The centre `(10, 0, 0)` of the second blob of the scenario. -/
def blobB : Point := ⟨10, 0, 0⟩

/-- Whether a cloud point lies within the distance `radius` of `centre`. -/
def inBlob (centre : Point) (radius : ℚ) (p : CloudPoint) : Bool :=
  decide (centre.dist3DSq p.toPoint ≤ radius * radius)

/-- A cluster of points of one blob of radius `1/4`: it has points, all of them lie in
the blob around `centre`, and its center of mass lies within `1/4` of `centre` in `x`
and in `z`. -/
def Cluster.Pure (centre : Point) (c : Cluster) : Prop :=
  c.points ≠ [] ∧ (∀ p ∈ c.points, inBlob centre (1 / 4) p = true) ∧
  |c.com.x - centre.x| ≤ 1 / 4 ∧ |c.com.z - centre.z| ≤ 1 / 4

/-- A final cluster of one blob: all its points lie in the blob around `centre`, its
seed position lies within `1/4` of `centre` in `x` and in `z`, and its density is `1`. -/
def Cluster.Owned (centre : Point) (c : Cluster) : Prop :=
  (∀ p ∈ c.points, inBlob centre (1 / 4) p = true) ∧
  |c.seed.x - centre.x| ≤ 1 / 4 ∧ |c.seed.z - centre.z| ≤ 1 / 4 ∧ c.density = 1

/-- The pre-clusters that have no later pre-cluster on their side of `x = 5`, in order. -/
def lastOfSide : List Cluster → List Cluster
  | [] => []
  | c :: rest =>
    if rest.any (fun d => decide (d.com.x < 5) == decide (c.com.x < 5)) then lastOfSide rest
    else c :: lastOfSide rest

/-! ## Statements of the pre-clustering, density and cleanup rules -/

/-- The box test of the pre-clustering rule: the center of mass of `cl` differs from
the point `cp` by at most `dmin` in `x` and in `z`. -/
def withinBox (dmin : ℚ) (cl : Cluster) (cp : CloudPoint) : Prop :=
  |cl.com.x - cp.x| ≤ dmin ∧ |cl.com.z - cp.z| ≤ dmin

/-- The raw density of the density rule as it is stated: the sum of the point counts of
the pre-clusters `clj` whose center of mass differs from that of `cli` by at most `d`
in `x` and in `z`. -/
def claimedRawDensity (d : ℚ) (preClusters : List Cluster) (cli : Cluster) : ℚ :=
  (preClusters.map (fun clj =>
    if |clj.com.x - cli.com.x| ≤ d ∧ |clj.com.z - cli.com.z| ≤ d then (clj.points.length : ℚ)
    else 0)).sum

/-- The offsets `(dx, dz) = seed - point` of all points of all clusters, cluster after
cluster. -/
def seedOffsets : List Cluster → List (ℚ × ℚ)
  | [] => []
  | cl :: rest => cl.points.map (fun p => (cl.seed.x - p.x, cl.seed.z - p.z)) ++ seedOffsets rest

/-- The arithmetic mean of a list of numbers. -/
def listMean (xs : List ℚ) : ℚ := xs.sum / xs.length

/-- The covariance `(sxx, szz, sxz)` of the offsets `(dx, dz)` pooled over all points of
all clusters: the means of `(dx - mx)²`, `(dz - mz)²` and `(dx - mx)(dz - mz)`, with `mx`
and `mz` the means of `dx` and `dz`. -/
def pooledCovariance (clusters : List Cluster) : ℚ × ℚ × ℚ :=
  let o := seedOffsets clusters
  let mx := listMean (o.map Prod.fst)
  let mz := listMean (o.map Prod.snd)
  (listMean (o.map (fun d => (d.1 - mx) * (d.1 - mx))),
   listMean (o.map (fun d => (d.2 - mz) * (d.2 - mz))),
   listMean (o.map (fun d => (d.1 - mx) * (d.2 - mz))))

/-- The normalised deviation of the cleanup rule as it is stated:
`(dx²·szz + dz²·sxx − 2·dx·dz·sxz) / (sxx·szz − sxz²)` for `cov = (sxx, szz, sxz)`. -/
def claimedDeviation (cov : ℚ × ℚ × ℚ) (seed : Point) (p : CloudPoint) : ℚ :=
  ((seed.x - p.x) ^ 2 * cov.2.1 + (seed.z - p.z) ^ 2 * cov.1
      - 2 * (seed.x - p.x) * (seed.z - p.z) * cov.2.2)
    / (cov.1 * cov.2.1 - cov.2.2 ^ 2)

/-! ## Statements about the final clusters of the seeded clustering -/

/-- The pre-clusters from which `runSeededClustering` seeds its final clusters, in
order: the local maxima whose density is not below the threshold. -/
def seedingPreClusters (ds : DataSet) (config : Config) : List Cluster :=
  (ds.preClusters.enum.filter (fun x =>
    isLocalMax config.densityWindow ds.preClusters x.1 x.2
      && !decide (x.2.density < config.seedDensityThreshold))).map Prod.snd

/-- A final cluster `fin` that came from the seed cluster `s` by absorbing leftovers:
only the points and the center of mass differ, and the points of `s` come first. -/
def Cluster.Absorbed (s fin : Cluster) : Prop :=
  fin = { s with points := fin.points, com := fin.com } ∧ s.points <+: fin.points

/-- The coordinate-wise arithmetic mean of the PCA colours of a list of objects. -/
def meanPcaColor (members : List Cluster) : Point :=
  { x := listMean (members.map (fun cl => cl.pcaColor.x))
    y := listMean (members.map (fun cl => cl.pcaColor.y))
    z := listMean (members.map (fun cl => cl.pcaColor.z)) }

/-! ## Statements about the loop of the k-means -/

/-- One pass of the body of the loop of `runKmeansOnPCA`: the assignment step, the update
step and `nIterations++`. -/
def kmeansIteration (clusters : List Cluster) (s : KmeansState) : Option KmeansState :=
  match assignStep s.seeds clusters s.pcaClusters with
  | none => none
  | some pcaClusters =>
    match updateLoop clusters pcaClusters.enum s.seeds true with
    | none => none
    | some (seeds, converged) =>
      some { seeds := seeds, pcaClusters := pcaClusters, converged := converged,
             nIterations := s.nIterations + 1 }

/-- The state after `k` passes of the loop body, one after the other. -/
def kmeansIterations (clusters : List Cluster) : Nat → KmeansState → Option KmeansState
  | 0, s => some s
  | k + 1, s =>
    match kmeansIteration clusters s with
    | none => none
    | some s1 => kmeansIterations clusters k s1

/-- The stopping rule as it is stated, for one seed: the seed moved by less than `0.001`
in squared distance from its previous value; a distance that is not a number is not less
than `0.001`. -/
def claimedSeedSettled (newSeed oldSeed : Option Point) : Bool :=
  match newSeed, oldSeed with
  | some n, some o => decide (n.dist3DSq o < 1 / 1000)
  | _, _ => false

/-- Every seed that is a point is at a squared distance below `99999` from the PCA colour
of every object, and at least one seed is a point. -/
def seedsNear (clusters : List Cluster) (seeds : List (Option Point)) : Prop :=
  (∀ p, some p ∈ seeds → ∀ cl ∈ clusters, cl.pcaColor.dist3DSq p < 99999) ∧
  ∃ p, some p ∈ seeds

/-! ## Example inputs -/

/-- A data set with one final cluster of three points around its seed. -/
def exampleCleanupData : DataSet :=
  { DataSet.empty with
    clusters :=
      [ { Cluster.empty with
          points := [⟨⟨1, 0, 0⟩, 1, 2, 3, 2001⟩, ⟨⟨0, 0, 1⟩, 4, 5, 6, 2002⟩,
                     ⟨⟨0, 0, 0⟩, 7, 8, 9, 2003⟩] } ] }

/-- A configuration with the default values of the command line. -/
def exampleConfig : Config where
  evaluationDataFraction := 1 / 5
  skipPreClustering := false
  preClusteringSize := 1 / 5
  densityWindow := 1 / 2
  seedDensityThreshold := 1 / 2
  clusterCoreSize := 2
  nLayersPerCluster := 5
  trainingClustersSplitN := 300
  trainingClustersSplitF := 1 / 4
  maxKmeansIterations := 1000

/-- Three pre-clusters built by `addPoint`: two close to each other, one far away. -/
def examplePreClusterData : DataSet :=
  { DataSet.empty with
    preClusters :=
      [ (Cluster.empty.addPoint ⟨⟨0, 0, 0⟩, 10, 20, 30, 2001⟩).addPoint
          ⟨⟨1 / 5, 0, 0⟩, 10, 20, 30, 2002⟩,
        Cluster.empty.addPoint ⟨⟨2 / 5, 1, 1 / 10⟩, 40, 50, 60, 2003⟩,
        Cluster.empty.addPoint ⟨⟨10, 0, 0⟩, 70, 80, 90, 2004⟩ ] }

/-- The pre-clusters of `examplePreClusterData` with their normalised densities. -/
def exampleDensityData : DataSet :=
  { DataSet.empty with
    preClusters :=
      [ { (Cluster.empty.addPoint ⟨⟨0, 0, 0⟩, 10, 20, 30, 2001⟩).addPoint
            ⟨⟨1 / 5, 0, 0⟩, 10, 20, 30, 2002⟩ with density := 1 },
        { Cluster.empty.addPoint ⟨⟨2 / 5, 1, 1 / 10⟩, 40, 50, 60, 2003⟩ with density := 1 },
        { Cluster.empty.addPoint ⟨⟨10, 0, 0⟩, 70, 80, 90, 2004⟩ with density := 1 / 3 } ] }

/-- A cluster without points whose PCA colour is `(x, 0, 0)`. -/
def exampleObject (x : ℚ) : Cluster :=
  { Cluster.empty with pcaColor := ⟨x, 0, 0⟩ }

/-- Five k-means inputs on a line; the fourth is as far from the first as from the
second. -/
def exampleObjects : List Cluster :=
  [exampleObject 0, exampleObject 1, exampleObject 10, exampleObject (1 / 2),
   exampleObject (-53 / 100)]

/-- Three k-means inputs far from each other. -/
def exampleSeparatedObjects : List Cluster :=
  [exampleObject 0, exampleObject 1, exampleObject 10]

/-- A cluster of two points built by `addPoint`, with empty caches. -/
def exampleCluster : Cluster :=
  (Cluster.empty.addPoint ⟨⟨0, 1, 0⟩, 10, 20, 30, 2001⟩).addPoint ⟨⟨0, 4, 0⟩, 20, 40, 60, 2002⟩

/-- A cluster of one point built by `addPoint`, with empty caches. -/
def exampleSingleton : Cluster :=
  Cluster.empty.addPoint ⟨⟨0, 1, 0⟩, 10, 20, 30, 2001⟩

/-- An input file of two rows: a valid one, then one with `r = 256`. -/
def exampleRows : List (Option Row) :=
  [some ⟨0, 0, 0, 1, 1, 1⟩, some ⟨0, 0, 0, 256, 0, 0⟩]

/-- Two clusters with the seed positions `(0, 0, 0)` and `(10, 0, 0)`. -/
def exampleSeedClusters : List Cluster :=
  [{ Cluster.empty with seed := ⟨0, 0, 0⟩ }, { Cluster.empty with seed := ⟨10, 0, 0⟩ }]

/-- A cluster of two points built by `addPoint`, the first below the ground (`y = -1`). -/
def exampleNegativeCluster : Cluster :=
  (Cluster.empty.addPoint ⟨⟨0, -1, 0⟩, 10, 20, 30, 2001⟩).addPoint ⟨⟨0, 1, 0⟩, 20, 40, 60, 2002⟩

/-- A cluster of two points built by `addPoint` whose colour sums are odd. -/
def exampleOddCluster : Cluster :=
  (Cluster.empty.addPoint ⟨⟨0, 1, 0⟩, 1, 1, 1, 2001⟩).addPoint ⟨⟨0, 2, 0⟩, 2, 3, 4, 2002⟩

/-- A final cluster of one point with the colour `(c, c, c)`, whose core holds the same
point. -/
def exampleClassified (c : Int) (id : Int) : Cluster :=
  { Cluster.empty.addPoint ⟨⟨0, 1, 0⟩, c, c, c, id⟩ with
    core := some (Cluster.empty.addPoint ⟨⟨0, 1, 0⟩, c, c, c, id⟩) }

/-- A training data set of two final clusters with their cores. -/
def exampleTrainingData : DataSet :=
  { DataSet.empty with clusters := [exampleClassified 10 2001, exampleClassified 100 2002] }

/-- An evaluation data set of one final cluster with its core. -/
def exampleEvaluationData : DataSet :=
  { DataSet.empty with clusters := [exampleClassified 12 2003] }

/-- A configuration with one layer per cluster, one sub-cluster per training cluster and
at most ten k-means iterations. -/
def exampleClassificationConfig : Config :=
  { exampleConfig with
    nLayersPerCluster := 1
    trainingClustersSplitN := 1
    trainingClustersSplitF := 1 / 2
    maxKmeansIterations := 10 }

/-- Three k-means groups of 1000, 999 and 1001 members out of 3000 objects. -/
def exampleLargeGroups : List (List Nat) :=
  [List.range' 0 1000, List.range' 1000 999, List.range' 1999 1001]

/-- Two blobs of radius below `1`: one point at the centre `(0, 0, 0)`, and one at
`(1/10, 0, 0)`; one point at the centre `(10, 0, 0)`. -/
def exampleUnequalBlobs : DataSet :=
  { DataSet.empty with
    points := [⟨⟨0, 0, 0⟩, 10, 20, 30, 2001⟩, ⟨⟨1 / 10, 0, 0⟩, 10, 20, 30, 2002⟩,
               ⟨⟨10, 0, 0⟩, 40, 50, 60, 2003⟩] }

/-- Two blobs of radius below `1`: points at `(-9/10, 0, 0)` and `(9/10, 0, 0)` around
the centre `(0, 0, 0)`; one point at the centre `(10, 0, 0)`. -/
def exampleWideBlobs : DataSet :=
  { DataSet.empty with
    points := [⟨⟨-9 / 10, 0, 0⟩, 10, 20, 30, 2001⟩, ⟨⟨9 / 10, 0, 0⟩, 10, 20, 30, 2002⟩,
               ⟨⟨10, 0, 0⟩, 40, 50, 60, 2003⟩] }

/-- Two blobs of radius `1/4` with two points each, the points of the two blobs
alternating. -/
def exampleTightBlobs : DataSet :=
  { DataSet.empty with
    points := [⟨⟨-1 / 4, 0, 0⟩, 10, 20, 30, 2001⟩, ⟨⟨10, 0, 1 / 4⟩, 40, 50, 60, 2002⟩,
               ⟨⟨1 / 4, 0, 0⟩, 10, 20, 30, 2003⟩, ⟨⟨10, 0, -1 / 4⟩, 40, 50, 60, 2004⟩] }

/-- The configuration `exampleConfig` with pre-clustering switched off. -/
def exampleSkipConfig : Config :=
  { exampleConfig with skipPreClustering := true }

/-- The configuration `exampleConfig` with a negative density window. -/
def exampleNegativeWindowConfig : Config :=
  { exampleConfig with densityWindow := -1 }

/-- Four k-means inputs on a line, the last one far from the others. -/
def exampleFarObjects : List Cluster :=
  [exampleObject 0, exampleObject 1, exampleObject 2, exampleObject 400]

/-- Three k-means inputs, the first two with the same PCA colour. -/
def exampleTiedObjects : List Cluster :=
  [exampleObject 0, exampleObject 0, exampleObject 10]

/-- The configuration `exampleConfig` with `clusterCoreSize = 3`. -/
def exampleLargeCoreConfig : Config :=
  { exampleConfig with clusterCoreSize := 3 }

/-! ## Center of mass -/

theorem Cluster.addPoint_points (c : Cluster) (cp : CloudPoint) :
    (c.addPoint cp).points = c.points ++ [cp] := rfl

theorem Cluster.foldl_addPoint_points (ps : List CloudPoint) (c : Cluster) :
    (ps.foldl Cluster.addPoint c).points = c.points ++ ps := by
  induction ps generalizing c with
  | nil => simp
  | cons p ps ih => simp [List.foldl_cons, ih, Cluster.addPoint_points]

theorem Cluster.addPoints_points (c cl : Cluster) :
    (c.addPoints cl).points = c.points ++ cl.points :=
  Cluster.foldl_addPoint_points cl.points c

theorem running_mean_step (m s p : ℚ) (n : ℕ) (h : m * n = s) :
    (m * n + p) / ((n : ℚ) + 1) * ((n + 1 : ℕ) : ℚ) = s + p := by
  have hn : ((n : ℚ) + 1) ≠ 0 := by positivity
  push_cast
  rw [div_mul_cancel₀ _ hn, h]

theorem Cluster.addPoint_comIsMean (c : Cluster) (cp : CloudPoint) (h : c.ComIsMean) :
    (c.addPoint cp).ComIsMean := by
  obtain ⟨hx, hy, hz⟩ := h
  refine ⟨?_, ?_, ?_⟩
  · simpa [Cluster.addPoint] using running_mean_step _ _ cp.x _ hx
  · simpa [Cluster.addPoint] using running_mean_step _ _ cp.y _ hy
  · simpa [Cluster.addPoint] using running_mean_step _ _ cp.z _ hz

theorem Cluster.foldl_addPoint_comIsMean (ps : List CloudPoint) (c : Cluster)
    (h : c.ComIsMean) : (ps.foldl Cluster.addPoint c).ComIsMean := by
  induction ps generalizing c with
  | nil => simpa using h
  | cons p ps ih => exact ih _ (Cluster.addPoint_comIsMean c p h)

theorem Cluster.empty_comIsMean : Cluster.empty.ComIsMean := by
  simp [Cluster.ComIsMean, Cluster.empty, Point.origin]

theorem Cluster.com_eq_meanPoint (c : Cluster) (h : c.ComIsMean) (hne : c.points ≠ []) :
    c.com = meanPoint c.points := by
  obtain ⟨hx, hy, hz⟩ := h
  have hn : (c.points.length : ℚ) ≠ 0 := by
    have : c.points.length ≠ 0 := fun h0 => hne (List.length_eq_zero.mp h0)
    exact_mod_cast this
  have e : ∀ (m s : ℚ), m * (c.points.length : ℚ) = s → m = s / c.points.length := by
    intro m s hms
    rw [← hms, mul_div_cancel_right₀ _ hn]
  cases hc : c.com with
  | mk cx cy cz =>
    rw [hc] at hx hy hz
    simp only [meanPoint, Point.mk.injEq]
    exact ⟨e _ _ hx, e _ _ hy, e _ _ hz⟩

theorem meanPoint_perm {ps qs : List CloudPoint} (h : ps.Perm qs) :
    meanPoint ps = meanPoint qs := by
  simp only [meanPoint, (h.map _).sum_eq, h.length_eq]

theorem Cluster.foldl_addPoint_empty_com (ps : List CloudPoint) :
    (ps.foldl Cluster.addPoint Cluster.empty).com = meanPoint ps := by
  cases ps with
  | nil => simp [meanPoint, Cluster.empty, Point.origin]
  | cons p ps =>
    have h := Cluster.com_eq_meanPoint _
      (Cluster.foldl_addPoint_comIsMean (p :: ps) Cluster.empty Cluster.empty_comIsMean)
      (by rw [Cluster.foldl_addPoint_points]; simp [Cluster.empty])
    rw [h, Cluster.foldl_addPoint_points]
    simp [Cluster.empty]

/-- C1: for every sequence of points added by `addPoint` to an initially empty
cluster, `com` is the coordinate-wise arithmetic mean of the added points (for the
empty sequence both are the origin), and so it is the same for every permutation
of the sequence. -/
theorem Cluster.com_is_mean_of_added_points (ps : List CloudPoint) :
    (ps.foldl Cluster.addPoint Cluster.empty).com = meanPoint ps ∧
    ∀ qs : List CloudPoint, ps.Perm qs →
      (qs.foldl Cluster.addPoint Cluster.empty).com
        = (ps.foldl Cluster.addPoint Cluster.empty).com := by
  refine ⟨Cluster.foldl_addPoint_empty_com ps, ?_⟩
  intro qs h
  rw [Cluster.foldl_addPoint_empty_com, Cluster.foldl_addPoint_empty_com, meanPoint_perm h]

/-! ## Validity of a cloud point -/

theorem CloudPoint.isValid_channels (p : Point) (r g b id : Int) :
    (⟨p, r, g, b, id⟩ : CloudPoint).isValid = true ↔
      (0 ≤ r ∧ r < 256) ∧ (0 ≤ g ∧ g < 256) ∧ (0 ≤ b ∧ b < 256) := by
  simp [CloudPoint.isValid, and_assoc]

/-- C6: for all integers `r`, `g`, `b`, `isValid` holds exactly when each of them is
in `[0, 256)`; a point with `r = 256` is invalid and a point with `r = 255` is
valid exactly when `g` and `b` are in range. -/
theorem CloudPoint.isValid_iff_channels_in_range (p : Point) (r g b id : Int) :
    ((⟨p, r, g, b, id⟩ : CloudPoint).isValid = true ↔
      (0 ≤ r ∧ r < 256) ∧ (0 ≤ g ∧ g < 256) ∧ (0 ≤ b ∧ b < 256)) ∧
    (⟨p, 256, g, b, id⟩ : CloudPoint).isValid = false ∧
    ((⟨p, 255, g, b, id⟩ : CloudPoint).isValid = true ↔
      (0 ≤ g ∧ g < 256) ∧ (0 ≤ b ∧ b < 256)) := by
  refine ⟨?_, ?_, ?_⟩
  · simp [CloudPoint.isValid, and_assoc]
  · simp [CloudPoint.isValid]
  · simp [CloudPoint.isValid, and_assoc]

/-! ## Outlier removal -/

theorem coreFold_sublist (keep : CloudPoint → Bool) (ps : List CloudPoint) (core : Cluster) :
    ∃ qs, qs.Sublist ps ∧
      (ps.foldl (fun core p => if keep p then core.addPoint p else core) core).points
        = core.points ++ qs := by
  induction ps generalizing core with
  | nil => exact ⟨[], List.Sublist.refl _, by simp⟩
  | cons p ps ih =>
    rw [List.foldl_cons]
    by_cases hk : keep p = true
    · obtain ⟨qs, hsub, heq⟩ := ih (core.addPoint p)
      refine ⟨p :: qs, hsub.cons₂ p, ?_⟩
      simp only [hk, if_true] at heq ⊢
      rw [heq, Cluster.addPoint_points]
      simp
    · obtain ⟨qs, hsub, heq⟩ := ih core
      refine ⟨qs, hsub.cons p, ?_⟩
      simp only [hk] at heq ⊢
      exact heq

theorem coreOf_points_sublist (cov : ℚ × ℚ × ℚ) (smax : ℚ) (cl : Cluster) :
    (coreOf cov smax cl).points.Sublist cl.points := by
  obtain ⟨qs, hsub, heq⟩ :=
    coreFold_sublist (fun p => !decide (deviation cov cl.seed p > smax)) cl.points Cluster.empty
  have h : (coreOf cov smax cl).points = qs := by
    have e : (coreOf cov smax cl) =
        cl.points.foldl (fun core p =>
          if (fun p => !decide (deviation cov cl.seed p > smax)) p then core.addPoint p
          else core) Cluster.empty := by
      unfold coreOf
      congr 1
      funext core p
      by_cases hd : deviation cov cl.seed p > smax <;> simp [hd]
    rw [e, heq]
    simp [Cluster.empty]
  rw [h]
  exact hsub

theorem cleanupClusters_eq_some (ds ds1 : DataSet) (config : Config)
    (h : cleanupClusters ds config = some ds1) :
    ds1.clusters = ds.clusters.map (fun cl =>
      { cl with core := some (coreOf (covariance (covSums ds.clusters))
          (config.clusterCoreSize * config.clusterCoreSize) cl) }) := by
  unfold cleanupClusters at h
  simp only at h
  split at h
  · exact absurd h (by simp)
  · simp only [Option.some.injEq] at h
    rw [← h]

theorem cleanupClusters_isSome_of_det_ne_zero (ds : DataSet) (config : Config)
    (hD : covDet (covariance (covSums ds.clusters)) ≠ 0) :
    (cleanupClusters ds config).isSome = true := by
  unfold cleanupClusters
  simp [hD]

/-- C4: after `cleanupClusters`, every final cluster has a core whose point sequence
is a sub-sequence (same relative order) of the cluster's point sequence, so the core
has at most as many points as the cluster. -/
theorem cleanupClusters_core_sublist (ds ds1 : DataSet) (config : Config)
    (h : cleanupClusters ds config = some ds1) :
    ∀ cl ∈ ds1.clusters, ∃ core, cl.core = some core ∧
      core.points.Sublist cl.points ∧ core.points.length ≤ cl.points.length := by
  intro cl hcl
  rw [cleanupClusters_eq_some ds ds1 config h, List.mem_map] at hcl
  obtain ⟨cl0, _, rfl⟩ := hcl
  exact ⟨_, rfl, coreOf_points_sublist _ _ cl0, (coreOf_points_sublist _ _ cl0).length_le⟩

theorem exampleCleanupData_isSome :
    (cleanupClusters exampleCleanupData exampleConfig).isSome = true := by
  decide!

/-- C4 at a cluster of three points around its seed: the cleanup has a value and
every resulting cluster has a core that is a sub-sequence of its points. -/
theorem cleanupClusters_core_sublist_witness :
    ∃ ds1, cleanupClusters exampleCleanupData exampleConfig = some ds1 ∧
      ∀ cl ∈ ds1.clusters, ∃ core, cl.core = some core ∧
        core.points.Sublist cl.points ∧ core.points.length ≤ cl.points.length :=
  ⟨(cleanupClusters exampleCleanupData exampleConfig).get exampleCleanupData_isSome,
    (Option.some_get exampleCleanupData_isSome).symm,
    cleanupClusters_core_sublist exampleCleanupData _ exampleConfig
      (Option.some_get exampleCleanupData_isSome).symm⟩

/-! ## Densities -/

theorem windowFold_eq_sum (d : ℚ) (cli : Cluster) (l : List Cluster) (init : ℚ) :
    l.foldl (fun density clj => if outsideWindow d cli clj then density
        else density + (clj.points.length : ℚ)) init
      = init + (l.map (fun clj =>
          if outsideWindow d cli clj then (0 : ℚ) else (clj.points.length : ℚ))).sum := by
  induction l generalizing init with
  | nil => simp
  | cons c l ih =>
    rw [List.foldl_cons, ih, List.map_cons, List.sum_cons]
    by_cases h : outsideWindow d cli c = true
    · simp [h]
    · simp [h, add_assoc]

theorem rawDensity_eq_sum (d : ℚ) (preClusters : List Cluster) (cli : Cluster) :
    rawDensity d preClusters cli
      = (preClusters.map (fun clj =>
          if outsideWindow d cli clj then (0 : ℚ) else (clj.points.length : ℚ))).sum := by
  unfold rawDensity
  rw [windowFold_eq_sum, zero_add]

theorem rawDensity_nonneg (d : ℚ) (preClusters : List Cluster) (cli : Cluster) :
    0 ≤ rawDensity d preClusters cli := by
  rw [rawDensity_eq_sum]
  apply List.sum_nonneg
  intro x hx
  rw [List.mem_map] at hx
  obtain ⟨c, _, rfl⟩ := hx
  split
  · exact le_refl _
  · exact Nat.cast_nonneg _

theorem outsideWindow_self (d : ℚ) (hd : 0 ≤ d) (cli : Cluster) :
    outsideWindow d cli cli = false := by
  simp [outsideWindow, hd]

theorem rawDensity_ge_self (d : ℚ) (hd : 0 ≤ d) (preClusters : List Cluster) (cli : Cluster)
    (hmem : cli ∈ preClusters) :
    (cli.points.length : ℚ) ≤ rawDensity d preClusters cli := by
  rw [rawDensity_eq_sum]
  have hnn : ∀ x ∈ preClusters.map (fun clj =>
      if outsideWindow d cli clj then (0 : ℚ) else (clj.points.length : ℚ)), 0 ≤ x := by
    intro x hx
    rw [List.mem_map] at hx
    obtain ⟨c, _, rfl⟩ := hx
    split
    · exact le_refl _
    · exact Nat.cast_nonneg _
  have hin : (cli.points.length : ℚ) ∈ preClusters.map (fun clj =>
      if outsideWindow d cli clj then (0 : ℚ) else (clj.points.length : ℚ)) := by
    rw [List.mem_map]
    exact ⟨cli, hmem, by simp [outsideWindow_self d hd cli]⟩
  exact List.single_le_sum hnn _ hin

theorem maxFold_ge_init (l : List Cluster) (init : ℚ) :
    init ≤ l.foldl (fun dmax cli => if cli.density > dmax then cli.density else dmax) init := by
  induction l generalizing init with
  | nil => simp
  | cons c l ih =>
    rw [List.foldl_cons]
    refine le_trans ?_ (ih _)
    split
    · exact le_of_lt (by assumption)
    · exact le_refl _

theorem maxFold_ge_mem (l : List Cluster) (init : ℚ) (c : Cluster) (hc : c ∈ l) :
    c.density ≤ l.foldl (fun dmax cli => if cli.density > dmax then cli.density else dmax) init := by
  induction l generalizing init with
  | nil => simp at hc
  | cons a l ih =>
    rw [List.foldl_cons]
    rcases List.mem_cons.mp hc with rfl | hmem
    · refine le_trans ?_ (maxFold_ge_init l _)
      split
      · exact le_refl _
      · exact not_lt.mp (by assumption)
    · exact ih _ hmem

theorem maxFold_attained (l : List Cluster) (init : ℚ) :
    l.foldl (fun dmax cli => if cli.density > dmax then cli.density else dmax) init = init ∨
    ∃ c ∈ l, c.density
      = l.foldl (fun dmax cli => if cli.density > dmax then cli.density else dmax) init := by
  induction l generalizing init with
  | nil => left; simp
  | cons a l ih =>
    rw [List.foldl_cons]
    rcases ih (if a.density > init then a.density else init) with h | ⟨c, hc, h⟩
    · by_cases ha : a.density > init
      · right
        refine ⟨a, List.mem_cons_self _ _, ?_⟩
        rw [h]
        simp [ha]
      · left
        rw [h]
        simp [ha]
    · right
      exact ⟨c, List.mem_cons_of_mem _ hc, h⟩

/-- C3: for every non-empty list of non-empty pre-clusters and every density window
`≥ 0`, `computeDensities` has a value, every resulting density lies in `[0, 1]`, and
at least one pre-cluster has density exactly `1`. -/
theorem computeDensities_unit_interval (ds : DataSet) (config : Config)
    (hne : ds.preClusters ≠ []) (hpts : ∀ cl ∈ ds.preClusters, cl.points ≠ [])
    (hd : 0 ≤ config.densityWindow) :
    ∃ ds1, computeDensities ds config = some ds1 ∧
      ds1.preClusters.length = ds.preClusters.length ∧
      (∀ cl ∈ ds1.preClusters, 0 ≤ cl.density ∧ cl.density ≤ 1) ∧
      ∃ cl ∈ ds1.preClusters, cl.density = 1 := by
  have hpos : ∀ c ∈ ds.preClusters.map (fun cli =>
      { cli with density := rawDensity config.densityWindow ds.preClusters cli }),
      0 < c.density := by
    intro c hc
    rw [List.mem_map] at hc
    obtain ⟨c0, hc0, rfl⟩ := hc
    have h1 : (1 : ℚ) ≤ (c0.points.length : ℚ) := by
      have : c0.points.length ≠ 0 := fun h0 => hpts c0 hc0 (List.length_eq_zero.mp h0)
      exact_mod_cast Nat.one_le_iff_ne_zero.mpr this
    have h2 := rawDensity_ge_self config.densityWindow hd ds.preClusters c0 hc0
    show (0 : ℚ) < rawDensity config.densityWindow ds.preClusters c0
    linarith
  obtain ⟨c0, hc0⟩ := List.exists_mem_of_ne_nil _ hne
  have hmax_pos : 0 < maxDensity (ds.preClusters.map (fun cli =>
      { cli with density := rawDensity config.densityWindow ds.preClusters cli })) := by
    have hm : ({ c0 with density := rawDensity config.densityWindow ds.preClusters c0 } : Cluster)
        ∈ ds.preClusters.map (fun cli =>
          { cli with density := rawDensity config.densityWindow ds.preClusters cli }) :=
      List.mem_map.mpr ⟨c0, hc0, rfl⟩
    exact lt_of_lt_of_le (hpos _ hm) (maxFold_ge_mem _ 0 _ hm)
  have hnotempty : (ds.preClusters.map (fun cli =>
      { cli with density := rawDensity config.densityWindow ds.preClusters cli })).isEmpty
      = false := by
    cases hl : ds.preClusters with
    | nil => exact absurd hl hne
    | cons a l => simp
  refine ⟨_, by
    unfold computeDensities
    simp only [hnotempty, if_neg (ne_of_gt hmax_pos)]
    rfl, by simp, ?_, ?_⟩
  · intro cl hcl
    simp only [List.mem_map] at hcl
    obtain ⟨c1, ⟨c2, hc2, rfl⟩, rfl⟩ := hcl
    have hm : ({ c2 with density := rawDensity config.densityWindow ds.preClusters c2 } : Cluster)
        ∈ ds.preClusters.map (fun cli =>
          { cli with density := rawDensity config.densityWindow ds.preClusters cli }) :=
      List.mem_map.mpr ⟨c2, hc2, rfl⟩
    have hle := maxFold_ge_mem _ 0 _ hm
    have hnn := rawDensity_nonneg config.densityWindow ds.preClusters c2
    exact ⟨div_nonneg hnn (le_of_lt hmax_pos), (div_le_one hmax_pos).mpr hle⟩
  · rcases maxFold_attained (ds.preClusters.map (fun cli =>
      { cli with density := rawDensity config.densityWindow ds.preClusters cli })) 0 with h | h
    · exact absurd h (ne_of_gt hmax_pos)
    · obtain ⟨c, hc, hceq⟩ := h
      refine ⟨{ c with density := c.density / maxDensity _ }, List.mem_map.mpr ⟨c, hc, rfl⟩, ?_⟩
      show c.density / maxDensity _ = 1
      rw [div_eq_one_iff_eq (ne_of_gt hmax_pos)]
      exact hceq

/-! ## Seeded clustering: conservation of the points -/

theorem allPoints_append (l1 l2 : List Cluster) :
    allPoints (l1 ++ l2) = allPoints l1 ++ allPoints l2 := by
  induction l1 with
  | nil => simp [allPoints]
  | cons c l ih => simp [allPoints, ih]

theorem allPoints_singleton (c : Cluster) : allPoints [c] = c.points := by
  simp [allPoints]

theorem seedCluster_points (cli : Cluster) : (seedCluster cli).points = cli.points := by
  show (Cluster.empty.addPoints cli).points = cli.points
  rw [Cluster.addPoints_points]
  simp [Cluster.empty]

theorem findSeeds_points (d : ℚ) (preClusters : List Cluster) (rest : List (Nat × Cluster))
    (acc : List Cluster × List Cluster) :
    (allPoints (findSeeds d preClusters rest acc).1
        ++ allPoints (findSeeds d preClusters rest acc).2).Perm
      (allPoints acc.1 ++ allPoints acc.2 ++ allPoints (rest.map Prod.snd)) := by
  induction rest generalizing acc with
  | nil => simp [findSeeds, allPoints]
  | cons ic rest ih =>
    obtain ⟨i, cli⟩ := ic
    obtain ⟨seeds, leftovers⟩ := acc
    unfold findSeeds
    split
    · refine (ih _).trans ?_
      simp only [allPoints_append, allPoints_singleton, seedCluster_points, List.map_cons,
        allPoints]
      rw [← Multiset.coe_eq_coe]
      simp only [← Multiset.coe_add]
      abel
    · refine (ih _).trans ?_
      simp only [allPoints_append, allPoints_singleton, List.map_cons, allPoints]
      rw [← Multiset.coe_eq_coe]
      simp only [← Multiset.coe_add]
      abel

theorem selectSeeds_points (densityTh : ℚ) (seeds : List Cluster)
    (acc : List Cluster × List Cluster) :
    (allPoints (selectSeeds densityTh seeds acc).1
        ++ allPoints (selectSeeds densityTh seeds acc).2).Perm
      (allPoints acc.1 ++ allPoints acc.2 ++ allPoints seeds) := by
  induction seeds generalizing acc with
  | nil => simp [selectSeeds, allPoints]
  | cons cl rest ih =>
    obtain ⟨clusters, leftovers⟩ := acc
    unfold selectSeeds
    split
    · refine (ih _).trans ?_
      simp only [allPoints_append, allPoints_singleton, allPoints]
      rw [← Multiset.coe_eq_coe]
      simp only [← Multiset.coe_add]
      abel
    · refine (ih _).trans ?_
      simp only [allPoints_append, allPoints_singleton, allPoints]
      rw [← Multiset.coe_eq_coe]
      simp only [← Multiset.coe_add]
      abel

theorem selectSeeds_clusters_append (densityTh : ℚ) (seeds : List Cluster)
    (clusters leftovers : List Cluster) :
    (selectSeeds densityTh seeds (clusters, leftovers)).1
      = clusters ++ (selectSeeds densityTh seeds ([], [])).1 := by
  induction seeds generalizing clusters leftovers with
  | nil => simp [selectSeeds]
  | cons cl rest ih =>
    unfold selectSeeds
    split
    · rw [ih, ih [] ([] ++ [cl])]
      simp
    · rw [ih, ih ([] ++ [cl]) []]
      simp

theorem nearestLoop_lt (cli : Cluster) (n : Nat) (l : List (Nat × Cluster))
    (hl : ∀ x ∈ l, x.1 < n) (icl : Nat) (hicl : icl < n) (minDist2DSq : ℚ) :
    nearestLoop cli l icl minDist2DSq < n := by
  induction l generalizing icl minDist2DSq with
  | nil => simpa [nearestLoop] using hicl
  | cons jc rest ih =>
    obtain ⟨j, cl⟩ := jc
    unfold nearestLoop
    have hrest : ∀ x ∈ rest, x.1 < n := fun x hx => hl x (List.mem_cons_of_mem _ hx)
    simp only
    split
    · exact ih hrest j (hl (j, cl) (List.mem_cons_self _ _)) _
    · exact ih hrest icl hicl _

theorem allPoints_modify (f : Cluster → Cluster) (extra : List CloudPoint)
    (hf : ∀ c, (f c).points = c.points ++ extra) (l : List Cluster) (i : Nat)
    (hi : i < l.length) :
    (allPoints (l.modify f i)).Perm (allPoints l ++ extra) := by
  induction l generalizing i with
  | nil => simp at hi
  | cons c l ih =>
    cases i with
    | zero =>
      simp only [List.modify_zero_cons, allPoints, hf]
      rw [← Multiset.coe_eq_coe]
      simp only [← Multiset.coe_add]
      abel
    | succ i =>
      rw [List.modify_succ_cons]
      have h := ih i (by simpa using hi)
      show (c.points ++ allPoints (List.modify f i l)).Perm (c.points ++ allPoints l ++ extra)
      rw [List.append_assoc]
      exact List.Perm.append_left _ h

theorem assignLeftover_points (clusters : List Cluster) (cli : Cluster) (hne : clusters ≠ []) :
    ∃ res, assignLeftover clusters cli = some res ∧ res.length = clusters.length ∧
      (allPoints res).Perm (allPoints clusters ++ cli.points) := by
  cases hcl : clusters with
  | nil => exact absurd hcl hne
  | cons c0 rest =>
    refine ⟨_, rfl, by simp, ?_⟩
    apply allPoints_modify _ _ (fun c => Cluster.addPoints_points c cli)
    apply nearestLoop_lt
    · intro x hx
      exact List.fst_lt_of_mem_enum (List.mem_of_mem_drop hx)
    · simp

theorem assignLeftovers_points (leftovers clusters : List Cluster) (hne : clusters ≠ []) :
    ∃ res, assignLeftovers leftovers clusters = some res ∧ res.length = clusters.length ∧
      (allPoints res).Perm (allPoints clusters ++ allPoints leftovers) := by
  induction leftovers generalizing clusters with
  | nil => exact ⟨clusters, rfl, rfl, by simp [allPoints]⟩
  | cons cli rest ih =>
    obtain ⟨res1, h1, hlen1, hperm1⟩ := assignLeftover_points clusters cli hne
    have hne1 : res1 ≠ [] := by
      intro h0
      rw [h0] at hlen1
      exact hne (List.length_eq_zero.mp hlen1.symm)
    obtain ⟨res, h, hlen, hperm⟩ := ih res1 hne1
    refine ⟨res, ?_, by rw [hlen, hlen1], ?_⟩
    · unfold assignLeftovers
      rw [h1]
      exact h
    · refine hperm.trans ?_
      simp only [allPoints]
      rw [← List.append_assoc]
      exact List.Perm.append_right _ hperm1

/-- C2: when `runSeededClustering` (on a data set without final clusters yet) accepts
at least one seed, it has a value, and the multiset of the points of all final
clusters is the multiset of the points of all pre-clusters; so the total number of
points is conserved. -/
theorem runSeededClustering_conserves_points (ds : DataSet) (config : Config)
    (hfresh : ds.clusters = []) (hacc : acceptedSeeds ds config ≠ []) :
    ∃ ds1, runSeededClustering ds config = some ds1 ∧
      ((allPoints ds1.clusters : List CloudPoint) : Multiset CloudPoint)
        = ((allPoints ds.preClusters : List CloudPoint) : Multiset CloudPoint) ∧
      (allPoints ds1.clusters).length = (allPoints ds.preClusters).length := by
  have hfound := findSeeds_points config.densityWindow ds.preClusters ds.preClusters.enum ([], [])
  have hsel := selectSeeds_points config.seedDensityThreshold
    (findSeeds config.densityWindow ds.preClusters ds.preClusters.enum ([], [])).1
    (ds.clusters, (findSeeds config.densityWindow ds.preClusters ds.preClusters.enum ([], [])).2)
  have hne : (selectSeeds config.seedDensityThreshold
      (findSeeds config.densityWindow ds.preClusters ds.preClusters.enum ([], [])).1
      (ds.clusters,
        (findSeeds config.densityWindow ds.preClusters ds.preClusters.enum ([], [])).2)).1
      ≠ [] := by
    rw [selectSeeds_clusters_append, hfresh]
    simpa [acceptedSeeds] using hacc
  obtain ⟨res, hres, _, hperm⟩ := assignLeftovers_points _ _ hne
  have hall : (allPoints res).Perm (allPoints ds.preClusters) := by
    refine hperm.trans (hsel.trans ?_)
    rw [hfresh]
    simp only [allPoints, List.nil_append]
    refine (List.perm_append_comm).trans (hfound.trans ?_)
    simp [allPoints, List.enum_map_snd]
  refine ⟨{ ds with clusters := res }, ?_, Multiset.coe_eq_coe.mpr hall, hall.length_eq⟩
  unfold runSeededClustering
  simp only [hres]

theorem exampleDensityData_accepted :
    (acceptedSeeds exampleDensityData exampleConfig).length = 1 := by
  decide!

/-- C2 at three pre-clusters of which one is accepted as seed: the four points of the
pre-clusters are the points of the final clusters. -/
theorem runSeededClustering_conserves_points_witness :
    exampleDensityData.clusters = [] ∧
    acceptedSeeds exampleDensityData exampleConfig ≠ [] ∧
    ∃ ds1, runSeededClustering exampleDensityData exampleConfig = some ds1 ∧
      ((allPoints ds1.clusters : List CloudPoint) : Multiset CloudPoint)
        = ((allPoints exampleDensityData.preClusters : List CloudPoint)
            : Multiset CloudPoint) ∧
      (allPoints ds1.clusters).length = (allPoints exampleDensityData.preClusters).length :=
  have hacc : acceptedSeeds exampleDensityData exampleConfig ≠ [] := fun h0 =>
    absurd (h0 ▸ exampleDensityData_accepted : ([] : List Cluster).length = 1) (by simp)
  ⟨rfl, hacc, runSeededClustering_conserves_points exampleDensityData exampleConfig rfl hacc⟩

/-- C3 at three non-empty pre-clusters and the density window `1/2`. -/
theorem computeDensities_unit_interval_witness :
    examplePreClusterData.preClusters ≠ [] ∧
    (0 : ℚ) ≤ exampleConfig.densityWindow ∧
    ∃ ds1, computeDensities examplePreClusterData exampleConfig = some ds1 ∧
      ds1.preClusters.length = examplePreClusterData.preClusters.length ∧
      (∀ cl ∈ ds1.preClusters, 0 ≤ cl.density ∧ cl.density ≤ 1) ∧
      ∃ cl ∈ ds1.preClusters, cl.density = 1 :=
  have hne : examplePreClusterData.preClusters ≠ [] := by
    simp [examplePreClusterData]
  have hd : (0 : ℚ) ≤ exampleConfig.densityWindow := by
    norm_num [exampleConfig]
  ⟨hne, hd, computeDensities_unit_interval examplePreClusterData exampleConfig hne
    (by
      intro cl hcl
      simp only [examplePreClusterData, List.mem_cons, List.mem_singleton, List.not_mem_nil,
        or_false] at hcl
      rcases hcl with rfl | rfl | rfl <;> simp [Cluster.addPoint])
    hd⟩

/-! ## K-means: the groups at convergence -/

theorem assignLoop_length (seeds : List (Option Point)) (l : List (Nat × Cluster))
    (groups res : List (List Nat)) (h : assignLoop seeds l groups = some res) :
    res.length = groups.length := by
  induction l generalizing groups with
  | nil =>
    simp only [assignLoop, Option.some.injEq] at h
    rw [← h]
  | cons ic rest ih =>
    obtain ⟨i, cl⟩ := ic
    unfold assignLoop at h
    simp only at h
    split at h
    · exact absurd h (by simp)
    · split at h
      · exact absurd h (by simp)
      · rw [ih _ h, List.length_set]

theorem cleared_eq_of_length {l1 l2 : List (List Nat)} (h : l1.length = l2.length) :
    l1.map (fun _ => ([] : List Nat)) = l2.map (fun _ => ([] : List Nat)) := by
  induction l1 generalizing l2 with
  | nil =>
    cases l2 with
    | nil => rfl
    | cons b l2 => simp at h
  | cons a l1 ih =>
    cases l2 with
    | nil => simp at h
    | cons b l2 =>
      simp only [List.map_cons, List.cons.injEq, true_and]
      exact ih (by simpa using h)

theorem assignStep_idempotent (seeds : List (Option Point)) (clusters : List Cluster)
    (groups res : List (List Nat)) (h : assignStep seeds clusters groups = some res) :
    assignStep seeds clusters res = some res := by
  unfold assignStep at h ⊢
  have hlen := assignLoop_length _ _ _ _ h
  rw [List.length_map] at hlen
  rw [cleared_eq_of_length hlen]
  exact h

theorem kmeansLoop_of_converged (clusters : List Cluster) (n : Nat) (s : KmeansState)
    (hs : s.converged = true) : kmeansLoop clusters n s = some s := by
  cases n with
  | zero => rfl
  | succ n => simp [kmeansLoop, hs]

theorem kmeansLoop_converged_groups (clusters : List Cluster) (n : Nat) (s0 s : KmeansState)
    (h0 : s0.converged = false) (h : kmeansLoop clusters n s0 = some s)
    (hconv : s.converged = true) :
    ∃ prevSeeds : List (Option Point),
      assignStep prevSeeds clusters s.pcaClusters = some s.pcaClusters ∧
      updateLoop clusters s.pcaClusters.enum prevSeeds true = some (s.seeds, true) := by
  induction n generalizing s0 with
  | zero =>
    simp only [kmeansLoop, Option.some.injEq] at h
    rw [← h, h0] at hconv
    exact absurd hconv (by simp)
  | succ n ih =>
    unfold kmeansLoop at h
    simp only [h0] at h
    cases ha : assignStep s0.seeds clusters s0.pcaClusters with
    | none => simp [ha] at h
    | some groups =>
      cases hu : updateLoop clusters groups.enum s0.seeds true with
      | none => simp [ha, hu] at h
      | some res =>
        obtain ⟨seeds1, conv1⟩ := res
        simp only [ha, hu] at h
        cases hc : conv1 with
        | false =>
          subst hc
          exact ih _ rfl h
        | true =>
          subst hc
          rw [kmeansLoop_of_converged _ _ _ rfl] at h
          simp only [Bool.false_eq_true, if_false, Option.some.injEq] at h
          subst h
          exact ⟨s0.seeds, assignStep_idempotent _ _ _ _ ha, hu⟩

/-- C5, as the code has it: whenever `runKmeansOnPCA` stops because convergence was
declared, the returned groups are the assignment against the seeds held before the
last update step, of which the final seeds are the update (no seed moved by more
than `0.001`); one more assignment step against the final seeds gives the same
groups when the last update left every seed where it was. -/
theorem runKmeansOnPCA_converged_groups (RAND_MAX kmeans : Nat) (clusters : List Cluster)
    (pcaClusters : List (List Nat)) (config : Config) (rng rng1 : Rng) (fuel : Nat)
    (s : KmeansState)
    (h : runKmeansOnPCA RAND_MAX kmeans clusters pcaClusters config rng fuel = some (s, rng1))
    (hconv : s.converged = true) :
    ∃ prevSeeds : List (Option Point),
      assignStep prevSeeds clusters s.pcaClusters = some s.pcaClusters ∧
      updateLoop clusters s.pcaClusters.enum prevSeeds true = some (s.seeds, true) ∧
      (prevSeeds = s.seeds →
        assignStep s.seeds clusters s.pcaClusters = some s.pcaClusters) := by
  unfold runKmeansOnPCA at h
  cases hi : initSeeds RAND_MAX clusters fuel kmeans [] [] rng with
  | none => simp [hi] at h
  | some res =>
    obtain ⟨seeds0, rng0⟩ := res
    simp only [hi] at h
    cases hk : kmeansLoop clusters config.maxKmeansIterations.toNat
        { seeds := seeds0.map some, pcaClusters := pcaClusters, converged := false,
          nIterations := 0 } with
    | none => simp [hk] at h
    | some s1 =>
      simp only [hk, Option.some.injEq, Prod.mk.injEq] at h
      obtain ⟨rfl, _⟩ := h
      obtain ⟨prev, hassign, hupdate⟩ := kmeansLoop_converged_groups clusters _ _ _ rfl hk hconv
      exact ⟨prev, hassign, hupdate, fun hp => hp ▸ hassign⟩

theorem exampleSeparatedObjects_isSome :
    (runKmeansOnPCA 32767 3 exampleSeparatedObjects [[], [], []] exampleConfig
      (fun i => i) 1).isSome = true := by
  decide!

theorem exampleSeparatedObjects_converged :
    ((runKmeansOnPCA 32767 3 exampleSeparatedObjects [[], [], []] exampleConfig
      (fun i => i) 1).get exampleSeparatedObjects_isSome).1.converged = true := by
  decide!

/-- C5, as the code has it, at three objects far from each other, taken as the initial
seeds by the draws `0, 1, 2`. -/
theorem runKmeansOnPCA_converged_groups_witness :
    ∃ s rng1,
      runKmeansOnPCA 32767 3 exampleSeparatedObjects [[], [], []] exampleConfig
        (fun i => i) 1 = some (s, rng1) ∧
      s.converged = true ∧
      ∃ prevSeeds : List (Option Point),
        assignStep prevSeeds exampleSeparatedObjects s.pcaClusters = some s.pcaClusters ∧
        updateLoop exampleSeparatedObjects s.pcaClusters.enum prevSeeds true
          = some (s.seeds, true) ∧
        (prevSeeds = s.seeds →
          assignStep s.seeds exampleSeparatedObjects s.pcaClusters = some s.pcaClusters) :=
  ⟨_, _, (Option.some_get exampleSeparatedObjects_isSome).symm,
    exampleSeparatedObjects_converged,
    runKmeansOnPCA_converged_groups 32767 3 exampleSeparatedObjects [[], [], []] exampleConfig
      (fun i => i) _ 1 _ (Option.some_get exampleSeparatedObjects_isSome).symm
      exampleSeparatedObjects_converged⟩

/-- C5 fails as stated: on five objects with the initial seeds `0`, `1`, `10` the run
stops after one iteration with convergence declared (the first seed moved by `1/100`)
and returns the groups `[[0, 3, 4], [1], [2]]`, but one more assignment step against
the final seeds puts object `3` into the second group. -/
theorem runKmeansOnPCA_converged_not_fixed_point :
    (runKmeansOnPCA 32767 3 exampleObjects [[], [], []] exampleConfig (fun i => i) 1).map
        Prod.fst
      = some ⟨[some ⟨-1 / 100, 0, 0⟩, some ⟨1, 0, 0⟩, some ⟨10, 0, 0⟩],
          [[0, 3, 4], [1], [2]], true, 1⟩ ∧
    assignStep [some ⟨-1 / 100, 0, 0⟩, some ⟨1, 0, 0⟩, some ⟨10, 0, 0⟩] exampleObjects
        [[0, 3, 4], [1], [2]]
      = some [[0, 4], [1, 3], [2]] := by
  decide!

/-! ## Reading the input file -/

theorem readLoop_points (RAND_MAX : Nat) (evalFrac : ℚ) (passes : List (Option Row))
    (s : ReadState) :
    ((readLoop RAND_MAX evalFrac passes s).2.trainingData.points
        ++ (readLoop RAND_MAX evalFrac passes s).2.evaluationData.points).Perm
      (s.trainingData.points ++ s.evaluationData.points
        ++ rowsBeforeInvalid passes s.nextId) := by
  induction passes generalizing s with
  | nil => simp [readLoop, rowsBeforeInvalid]
  | cons pass rest ih =>
    cases pass with
    | none =>
      unfold readLoop rowsBeforeInvalid
      exact ih _
    | some row =>
      unfold readLoop rowsBeforeInvalid
      simp only
      by_cases hv : (row.toCloudPoint s.nextId).isValid = true
      · simp only [hv, if_true]
        refine (ih _).trans ?_
        rw [show (row.toCloudPoint s.nextId :: rowsBeforeInvalid rest (s.nextId + 1))
          = [row.toCloudPoint s.nextId] ++ rowsBeforeInvalid rest (s.nextId + 1) from rfl]
        by_cases hr : ((rand RAND_MAX s.rng).1 : ℚ) / (RAND_MAX : ℚ) < evalFrac
        · simp only [hr, if_true]
          rw [← Multiset.coe_eq_coe]
          simp only [← Multiset.coe_add]
          abel
        · simp only [hr, if_false]
          rw [← Multiset.coe_eq_coe]
          simp only [← Multiset.coe_add]
          abel
      · simp [hv]

theorem readLoop_false (RAND_MAX : Nat) (evalFrac : ℚ) (passes : List (Option Row))
    (s : ReadState)
    (hinv : ∃ row, some row ∈ passes ∧ (row.toCloudPoint 0).isValid = false) :
    (readLoop RAND_MAX evalFrac passes s).1 = false := by
  induction passes generalizing s with
  | nil =>
    obtain ⟨row, hmem, _⟩ := hinv
    simp at hmem
  | cons pass rest ih =>
    obtain ⟨row, hmem, hrow⟩ := hinv
    cases pass with
    | none =>
      unfold readLoop
      apply ih
      refine ⟨row, ?_, hrow⟩
      simpa using hmem
    | some row1 =>
      unfold readLoop
      simp only
      by_cases hv : (row1.toCloudPoint s.nextId).isValid = true
      · simp only [hv, if_true]
        apply ih
        refine ⟨row, ?_, hrow⟩
        rcases List.mem_cons.mp hmem with h1 | h1
        · have e : row = row1 := by simpa using h1
          subst e
          have hv0 : (row.toCloudPoint 0).isValid = true := hv
          rw [hrow] at hv0
          exact absurd hv0 (by simp)
        · exact h1
      · simp [hv]

/-- C7, as the code has it: when some parsed row has a colour channel outside
`[0, 255]`, then for every sequence of random draws `readFromFile` returns failure,
and the training and evaluation data sets (empty before) together hold exactly the
rows read before the first such row: the points already stored are not removed. -/
theorem readFromFile_invalid_row (RAND_MAX : Nat) (config : Config)
    (passes : List (Option Row)) (trainingData evaluationData : DataSet) (rng : Rng)
    (nextId : Int)
    (hinv : ∃ row, some row ∈ passes ∧
      ¬((0 ≤ row.r ∧ row.r < 256) ∧ (0 ≤ row.g ∧ row.g < 256) ∧ (0 ≤ row.b ∧ row.b < 256)))
    (htr : trainingData.points = []) (hev : evaluationData.points = []) :
    (DataSet.readFromFile RAND_MAX config (some passes) trainingData evaluationData rng
        nextId).1 = false ∧
    ((DataSet.readFromFile RAND_MAX config (some passes) trainingData evaluationData rng
          nextId).2.1.points
        ++ (DataSet.readFromFile RAND_MAX config (some passes) trainingData evaluationData rng
          nextId).2.2.1.points).Perm (rowsBeforeInvalid passes nextId) ∧
    (DataSet.readFromFile RAND_MAX config (some passes) trainingData evaluationData rng
          nextId).2.1.points.length
        + (DataSet.readFromFile RAND_MAX config (some passes) trainingData evaluationData rng
          nextId).2.2.1.points.length
      = (rowsBeforeInvalid passes nextId).length := by
  have hinv1 : ∃ row, some row ∈ passes ∧ (row.toCloudPoint 0).isValid = false := by
    obtain ⟨row, hmem, hrow⟩ := hinv
    refine ⟨row, hmem, ?_⟩
    have h := (CloudPoint.isValid_channels ⟨row.x, row.y, row.z⟩ row.r row.g row.b 0)
    cases hval : (row.toCloudPoint 0).isValid with
    | false => rfl
    | true => exact absurd (h.mp hval) hrow
  have hfalse := readLoop_false RAND_MAX config.evaluationDataFraction passes
    { trainingData := trainingData, evaluationData := evaluationData,
      mins := List.replicate 6 0, maxs := List.replicate 6 0, isFirst := true,
      rng := rng, nextId := nextId } hinv1
  have hperm := readLoop_points RAND_MAX config.evaluationDataFraction passes
    { trainingData := trainingData, evaluationData := evaluationData,
      mins := List.replicate 6 0, maxs := List.replicate 6 0, isFirst := true,
      rng := rng, nextId := nextId }
  simp only [htr, hev, List.append_nil, List.nil_append] at hperm
  have hres : (DataSet.readFromFile RAND_MAX config (some passes) trainingData evaluationData
        rng nextId).1 = false ∧
      (DataSet.readFromFile RAND_MAX config (some passes) trainingData evaluationData rng
        nextId).2.1.points
        = (readLoop RAND_MAX config.evaluationDataFraction passes
          { trainingData := trainingData, evaluationData := evaluationData,
            mins := List.replicate 6 0, maxs := List.replicate 6 0, isFirst := true,
            rng := rng, nextId := nextId }).2.trainingData.points ∧
      (DataSet.readFromFile RAND_MAX config (some passes) trainingData evaluationData rng
        nextId).2.2.1.points
        = (readLoop RAND_MAX config.evaluationDataFraction passes
          { trainingData := trainingData, evaluationData := evaluationData,
            mins := List.replicate 6 0, maxs := List.replicate 6 0, isFirst := true,
            rng := rng, nextId := nextId }).2.evaluationData.points := by
    unfold DataSet.readFromFile
    simp only [hfalse, Bool.false_eq_true, if_false, and_self]
  obtain ⟨h1, h2, h3⟩ := hres
  refine ⟨h1, ?_, ?_⟩
  · rw [h2, h3]
    exact hperm
  · rw [← List.length_append, h2, h3]
    exact hperm.length_eq

/-- C7, as the code has it, at a file of two rows, the second with `r = 256`. -/
theorem readFromFile_invalid_row_witness :
    (DataSet.readFromFile 32767 exampleConfig (some exampleRows) DataSet.empty DataSet.empty
        (fun _ => 32767) 2001).1 = false ∧
    ((DataSet.readFromFile 32767 exampleConfig (some exampleRows) DataSet.empty DataSet.empty
          (fun _ => 32767) 2001).2.1.points
        ++ (DataSet.readFromFile 32767 exampleConfig (some exampleRows) DataSet.empty
          DataSet.empty (fun _ => 32767) 2001).2.2.1.points).Perm
      (rowsBeforeInvalid exampleRows 2001) ∧
    (DataSet.readFromFile 32767 exampleConfig (some exampleRows) DataSet.empty DataSet.empty
          (fun _ => 32767) 2001).2.1.points.length
        + (DataSet.readFromFile 32767 exampleConfig (some exampleRows) DataSet.empty
          DataSet.empty (fun _ => 32767) 2001).2.2.1.points.length
      = (rowsBeforeInvalid exampleRows 2001).length :=
  readFromFile_invalid_row 32767 exampleConfig exampleRows DataSet.empty DataSet.empty
    (fun _ => 32767) 2001
    ⟨⟨0, 0, 0, 256, 0, 0⟩, by simp [exampleRows], by decide⟩ rfl rfl

/-- C7 fails as stated: for the file of a valid row followed by a row with `r = 256`,
`readFromFile` returns failure, but the training data set still holds the first
row's point. -/
theorem readFromFile_keeps_earlier_points :
    (DataSet.readFromFile 32767 exampleConfig (some exampleRows) DataSet.empty DataSet.empty
        (fun _ => 32767) 2001).1 = false ∧
    (DataSet.readFromFile 32767 exampleConfig (some exampleRows) DataSet.empty DataSet.empty
        (fun _ => 32767) 2001).2.1.points = [⟨⟨0, 0, 0⟩, 1, 1, 1, 2001⟩] := by
  decide!

/-! ## Random sub-clusters -/

theorem splitFill_full (RAND_MAX : Nat) (ps : List CloudPoint) (sub : Cluster) (rng : Rng)
    (h : ∀ i, rng i % (RAND_MAX + 1) ≠ RAND_MAX) :
    (splitFill RAND_MAX 1 ps sub rng).1.points = sub.points ++ ps ∧
    ∀ i, (splitFill RAND_MAX 1 ps sub rng).2 i % (RAND_MAX + 1) ≠ RAND_MAX := by
  induction ps generalizing sub rng with
  | nil => exact ⟨by simp [splitFill], h⟩
  | cons p ps ih =>
    have hlt : rng 0 % (RAND_MAX + 1) < RAND_MAX :=
      lt_of_le_of_ne (Nat.lt_succ_iff.mp (Nat.mod_lt _ (Nat.succ_pos _))) (h 0)
    have hpos : (0 : ℚ) < (RAND_MAX : ℚ) := by
      exact_mod_cast lt_of_le_of_lt (Nat.zero_le _) hlt
    have hf : ((rand RAND_MAX rng).1 : ℚ) / (RAND_MAX : ℚ) < 1 := by
      rw [div_lt_one hpos]
      exact_mod_cast hlt
    have hshift : ∀ i, (rand RAND_MAX rng).2 i % (RAND_MAX + 1) ≠ RAND_MAX := fun i => h (i + 1)
    unfold splitFill
    simp only [hf, if_true]
    obtain ⟨h1, h2⟩ := ih (sub.addPoint p) (rand RAND_MAX rng).2 hshift
    exact ⟨by rw [h1, Cluster.addPoint_points]; simp, h2⟩

theorem splitLoop_full (RAND_MAX : Nat) (ps : List CloudPoint) (subs : List Cluster) (rng : Rng)
    (h : ∀ i, rng i % (RAND_MAX + 1) ≠ RAND_MAX) :
    (splitLoop RAND_MAX 1 ps subs rng).1.length = subs.length ∧
    ∀ sub ∈ (splitLoop RAND_MAX 1 ps subs rng).1,
      ∃ sub0 ∈ subs, sub.points = sub0.points ++ ps := by
  induction subs generalizing rng with
  | nil => simp [splitLoop]
  | cons sub0 subs ih =>
    obtain ⟨h1, h2⟩ := splitFill_full RAND_MAX ps sub0 rng h
    obtain ⟨hlen, hall⟩ := ih (splitFill RAND_MAX 1 ps sub0 rng).2 h2
    unfold splitLoop
    refine ⟨by simp [hlen], ?_⟩
    intro sub hsub
    rcases List.mem_cons.mp hsub with rfl | hmem
    · exact ⟨sub0, List.mem_cons_self _ _, h1⟩
    · obtain ⟨s0, hs0, hp⟩ := hall sub hmem
      exact ⟨s0, List.mem_cons_of_mem _ hs0, hp⟩

/-- C8, as the code has it: for every cluster with an empty split cache, every count
and every outcome of the random generator in which no draw equals `RAND_MAX`,
`randomSplit(count, 1.0)` returns exactly `count` sub-clusters, each holding the
parent's full point sequence. -/
theorem randomSplit_full_fraction (RAND_MAX : Nat) (c : Cluster) (nClusters : Nat) (rng : Rng)
    (hcache : c.m_splitClusters = [])
    (hdraws : ∀ i, rng i % (RAND_MAX + 1) ≠ RAND_MAX) :
    (Cluster.randomSplit RAND_MAX c nClusters 1 rng).1.length = nClusters ∧
    ∀ sub ∈ (Cluster.randomSplit RAND_MAX c nClusters 1 rng).1, sub.points = c.points := by
  unfold Cluster.randomSplit
  split
  · rename_i hhit
    rw [hcache] at hhit ⊢
    exact ⟨by simpa using hhit.1.symm, by simp⟩
  · obtain ⟨hlen, hall⟩ := splitLoop_full RAND_MAX c.points
      (resizeClusters c.m_splitClusters nClusters) rng hdraws
    refine ⟨?_, ?_⟩
    · show (splitLoop RAND_MAX 1 c.points (resizeClusters c.m_splitClusters nClusters)
        rng).1.length = nClusters
      rw [hlen, hcache]
      simp [resizeClusters]
    · intro sub hsub
      obtain ⟨sub0, hsub0, hp⟩ := hall sub hsub
      rw [hcache] at hsub0
      simp only [resizeClusters, List.take_nil, List.nil_append, List.length_nil,
        Nat.sub_zero] at hsub0
      rw [List.eq_of_mem_replicate hsub0] at hp
      simpa [Cluster.empty] using hp

/-- C8, as the code has it, at a cluster of two points, five sub-clusters and a
generator that always returns `0`. -/
theorem randomSplit_full_fraction_witness :
    exampleCluster.m_splitClusters = [] ∧
    (Cluster.randomSplit 32767 exampleCluster 5 1 (fun _ => 0)).1.length = 5 ∧
    ∀ sub ∈ (Cluster.randomSplit 32767 exampleCluster 5 1 (fun _ => 0)).1,
      sub.points = exampleCluster.points :=
  ⟨rfl, randomSplit_full_fraction 32767 exampleCluster 5 (fun _ => 0) rfl
    (fun _ => by simp)⟩

/-- C8 fails as stated: when `rand()` returns `RAND_MAX`, the quotient is `1`, which is
not below the fraction `1.0`, and `randomSplit(1, 1.0)` on a cluster of one point
returns a sub-cluster without points. -/
theorem randomSplit_full_fraction_drops_point :
    exampleSingleton.m_splitClusters.length = 0 ∧
    exampleSingleton.points = [⟨⟨0, 1, 0⟩, 10, 20, 30, 2001⟩] ∧
    (Cluster.randomSplit 32767 exampleSingleton 1 1 (fun _ => 32767)).1.map
      (fun sub => sub.points) = [[]] := by
  decide!

/-- C9 on a cluster of one point: the first call `randomSplit(1, 0.5)` returns one
sub-cluster holding the point; the second call with the same arguments, on the cluster
as the first call left it and with no `addPoint` in between, does not return the cached
sub-cluster but adds the point to it once more (`m_fPerCluster` still has its initial
value `0`). -/
theorem randomSplit_second_call_refills :
    (Cluster.randomSplit 32767 exampleSingleton 1 (1 / 2) (fun _ => 0)).1.map
        (fun sub => sub.points) = [[⟨⟨0, 1, 0⟩, 10, 20, 30, 2001⟩]] ∧
    (Cluster.randomSplit 32767 exampleSingleton 1 (1 / 2) (fun _ => 0)).2.1.m_fPerCluster = 0 ∧
    (Cluster.randomSplit 32767
        (Cluster.randomSplit 32767 exampleSingleton 1 (1 / 2) (fun _ => 0)).2.1 1 (1 / 2)
        (Cluster.randomSplit 32767 exampleSingleton 1 (1 / 2) (fun _ => 0)).2.2).1.map
        (fun sub => sub.points)
      = [[⟨⟨0, 1, 0⟩, 10, 20, 30, 2001⟩, ⟨⟨0, 1, 0⟩, 10, 20, 30, 2001⟩]] := by
  decide!

/-! ## Layer profile -/

/-- C10 on a cluster of two points (`y = 1` and `y = 4`): `layers(1)` followed by
`layers(2)` returns a first layer with `y = 7/2` and colour `(25, 50, 75)`, the old
one-layer average plus the first point, whereas `layers(2)` on the same cluster with an
empty layer cache returns the first point itself, `y = 1` and colour `(10, 20, 30)`. -/
theorem layers_after_other_count_is_stale :
    exampleCluster.m_layers.length = 0 ∧
    ((exampleCluster.layers 1 3000).bind (fun res => res.2.1.layers 2 res.2.2)).map
        (fun res => res.1)
      = some [⟨⟨0, 7 / 2, 0⟩, 25, 50, 75, 3000⟩, ⟨⟨0, 4, 0⟩, 20, 40, 60, 3001⟩] ∧
    (exampleCluster.layers 2 3000).map (fun res => res.1)
      = some [⟨⟨0, 1, 0⟩, 10, 20, 30, 3000⟩, ⟨⟨0, 4, 0⟩, 20, 40, 60, 3001⟩] := by
  decide!

/-! ## Adding points -/

/-- C13: `addPoint(p)` appends `p` as the last element of `points()` (the length grows
by one, the earlier points stay), empties the layer cache and the split-cluster cache,
and leaves density, seed, pcaColor, classId and core unchanged. -/
theorem Cluster.addPoint_frame (c : Cluster) (p : CloudPoint) :
    (c.addPoint p).points = c.points ++ [p] ∧
    (c.addPoint p).points.getLast? = some p ∧
    (c.addPoint p).points.length = c.points.length + 1 ∧
    (c.addPoint p).points.take c.points.length = c.points ∧
    (c.addPoint p).m_layers = [] ∧
    (c.addPoint p).m_splitClusters = [] ∧
    (c.addPoint p).density = c.density ∧
    (c.addPoint p).seed = c.seed ∧
    (c.addPoint p).pcaColor = c.pcaColor ∧
    (c.addPoint p).classId = c.classId ∧
    (c.addPoint p).core = c.core := by
  refine ⟨rfl, ?_, ?_, ?_, rfl, rfl, rfl, rfl, rfl, rfl, rfl⟩
  · simp [Cluster.addPoint]
  · simp [Cluster.addPoint]
  · simp [Cluster.addPoint]

theorem Cluster.addPoints_comIsMean (c cl : Cluster) (h : c.ComIsMean) :
    (c.addPoints cl).ComIsMean :=
  Cluster.foldl_addPoint_comIsMean cl.points c h

theorem Cluster.Built.comIsMean {c : Cluster} (h : c.Built) : c.ComIsMean := by
  induction h with
  | empty => exact Cluster.empty_comIsMean
  | addPoint c cp _ ih => exact Cluster.addPoint_comIsMean c cp ih
  | addPoints c cl _ ih => exact Cluster.addPoints_comIsMean c cl ih

theorem Cluster.addPoints_nil_com (c cl : Cluster) (h : cl.points = []) :
    (c.addPoints cl).com = c.com := by
  simp [Cluster.addPoints, h]

theorem Cluster.Built.com_of_points_nil {c : Cluster} (h : c.Built) (hp : c.points = []) :
    c.com = Point.origin := by
  induction h with
  | empty => rfl
  | addPoint c cp _ _ => simp [Cluster.addPoint] at hp
  | addPoints c cl _ ih =>
    rw [Cluster.addPoints_points] at hp
    obtain ⟨h1, h2⟩ := List.append_eq_nil.mp hp
    rw [Cluster.addPoints_nil_com c cl h2]
    exact ih h1

/-- C14: for a cluster `a` built from the empty cluster by `addPoint` and `addPoints`
and another cluster `b`, `a.addPoints(b)` has the points of `a` followed by the points
of `b` in order, and its `com` is the arithmetic mean of all those points (the origin
when there is none). -/
theorem Cluster.addPoints_points_and_com (a b : Cluster) (ha : a.Built) :
    (a.addPoints b).points = a.points ++ b.points ∧
    (a.addPoints b).com = meanPoint (a.points ++ b.points) := by
  refine ⟨Cluster.addPoints_points a b, ?_⟩
  have hb : (a.addPoints b).Built := Cluster.Built.addPoints a b ha
  by_cases hne : (a.addPoints b).points = []
  · rw [hb.com_of_points_nil hne, ← Cluster.addPoints_points, hne]
    simp [meanPoint, Point.origin]
  · rw [Cluster.com_eq_meanPoint _ hb.comIsMean hne, Cluster.addPoints_points]

/-- C14 at a cluster of two points to which the points of a cluster of one point are
added. -/
theorem Cluster.addPoints_points_and_com_witness :
    exampleCluster.Built ∧
    (exampleCluster.addPoints exampleSingleton).points
      = exampleCluster.points ++ exampleSingleton.points ∧
    (exampleCluster.addPoints exampleSingleton).com
      = meanPoint (exampleCluster.points ++ exampleSingleton.points) :=
  have hb : exampleCluster.Built :=
    Cluster.Built.addPoint _ _ (Cluster.Built.addPoint _ _ Cluster.Built.empty)
  ⟨hb, Cluster.addPoints_points_and_com exampleCluster exampleSingleton hb⟩

/-! ## The core of a cluster before and after the cleanup -/

theorem forall_mem_modify (P : Cluster → Prop) (f : Cluster → Cluster)
    (hf : ∀ c, P c → P (f c)) (l : List Cluster) (i : Nat) (hl : ∀ c ∈ l, P c) :
    ∀ c ∈ l.modify f i, P c := by
  induction l generalizing i with
  | nil => intro c hc; simp at hc
  | cons a l ih =>
    cases i with
    | zero =>
      intro c hc
      rw [List.modify_zero_cons] at hc
      rcases List.mem_cons.mp hc with rfl | hmem
      · exact hf a (hl a (List.mem_cons_self _ _))
      · exact hl c (List.mem_cons_of_mem _ hmem)
    | succ i =>
      intro c hc
      rw [List.modify_succ_cons] at hc
      rcases List.mem_cons.mp hc with rfl | hmem
      · exact hl _ (List.mem_cons_self _ _)
      · exact ih i (fun c hc => hl c (List.mem_cons_of_mem _ hc)) c hmem

theorem Cluster.addPoint_core (c : Cluster) (cp : CloudPoint) : (c.addPoint cp).core = c.core :=
  rfl

theorem Cluster.foldl_addPoint_core (ps : List CloudPoint) (c : Cluster) :
    (ps.foldl Cluster.addPoint c).core = c.core := by
  induction ps generalizing c with
  | nil => rfl
  | cons p ps ih => rw [List.foldl_cons, ih, Cluster.addPoint_core]

theorem Cluster.addPoints_core (c cl : Cluster) : (c.addPoints cl).core = c.core :=
  Cluster.foldl_addPoint_core cl.points c

theorem preClusterStep_core (skip : Bool) (dmin : ℚ) (clusters : List Cluster) (cp : CloudPoint)
    (h : ∀ c ∈ clusters, c.core = none) :
    ∀ c ∈ preClusterStep skip dmin clusters cp, c.core = none := by
  have key : ∀ icl : Int, ∀ c ∈ (if icl ≥ 0 then
      clusters.modify (fun cl => cl.addPoint cp) icl.toNat
      else clusters ++ [Cluster.empty.addPoint cp]), c.core = none := by
    intro icl
    split
    · exact forall_mem_modify (fun c => c.core = none) _
        (fun c hc => (Cluster.addPoint_core c cp).trans hc) _ _ h
    · intro c hc
      rcases List.mem_append.mp hc with h1 | h1
      · exact h c h1
      · rw [List.mem_singleton] at h1
        rw [h1]
        rfl
  exact key _

theorem preClusterFold_core (skip : Bool) (dmin : ℚ) (points : List CloudPoint)
    (clusters : List Cluster) (h : ∀ c ∈ clusters, c.core = none) :
    ∀ c ∈ points.foldl (preClusterStep skip dmin) clusters, c.core = none := by
  induction points generalizing clusters with
  | nil => simpa using h
  | cons p ps ih =>
    rw [List.foldl_cons]
    exact ih _ (preClusterStep_core skip dmin clusters p h)

theorem seedCluster_core (cli : Cluster) : (seedCluster cli).core = none := by
  show (Cluster.empty.addPoints cli).core = none
  rw [Cluster.addPoints_core]
  rfl

theorem findSeeds_core (d : ℚ) (preClusters : List Cluster) (rest : List (Nat × Cluster))
    (acc : List Cluster × List Cluster) (h : ∀ c ∈ acc.1, c.core = none) :
    ∀ c ∈ (findSeeds d preClusters rest acc).1, c.core = none := by
  induction rest generalizing acc with
  | nil => simpa [findSeeds] using h
  | cons ic rest ih =>
    obtain ⟨i, cli⟩ := ic
    obtain ⟨seeds, leftovers⟩ := acc
    unfold findSeeds
    split
    · apply ih
      intro c hc
      rcases List.mem_append.mp hc with h1 | h1
      · exact h c h1
      · rw [List.mem_singleton] at h1
        rw [h1]
        exact seedCluster_core cli
    · exact ih _ h

theorem selectSeeds_core (densityTh : ℚ) (seeds : List Cluster)
    (acc : List Cluster × List Cluster) (hs : ∀ c ∈ seeds, c.core = none)
    (h : ∀ c ∈ acc.1, c.core = none) :
    ∀ c ∈ (selectSeeds densityTh seeds acc).1, c.core = none := by
  induction seeds generalizing acc with
  | nil => simpa [selectSeeds] using h
  | cons cl rest ih =>
    obtain ⟨clusters, leftovers⟩ := acc
    have hrest : ∀ c ∈ rest, c.core = none := fun c hc => hs c (List.mem_cons_of_mem _ hc)
    unfold selectSeeds
    split
    · exact ih _ hrest h
    · apply ih _ hrest
      intro c hc
      rcases List.mem_append.mp hc with h1 | h1
      · exact h c h1
      · rw [List.mem_singleton] at h1
        rw [h1]
        exact hs cl (List.mem_cons_self _ _)

theorem assignLeftovers_core (leftovers clusters res : List Cluster)
    (h : ∀ c ∈ clusters, c.core = none) (hres : assignLeftovers leftovers clusters = some res) :
    ∀ c ∈ res, c.core = none := by
  induction leftovers generalizing clusters with
  | nil =>
    simp only [assignLeftovers, Option.some.injEq] at hres
    rw [← hres]
    exact h
  | cons cli rest ih =>
    unfold assignLeftovers at hres
    cases h1 : assignLeftover clusters cli with
    | none => simp [h1] at hres
    | some clusters1 =>
      simp only [h1] at hres
      refine ih clusters1 ?_ hres
      unfold assignLeftover at h1
      cases hc : clusters with
      | nil => simp [hc] at h1
      | cons c0 cs =>
        simp only [hc, Option.some.injEq] at h1
        rw [← h1]
        apply forall_mem_modify (fun c => c.core = none) _
          (fun c hcc => (Cluster.addPoints_core c cli).trans hcc)
        rw [← hc]
        exact h

theorem coreOf_core (cov : ℚ × ℚ × ℚ) (smax : ℚ) (cl : Cluster) :
    (coreOf cov smax cl).core = none := by
  unfold coreOf
  have key : ∀ (ps : List CloudPoint) (core : Cluster),
      (ps.foldl (fun core p => if deviation cov cl.seed p > smax then core
        else core.addPoint p) core).core = core.core := by
    intro ps
    induction ps with
    | nil => intro core; rfl
    | cons p ps ih =>
      intro core
      rw [List.foldl_cons, ih]
      split
      · rfl
      · rfl
  rw [key]
  rfl

/-- C18: the pre-clusters produced by `runPreClustering` (from no pre-clusters) and the
final clusters produced by `runSeededClustering` (from no final clusters) have no core;
after `cleanupClusters`, and so after the whole chain `runClustering`, every final
cluster has a core, and that core has no core. -/
theorem clusters_core_lifecycle (ds : DataSet) (config : Config) :
    (ds.preClusters = [] → ∀ cl ∈ (runPreClustering ds config).preClusters, cl.core = none) ∧
    (ds.clusters = [] → ∀ ds2, runSeededClustering ds config = some ds2 →
      ∀ cl ∈ ds2.clusters, cl.core = none) ∧
    (∀ ds3, cleanupClusters ds config = some ds3 →
      ∀ cl ∈ ds3.clusters, ∃ core, cl.core = some core ∧ core.core = none) ∧
    (∀ ds4, runClustering ds config = some ds4 →
      ∀ cl ∈ ds4.clusters, ∃ core, cl.core = some core ∧ core.core = none) := by
  have hclean : ∀ (ds0 ds3 : DataSet), cleanupClusters ds0 config = some ds3 →
      ∀ cl ∈ ds3.clusters, ∃ core, cl.core = some core ∧ core.core = none := by
    intro ds0 ds3 h cl hcl
    rw [cleanupClusters_eq_some ds0 ds3 config h, List.mem_map] at hcl
    obtain ⟨cl0, _, rfl⟩ := hcl
    exact ⟨_, rfl, coreOf_core _ _ cl0⟩
  refine ⟨?_, ?_, hclean ds, ?_⟩
  · intro hpre
    apply preClusterFold_core
    rw [hpre]
    intro c hc
    simp at hc
  · intro hfresh ds2 h
    unfold runSeededClustering at h
    simp only at h
    split at h
    · exact absurd h (by simp)
    · rename_i res hres
      simp only [Option.some.injEq] at h
      rw [← h]
      apply assignLeftovers_core _ _ res _ hres
      apply selectSeeds_core
      · apply findSeeds_core
        intro c hc
        simp at hc
      · rw [hfresh]
        intro c hc
        simp at hc
  · intro ds4 h
    unfold runClustering at h
    split at h
    · exact absurd h (by simp)
    · split at h
      · exact absurd h (by simp)
      · exact hclean _ ds4 h

/-! ## Seeded clustering: local maxima -/

theorem localMaxLoop_eq_true_iff (d : ℚ) (i : Nat) (cli : Cluster) (l : List (Nat × Cluster))
    (b : Bool) :
    localMaxLoop d i cli l b = true ↔
      b = true ∧ ∀ x ∈ l, x.1 ≠ i → outsideWindow d cli x.2 = false →
        x.2.density ≤ cli.density ∧ (x.2.density = cli.density → x.1 < i) := by
  induction l generalizing b with
  | nil => simp [localMaxLoop]
  | cons jc rest ih =>
    obtain ⟨j, clj⟩ := jc
    unfold localMaxLoop
    by_cases hij : i = j
    · subst hij
      simp only [if_true, ih, List.mem_cons, forall_eq_or_imp, ne_eq, not_true_eq_false,
        false_implies, true_and]
    · have hji : j ≠ i := fun h => hij h.symm
      simp only [hij, if_false]
      by_cases hout : outsideWindow d cli clj = true
      · simp only [hout, if_true, ih, List.mem_cons, forall_eq_or_imp, ne_eq]
        simp
      · have hout1 : outsideWindow d cli clj = false := by simpa using hout
        simp only [hout1, Bool.false_eq_true, if_false]
        by_cases hgt : clj.density > cli.density
        · simp only [hgt, if_true, List.mem_cons, forall_eq_or_imp]
          constructor
          · intro h
            exact absurd h (by simp)
          · rintro ⟨_, h, _⟩
            exact absurd (h hji hout1).1 (not_le.mpr hgt)
        · simp only [hgt, if_false]
          by_cases htie : clj.density = cli.density ∧ i < j
          · rw [if_pos htie, ih]
            constructor
            · rintro ⟨h, _⟩
              exact absurd h (by simp)
            · rintro ⟨_, h⟩
              have h1 := (h (j, clj) (List.mem_cons_self _ _) hji hout1).2 htie.1
              have h2 := htie.2
              exact absurd h1 (by simp only at h1 ⊢; omega)
          · rw [if_neg htie, ih]
            constructor
            · rintro ⟨hb, hrest⟩
              refine ⟨hb, ?_⟩
              intro x hx
              rcases List.mem_cons.mp hx with rfl | hmem
              · intro _ _
                refine ⟨not_lt.mp hgt, ?_⟩
                intro heq
                have h3 : ¬ i < j := fun hlt => htie ⟨heq, hlt⟩
                show j < i
                omega
              · exact hrest x hmem
            · rintro ⟨hb, hall⟩
              exact ⟨hb, fun x hx => hall x (List.mem_cons_of_mem _ hx)⟩

theorem findSeeds_eq_filter (d : ℚ) (preClusters : List Cluster) (l : List (Nat × Cluster))
    (acc : List Cluster × List Cluster) :
    findSeeds d preClusters l acc =
      (acc.1 ++ (l.filter (fun x => isLocalMax d preClusters x.1 x.2)).map
          (fun x => seedCluster x.2),
       acc.2 ++ (l.filter (fun x => !isLocalMax d preClusters x.1 x.2)).map Prod.snd) := by
  induction l generalizing acc with
  | nil => simp [findSeeds]
  | cons ic rest ih =>
    obtain ⟨i, cli⟩ := ic
    obtain ⟨seeds, leftovers⟩ := acc
    unfold findSeeds
    by_cases h : isLocalMax d preClusters i cli = true
    · simp [h, ih]
    · simp [h, ih]

/-- C19, as the code has it: pre-cluster `i` is taken as a local density maximum exactly
when every other pre-cluster `j` inside the window around `i` has a density that is not
greater and, when its density equals that of `i`, an index `j < i` (the higher index
wins an exact tie); the seeds are the seed clusters of these pre-clusters, in order, and
the other pre-clusters are the leftovers. -/
theorem isLocalMax_iff_higher_index_wins (d : ℚ) (preClusters : List Cluster) (i : Nat)
    (cli : Cluster) :
    (isLocalMax d preClusters i cli = true ↔
      ∀ x ∈ preClusters.enum, x.1 ≠ i → outsideWindow d cli x.2 = false →
        x.2.density ≤ cli.density ∧ (x.2.density = cli.density → x.1 < i)) ∧
    findSeeds d preClusters preClusters.enum ([], []) =
      ((preClusters.enum.filter (fun x => isLocalMax d preClusters x.1 x.2)).map
          (fun x => seedCluster x.2),
       (preClusters.enum.filter (fun x => !isLocalMax d preClusters x.1 x.2)).map
          Prod.snd) := by
  refine ⟨?_, ?_⟩
  · unfold isLocalMax
    rw [localMaxLoop_eq_true_iff]
    simp
  · rw [findSeeds_eq_filter]
    simp

/-- C19 fails as stated: the first two of three pre-clusters are inside each other's
window and have the same density; by the claimed rule the first (lower index) is the
local maximum and the second is not, the code takes the second and not the first. -/
theorem isLocalMax_not_lower_index_wins :
    exampleDensityData.preClusters.enum.map
        (fun x => claimedLocalMax (1 / 2) exampleDensityData.preClusters x.1 x.2)
      = [true, false, true] ∧
    exampleDensityData.preClusters.enum.map
        (fun x => isLocalMax (1 / 2) exampleDensityData.preClusters x.1 x.2)
      = [false, true, true] := by
  decide!

/-! ## Seeded clustering: the nearest seed -/

theorem nearestLoop_min (cli : Cluster) (l : List (Nat × Cluster)) (icl : Nat) (m : ℚ)
    (hsorted : l.Pairwise (fun a b => a.1 < b.1)) (hicl : ∀ x ∈ l, icl < x.1) :
    ∃ m1, m1 ≤ m ∧ (∀ x ∈ l, m1 ≤ x.2.seed.dist2DSq cli.com) ∧
      (∀ x ∈ l, x.1 < nearestLoop cli l icl m → m1 < x.2.seed.dist2DSq cli.com) ∧
      ((nearestLoop cli l icl m = icl ∧ m1 = m) ∨
        (∃ c, (nearestLoop cli l icl m, c) ∈ l ∧ c.seed.dist2DSq cli.com = m1 ∧ m1 < m)) := by
  induction l generalizing icl m with
  | nil => exact ⟨m, le_refl _, by simp, by simp, Or.inl ⟨rfl, rfl⟩⟩
  | cons jc rest ih =>
    obtain ⟨j, cl⟩ := jc
    rw [List.pairwise_cons] at hsorted
    obtain ⟨hj, hrest⟩ := hsorted
    unfold nearestLoop
    simp only
    by_cases hlt : cl.seed.dist2DSq cli.com < m
    · rw [if_pos hlt]
      obtain ⟨m1, hle, hall, hbefore, hres⟩ := ih j (cl.seed.dist2DSq cli.com) hrest hj
      refine ⟨m1, le_of_lt (lt_of_le_of_lt hle hlt), ?_, ?_, ?_⟩
      · intro x hx
        rcases List.mem_cons.mp hx with rfl | hmem
        · exact hle
        · exact hall x hmem
      · intro x hx hxr
        rcases List.mem_cons.mp hx with rfl | hmem
        · rcases hres with ⟨hr, _⟩ | ⟨c, _, hc, hlt1⟩
          · rw [hr] at hxr
            exact absurd hxr (lt_irrefl _)
          · exact hlt1
        · exact hbefore x hmem hxr
      · right
        rcases hres with ⟨hr, hm⟩ | ⟨c, hc, hd, hlt1⟩
        · exact ⟨cl, by rw [hr]; exact List.mem_cons_self _ _, hm.symm, by rw [hm]; exact hlt⟩
        · exact ⟨c, List.mem_cons_of_mem _ hc, hd, lt_trans hlt1 hlt⟩
    · rw [if_neg hlt]
      have hge : m ≤ cl.seed.dist2DSq cli.com := not_lt.mp hlt
      obtain ⟨m1, hle, hall, hbefore, hres⟩ := ih icl m hrest
        (fun x hx => hicl x (List.mem_cons_of_mem _ hx))
      refine ⟨m1, hle, ?_, ?_, ?_⟩
      · intro x hx
        rcases List.mem_cons.mp hx with rfl | hmem
        · exact le_trans hle hge
        · exact hall x hmem
      · intro x hx hxr
        rcases List.mem_cons.mp hx with rfl | hmem
        · rcases hres with ⟨hr, _⟩ | ⟨c, _, _, hlt1⟩
          · rw [hr] at hxr
            exact absurd hxr (not_lt.mpr (le_of_lt (hicl _ (List.mem_cons_self _ _))))
          · exact lt_of_lt_of_le hlt1 hge
        · exact hbefore x hmem hxr
      · rcases hres with h1 | ⟨c, hc, hd, hlt1⟩
        · exact Or.inl h1
        · exact Or.inr ⟨c, List.mem_cons_of_mem _ hc, hd, hlt1⟩

theorem Cluster.foldl_addPoint_seed (ps : List CloudPoint) (c : Cluster) :
    (ps.foldl Cluster.addPoint c).seed = c.seed := by
  induction ps generalizing c with
  | nil => rfl
  | cons p ps ih =>
    rw [List.foldl_cons, ih]
    rfl

theorem Cluster.addPoints_seed (c cl : Cluster) : (c.addPoints cl).seed = c.seed :=
  Cluster.foldl_addPoint_seed cl.points c

theorem map_seed_modify (cli : Cluster) (l : List Cluster) (i : Nat) :
    (l.modify (fun cl => cl.addPoints cli) i).map (fun cl => cl.seed)
      = l.map (fun cl => cl.seed) := by
  induction l generalizing i with
  | nil => simp
  | cons a l ih =>
    cases i with
    | zero => simp [Cluster.addPoints_seed]
    | succ i =>
      rw [List.modify_succ_cons, List.map_cons, List.map_cons, ih]

theorem assignLeftover_spec (clusters : List Cluster) (cli : Cluster)
    (hne : clusters ≠ []) :
    ∃ icl c, clusters[icl]? = some c ∧
      assignLeftover clusters cli = some (clusters.modify (fun cl => cl.addPoints cli) icl) ∧
      (∀ (j : Nat) (cl : Cluster), clusters[j]? = some cl →
        c.seed.dist2DSq cli.com ≤ cl.seed.dist2DSq cli.com) ∧
      (∀ (j : Nat) (cl : Cluster), clusters[j]? = some cl → j < icl →
        c.seed.dist2DSq cli.com < cl.seed.dist2DSq cli.com) := by
  cases hcl : clusters with
  | nil => exact absurd hcl hne
  | cons c0 rest =>
    have hdrop : (c0 :: rest).enum.drop 1 = List.enumFrom 1 rest := rfl
    have hsorted : (List.enumFrom 1 rest).Pairwise (fun a b => a.1 < b.1) := by
      have h := List.pairwise_lt_range' 1 rest.length
      rw [← List.enumFrom_map_fst 1 rest, List.pairwise_map] at h
      exact h
    have hpos : ∀ x ∈ List.enumFrom 1 rest, 0 < x.1 := by
      intro x hx
      have := List.le_fst_of_mem_enumFrom hx
      omega
    have hassign : assignLeftover (c0 :: rest) cli = some ((c0 :: rest).modify
        (fun cl => cl.addPoints cli)
        (nearestLoop cli (List.enumFrom 1 rest) 0 (c0.seed.dist2DSq cli.com))) := rfl
    have key :=
      nearestLoop_min cli (List.enumFrom 1 rest) 0 (c0.seed.dist2DSq cli.com) hsorted hpos
    generalize nearestLoop cli (List.enumFrom 1 rest) 0 (c0.seed.dist2DSq cli.com) = r
      at key hassign
    obtain ⟨m1, hle, hall, hbefore, hres⟩ := key
    have hmem : ∀ (j : Nat) (cl : Cluster), (c0 :: rest)[j]? = some cl →
        (j, cl) = (0, c0) ∨ (j, cl) ∈ List.enumFrom 1 rest := by
      intro j cl hj
      have h1 : (j, cl) ∈ (c0 :: rest).enum := List.mk_mem_enum_iff_getElem?.mpr hj
      rw [List.enum_cons] at h1
      exact List.mem_cons.mp h1
    have hget : ∃ c, (c0 :: rest)[r]? = some c ∧ c.seed.dist2DSq cli.com = m1 := by
      rcases hres with ⟨hr, hm⟩ | ⟨c, hc, hd, _⟩
      · exact ⟨c0, by rw [hr]; simp, hm.symm⟩
      · refine ⟨c, ?_, hd⟩
        apply List.mk_mem_enum_iff_getElem?.mp
        rw [List.enum_cons]
        exact List.mem_cons_of_mem _ hc
    obtain ⟨c, hc, hd⟩ := hget
    refine ⟨r, c, hc, hassign, ?_, ?_⟩
    · intro j cl hj
      rw [hd]
      rcases hmem j cl hj with h0 | h1
      · have e : cl = c0 := (Prod.mk.inj h0).2
        rw [e]
        exact hle
      · exact hall (j, cl) h1
    · intro j cl hj hlt
      rw [hd]
      rcases hmem j cl hj with h0 | h1
      · have e : cl = c0 := (Prod.mk.inj h0).2
        have e0 : j = 0 := (Prod.mk.inj h0).1
        rw [e]
        rcases hres with ⟨hr, _⟩ | ⟨_, _, _, hlt1⟩
        · rw [hr, e0] at hlt
          exact absurd hlt (lt_irrefl _)
        · exact hlt1
      · exact hbefore (j, cl) h1 hlt

/-- C20: in the third loop of `runSeededClustering`, with at least one cluster, the
points of a leftover are added to the cluster `icl` whose seed position has the minimal
squared planar distance to the leftover's center of mass, every cluster of a smaller
index being strictly farther (the smallest index wins an exact tie); the seed positions
of the clusters are not changed by this. -/
theorem assignLeftover_nearest_seed (clusters : List Cluster) (cli : Cluster)
    (hne : clusters ≠ []) :
    ∃ icl c, clusters[icl]? = some c ∧
      assignLeftover clusters cli = some (clusters.modify (fun cl => cl.addPoints cli) icl) ∧
      (clusters.modify (fun cl => cl.addPoints cli) icl)[icl]? = some (c.addPoints cli) ∧
      (c.addPoints cli).points = c.points ++ cli.points ∧
      (∀ (j : Nat) (cl : Cluster), clusters[j]? = some cl →
        c.seed.dist2DSq cli.com ≤ cl.seed.dist2DSq cli.com) ∧
      (∀ (j : Nat) (cl : Cluster), clusters[j]? = some cl → j < icl →
        c.seed.dist2DSq cli.com < cl.seed.dist2DSq cli.com) ∧
      (clusters.modify (fun cl => cl.addPoints cli) icl).map (fun cl => cl.seed)
        = clusters.map (fun cl => cl.seed) := by
  obtain ⟨icl, c, hc, hassign, hmin, hbefore⟩ := assignLeftover_spec clusters cli hne
  refine ⟨icl, c, hc, hassign, ?_, Cluster.addPoints_points c cli, hmin, hbefore,
    map_seed_modify cli _ _⟩
  rw [List.getElem?_modify_eq, hc]
  rfl

/-- C20 at two clusters with the seed positions `(0, 0, 0)` and `(10, 0, 0)` and a
leftover with its center of mass at `(0, 1, 0)`. -/
theorem assignLeftover_nearest_seed_witness :
    exampleSeedClusters ≠ [] ∧
    ∃ icl c, exampleSeedClusters[icl]? = some c ∧
      assignLeftover exampleSeedClusters exampleSingleton
        = some (exampleSeedClusters.modify (fun cl => cl.addPoints exampleSingleton) icl) ∧
      (exampleSeedClusters.modify (fun cl => cl.addPoints exampleSingleton) icl)[icl]?
        = some (c.addPoints exampleSingleton) ∧
      (c.addPoints exampleSingleton).points = c.points ++ exampleSingleton.points ∧
      (∀ (j : Nat) (cl : Cluster), exampleSeedClusters[j]? = some cl →
        c.seed.dist2DSq exampleSingleton.com ≤ cl.seed.dist2DSq exampleSingleton.com) ∧
      (∀ (j : Nat) (cl : Cluster), exampleSeedClusters[j]? = some cl → j < icl →
        c.seed.dist2DSq exampleSingleton.com < cl.seed.dist2DSq exampleSingleton.com) ∧
      (exampleSeedClusters.modify (fun cl => cl.addPoints exampleSingleton) icl).map
          (fun cl => cl.seed)
        = exampleSeedClusters.map (fun cl => cl.seed) :=
  have hne : exampleSeedClusters ≠ [] := by simp [exampleSeedClusters]
  ⟨hne, assignLeftover_nearest_seed exampleSeedClusters exampleSingleton hne⟩

/-! ## Layer profile: the layer index -/

theorem truncToInt_eq_floor (q : ℚ) (hq : 0 ≤ q) : truncToInt q = Rat.floor q := by
  have hnum : 0 ≤ q.num := Rat.num_nonneg.mpr hq
  unfold truncToInt
  rw [Rat.floor_def', Int.tdiv_eq_ediv hnum (Int.ofNat_nonneg _)]

/-- For a point that is not below the ground and a positive `ymax`, the layer index of
`Cluster::layers` is the claimed one, `floor(n * y / ymax)` clamped into `[0, n-1]`,
and it is a position of the profile. -/
theorem layerIndex_of_nonneg (nLayers : Nat) (ymax : ℚ) (p : CloudPoint) (hn : 1 ≤ nLayers)
    (hymax : 0 < ymax) (hy : 0 ≤ p.y) :
    layerIndex nLayers ymax p = some (claimedLayerIndex nLayers ymax p) ∧
    0 ≤ claimedLayerIndex nLayers ymax p ∧
    claimedLayerIndex nLayers ymax p < nLayers := by
  have hq : 0 ≤ (nLayers : ℚ) * p.y / ymax :=
    div_nonneg (mul_nonneg (Nat.cast_nonneg _) hy) (le_of_lt hymax)
  have hfl : 0 ≤ Rat.floor ((nLayers : ℚ) * p.y / ymax) :=
    Rat.le_floor.mpr (by exact_mod_cast hq)
  have hn1 : (1 : Int) ≤ (nLayers : Int) := by exact_mod_cast hn
  refine ⟨?_, ?_, ?_⟩
  · unfold layerIndex claimedLayerIndex
    rw [if_neg (ne_of_gt hymax)]
    simp only [truncToInt_eq_floor _ hq]
    congr 1
    split
    · rename_i h
      rw [min_eq_left (by omega), max_eq_right (by omega)]
    · rename_i h
      rw [min_eq_right (by omega), max_eq_right hfl]
  · exact le_max_left _ _
  · unfold claimedLayerIndex
    have h1 : min ((nLayers : Int) - 1) (Rat.floor ((nLayers : ℚ) * p.y / ymax))
        ≤ (nLayers : Int) - 1 := min_le_left _ _
    rcases max_cases (0 : Int)
      (min ((nLayers : Int) - 1) (Rat.floor ((nLayers : ℚ) * p.y / ymax))) with h | h
    · omega
    · omega

/-- C11 on a cluster with the points `y = -1` and `y = 1`, for two layers: `ymax` is
`1`, the index computed for the first point is `(int)(2 * (-1) / 1) = -2`, not
`floor(-2)` clamped into `[0, 1]`, which is `0`; `m_layers[-2]` is not a position of
the profile and the call has no value. -/
theorem layerIndex_negative_not_clamped :
    layersYmax exampleNegativeCluster.points = 1 ∧
    exampleNegativeCluster.points.map (layerIndex 2 1) = [some (-2), some 1] ∧
    exampleNegativeCluster.points.map (claimedLayerIndex 2 1) = [0, 1] ∧
    (exampleNegativeCluster.layers 2 3000).isSome = false := by
  decide!

/-! ## Layer profile: the averages -/

theorem layerAdd_nil (layer : CloudPoint) : layerAdd layer [] = layer := by
  simp [layerAdd]

theorem layerAdd_cons (layer p : CloudPoint) (qs : List CloudPoint) :
    layerAdd { layer with y := layer.y + p.y, r := layer.r + p.r, g := layer.g + p.g,
                          b := layer.b + p.b } qs
      = layerAdd layer (p :: qs) := by
  simp [layerAdd, add_assoc]

theorem binPoints_cons_self (nLayers : Nat) (ymax : ℚ) (p : CloudPoint) (ps : List CloudPoint)
    (i : Nat) (h : layerIndex nLayers ymax p = some (i : Int)) :
    binPoints nLayers ymax (p :: ps) i = p :: binPoints nLayers ymax ps i := by
  simp [binPoints, h]

theorem binPoints_cons_other (nLayers : Nat) (ymax : ℚ) (p : CloudPoint) (ps : List CloudPoint)
    (i : Nat) (h : layerIndex nLayers ymax p ≠ some (i : Int)) :
    binPoints nLayers ymax (p :: ps) i = binPoints nLayers ymax ps i := by
  simp [binPoints, h]

theorem layersAccumulate_sums (nLayers : Nat) (ymax : ℚ) (ps : List CloudPoint)
    (layers : List CloudPoint) (counts : List Int) (layers1 : List CloudPoint)
    (counts1 : List Int)
    (h : layersAccumulate nLayers ymax ps (layers, counts) = some (layers1, counts1)) :
    ∀ i : Nat,
      layers1[i]? = (layers[i]?).map (fun l => layerAdd l (binPoints nLayers ymax ps i)) ∧
      counts1[i]? = (counts[i]?).map
        (fun k => k + ((binPoints nLayers ymax ps i).length : Int)) := by
  induction ps generalizing layers counts with
  | nil =>
    simp only [layersAccumulate, Option.some.injEq, Prod.mk.injEq] at h
    obtain ⟨rfl, rfl⟩ := h
    intro i
    constructor
    · cases layers[i]? <;> simp [binPoints, layerAdd_nil]
    · cases counts[i]? <;> simp [binPoints]
  | cons p ps ih =>
    unfold layersAccumulate at h
    cases hidx : layerIndex nLayers ymax p with
    | none => simp [hidx] at h
    | some iLayer =>
      simp only [hidx] at h
      by_cases hneg : iLayer < 0
      · simp [hneg] at h
      · rw [if_neg hneg] at h
        simp only [List.get?_eq_getElem?] at h
        cases hget1 : layers[iLayer.toNat]? with
        | none => simp [hget1] at h
        | some layer =>
          simp only [hget1] at h
          have hk : ((iLayer.toNat : Nat) : Int) = iLayer := Int.toNat_of_nonneg (not_lt.mp hneg)
          have hlt : iLayer.toNat < layers.length :=
            (List.getElem?_eq_some_iff.mp hget1).1
          intro i
          obtain ⟨h1, h2⟩ := ih _ _ h i
          by_cases hi : i = iLayer.toNat
          · subst hi
            have hbin := binPoints_cons_self nLayers ymax p ps iLayer.toNat (by rw [hidx, hk])
            constructor
            · rw [h1, List.getElem?_set_self hlt, hget1, hbin]
              simp only [Option.map_some']
              rw [layerAdd_cons]
            · rw [h2, List.getElem?_modify_eq, hbin]
              cases counts[iLayer.toNat]? with
              | none => rfl
              | some k =>
                simp only [Option.map_eq_map, Option.map_some', List.length_cons,
                  Nat.cast_add, Nat.cast_one, Option.some.injEq]
                ring
          · have hne : layerIndex nLayers ymax p ≠ some (i : Int) := by
              rw [hidx]
              intro hh
              have h3 : iLayer = (i : Int) := Option.some.inj hh
              apply hi
              rw [h3]
              simp
            have hbin := binPoints_cons_other nLayers ymax p ps i hne
            constructor
            · rw [h1, List.getElem?_set_ne (Ne.symm hi), hbin]
            · rw [h2, List.getElem?_modify_ne _ _ (Ne.symm hi), hbin]

theorem resizeLayers_nil_zero (n : Nat) (nextId : Int) :
    (resizeLayers [] n nextId).1.length = n ∧
    ∀ l ∈ (resizeLayers [] n nextId).1, l.y = 0 ∧ l.r = 0 ∧ l.g = 0 ∧ l.b = 0 := by
  induction n generalizing nextId with
  | zero => simp [resizeLayers]
  | succ n ih =>
    obtain ⟨hlen, hall⟩ := ih (nextId + 1)
    unfold resizeLayers
    refine ⟨by simp [hlen], ?_⟩
    intro l hl
    rcases List.mem_cons.mp hl with rfl | hmem
    · simp [CloudPoint.default, CloudPoint.new]
    · exact hall l hmem

/-- C12, as the code has it: for a cluster with an empty layer cache and `n ≥ 1`, the
profile returned by `layers(n)` has `n` layers and is the new cache; each layer that
received at least one point has the seed's `x` and `z`, the average `y` of the points
that fell in it, and for `r`, `g` and `b` the integer quotient (rounded toward zero) of
their sum by the number of these points. -/
theorem layers_bin_average (c : Cluster) (nLayers : Nat) (nextId : Int)
    (res : List CloudPoint) (c1 : Cluster) (id1 : Int)
    (hcache : c.m_layers = []) (hn : 1 ≤ nLayers)
    (h : c.layers nLayers nextId = some (res, c1, id1)) :
    res.length = nLayers ∧ c1.m_layers = res ∧
    ∀ (i : Nat) (layer : CloudPoint), res[i]? = some layer →
      binPoints nLayers (layersYmax c.points) c.points i ≠ [] →
      layer.x = c.seed.x ∧ layer.z = c.seed.z ∧
      layer.y = ((binPoints nLayers (layersYmax c.points) c.points i).map (fun p => p.y)).sum
        / ((binPoints nLayers (layersYmax c.points) c.points i).length : ℚ) ∧
      layer.r = Int.tdiv
        ((binPoints nLayers (layersYmax c.points) c.points i).map (fun p => p.r)).sum
        ((binPoints nLayers (layersYmax c.points) c.points i).length : Int) ∧
      layer.g = Int.tdiv
        ((binPoints nLayers (layersYmax c.points) c.points i).map (fun p => p.g)).sum
        ((binPoints nLayers (layersYmax c.points) c.points i).length : Int) ∧
      layer.b = Int.tdiv
        ((binPoints nLayers (layersYmax c.points) c.points i).map (fun p => p.b)).sum
        ((binPoints nLayers (layersYmax c.points) c.points i).length : Int) := by
  unfold Cluster.layers at h
  have hmiss : ¬ nLayers = c.m_layers.length := by
    rw [hcache]
    simp only [List.length_nil]
    omega
  rw [if_neg hmiss, hcache] at h
  simp only at h
  obtain ⟨hrlen, hrzero⟩ := resizeLayers_nil_zero nLayers nextId
  cases hacc : layersAccumulate nLayers (layersYmax c.points) c.points
      ((resizeLayers [] nLayers nextId).1, List.replicate nLayers 0) with
  | none => simp [hacc] at h
  | some acc =>
    obtain ⟨sums, counts⟩ := acc
    simp only [hacc, Option.some.injEq, Prod.mk.injEq] at h
    obtain ⟨hres, hc1, _⟩ := h
    have hspec := layersAccumulate_sums nLayers (layersYmax c.points) c.points _ _ _ _ hacc
    have hslen : sums.length = nLayers := by
      apply le_antisymm
      · by_contra hgt
        have h1 := (hspec nLayers).1
        rw [List.getElem?_eq_none (by omega : (resizeLayers [] nLayers nextId).1.length ≤ nLayers)]
          at h1
        rw [List.getElem?_eq_getElem (by omega)] at h1
        simp at h1
      · by_contra hlt
        have h1 := (hspec sums.length).1
        rw [List.getElem?_eq_none (le_refl _)] at h1
        rw [List.getElem?_eq_getElem (by omega)] at h1
        simp at h1
    have hclen : counts.length = nLayers := by
      apply le_antisymm
      · by_contra hgt
        have h1 := (hspec nLayers).2
        rw [List.getElem?_eq_none (by simp : (List.replicate nLayers (0 : Int)).length ≤ nLayers)]
          at h1
        rw [List.getElem?_eq_getElem (by omega)] at h1
        simp at h1
      · by_contra hlt
        have h1 := (hspec counts.length).2
        rw [List.getElem?_eq_none (le_refl _)] at h1
        rw [List.getElem?_eq_getElem (by simp; omega)] at h1
        simp at h1
    refine ⟨?_, ?_, ?_⟩
    · rw [← hres]
      simp [hslen, hclen]
    · rw [← hc1, ← hres]
    · intro i layer hlayer hbin
      rw [← hres, List.getElem?_zipWith_eq_some] at hlayer
      obtain ⟨s, k, hs, hk, hlay⟩ := hlayer
      obtain ⟨h1, h2⟩ := hspec i
      rw [hs] at h1
      rw [hk] at h2
      cases hd : (resizeLayers [] nLayers nextId).1[i]? with
      | none => simp [hd] at h1
      | some dflt =>
        have hzero := hrzero dflt (List.getElem?_mem hd)
        have hilt : i < nLayers := by
          have := (List.getElem?_eq_some_iff.mp hk).1
          omega
        rw [hd] at h1
        rw [List.getElem?_replicate_of_lt hilt] at h2
        simp only [Option.map_some', Option.some.injEq, zero_add] at h1 h2
        have hkne : k ≠ 0 := by
          rw [h2]
          intro h0
          apply hbin
          exact List.length_eq_zero.mp (by exact_mod_cast h0)
        rw [← hlay]
        unfold layersAverage
        rw [if_pos hkne, h1, h2]
        obtain ⟨hy, hr, hg, hb⟩ := hzero
        simp [layerAdd, hy, hr, hg, hb]

theorem exampleOddCluster_isSome : (exampleOddCluster.layers 1 3000).isSome = true := by
  decide!

/-- C12, as the code has it, at a cluster of two points and one layer. -/
theorem layers_bin_average_witness :
    ∃ (res : List CloudPoint) (c1 : Cluster) (id1 : Int),
      exampleOddCluster.layers 1 3000 = some (res, c1, id1) ∧
      res.length = 1 ∧ c1.m_layers = res ∧
      ∀ (i : Nat) (layer : CloudPoint), res[i]? = some layer →
        binPoints 1 (layersYmax exampleOddCluster.points) exampleOddCluster.points i ≠ [] →
        layer.x = exampleOddCluster.seed.x ∧ layer.z = exampleOddCluster.seed.z ∧
        layer.y = ((binPoints 1 (layersYmax exampleOddCluster.points)
            exampleOddCluster.points i).map (fun p => p.y)).sum
          / ((binPoints 1 (layersYmax exampleOddCluster.points)
            exampleOddCluster.points i).length : ℚ) ∧
        layer.r = Int.tdiv
          ((binPoints 1 (layersYmax exampleOddCluster.points)
            exampleOddCluster.points i).map (fun p => p.r)).sum
          ((binPoints 1 (layersYmax exampleOddCluster.points)
            exampleOddCluster.points i).length : Int) ∧
        layer.g = Int.tdiv
          ((binPoints 1 (layersYmax exampleOddCluster.points)
            exampleOddCluster.points i).map (fun p => p.g)).sum
          ((binPoints 1 (layersYmax exampleOddCluster.points)
            exampleOddCluster.points i).length : Int) ∧
        layer.b = Int.tdiv
          ((binPoints 1 (layersYmax exampleOddCluster.points)
            exampleOddCluster.points i).map (fun p => p.b)).sum
          ((binPoints 1 (layersYmax exampleOddCluster.points)
            exampleOddCluster.points i).length : Int) :=
  ⟨_, _, _, (Option.some_get exampleOddCluster_isSome).symm,
    layers_bin_average exampleOddCluster 1 3000 _ _ _ rfl (le_refl 1)
      (Option.some_get exampleOddCluster_isSome).symm⟩

/-- C12 fails as stated: both points of the cluster (colours `(1, 1, 1)` and
`(2, 3, 4)`) fall in the only layer of `layers(1)`; their average colour is
`(3/2, 2, 5/2)`, the layer stores `(1, 2, 2)`. -/
theorem layers_colour_not_exact_average :
    exampleOddCluster.m_layers.length = 0 ∧
    binPoints 1 (layersYmax exampleOddCluster.points) exampleOddCluster.points 0
      = exampleOddCluster.points ∧
    meanColour exampleOddCluster.points = (3 / 2, 2, 5 / 2) ∧
    (exampleOddCluster.layers 1 3000).map
        (fun res => res.1.map (fun layer => (layer.r, layer.g, layer.b)))
      = some [(1, 2, 2)] := by
  decide!

/-! ## Unsupervised classification: the class ids -/

theorem setGroupClassId_length (v : Int) (group : List Nat) (inputs : List Cluster) :
    (setGroupClassId v group inputs).length = inputs.length := by
  unfold setGroupClassId
  induction group generalizing inputs with
  | nil => rfl
  | cons j group ih => rw [List.foldl_cons, ih, List.length_modify]

theorem setGroupClassId_keeps (Q : Int → Prop) (v : Int) (hv : Q v) (group : List Nat)
    (inputs : List Cluster) (k : Nat)
    (hk : ∀ obj, inputs[k]? = some obj → Q obj.classId) :
    ∀ obj, (setGroupClassId v group inputs)[k]? = some obj → Q obj.classId := by
  unfold setGroupClassId
  induction group generalizing inputs with
  | nil => exact hk
  | cons j group ih =>
    rw [List.foldl_cons]
    apply ih
    intro obj hobj
    rw [List.getElem?_modify] at hobj
    cases hin : inputs[k]? with
    | none => simp [hin] at hobj
    | some obj0 =>
      simp only [hin, Option.map_eq_map, Option.map_some', Option.some.injEq] at hobj
      rw [← hobj]
      split
      · exact hv
      · exact hk obj0 hin

theorem setGroupClassId_sets (Q : Int → Prop) (v : Int) (hv : Q v) (group : List Nat)
    (inputs : List Cluster) (k : Nat) (hk : k ∈ group) :
    ∀ obj, (setGroupClassId v group inputs)[k]? = some obj → Q obj.classId := by
  induction group generalizing inputs with
  | nil => simp at hk
  | cons j group ih =>
    by_cases hjk : j = k
    · subst hjk
      have h1 := setGroupClassId_keeps Q v hv group
        (inputs.modify (fun cl => { cl with classId := v }) j) j (by
          intro obj hobj
          rw [List.getElem?_modify_eq] at hobj
          cases hin : inputs[j]? with
          | none => simp [hin] at hobj
          | some obj0 =>
            simp only [hin, Option.map_eq_map, Option.map_some', Option.some.injEq] at hobj
            rw [← hobj]
            exact hv)
      exact h1
    · have hmem : k ∈ group := by
        rcases List.mem_cons.mp hk with h | h
        · exact absurd h.symm hjk
        · exact h
      exact ih (inputs.modify (fun cl => { cl with classId := v }) j) hmem

theorem thisClassId_bounds (nGroups : Nat) (iReferees : Int) (i : Nat) (classId : Int)
    (hi : i < nGroups) (h0 : 0 ≤ classId) (h1 : classId ≤ i) :
    0 ≤ thisClassId nGroups iReferees i classId ∧
    thisClassId nGroups iReferees i classId ≤ (nGroups : Int) - 1 := by
  unfold thisClassId
  split <;> omega

theorem labelLoop_length (nGroups : Nat) (iReferees : Int) (l : List (Nat × List Nat))
    (classId : Int) (inputs : List Cluster) :
    (labelLoop nGroups iReferees l classId inputs).length = inputs.length := by
  induction l generalizing classId inputs with
  | nil => rfl
  | cons x rest ih =>
    obtain ⟨i, group⟩ := x
    unfold labelLoop
    rw [ih, setGroupClassId_length]

theorem labelLoop_keeps (nGroups : Nat) (iReferees : Int) (groups : List (List Nat)) (j : Nat)
    (classId : Int) (inputs : List Cluster) (hj : j + groups.length ≤ nGroups)
    (h0 : 0 ≤ classId) (h1 : classId ≤ j) (k : Nat)
    (hk : ∀ obj, inputs[k]? = some obj → 0 ≤ obj.classId ∧ obj.classId ≤ (nGroups : Int) - 1) :
    ∀ obj, (labelLoop nGroups iReferees (groups.enumFrom j) classId inputs)[k]? = some obj →
      0 ≤ obj.classId ∧ obj.classId ≤ (nGroups : Int) - 1 := by
  induction groups generalizing j classId inputs with
  | nil => exact hk
  | cons group rest ih =>
    rw [List.enumFrom_cons]
    unfold labelLoop
    rw [List.length_cons] at hj
    apply ih (j + 1) _ _ (by omega) (by split <;> omega) (by split <;> omega)
    exact setGroupClassId_keeps (fun v => 0 ≤ v ∧ v ≤ (nGroups : Int) - 1) _
      (thisClassId_bounds nGroups iReferees j classId (by omega) h0 h1) group inputs k hk

theorem labelLoop_sets (nGroups : Nat) (iReferees : Int) (groups : List (List Nat)) (j : Nat)
    (classId : Int) (inputs : List Cluster) (hj : j + groups.length ≤ nGroups)
    (h0 : 0 ≤ classId) (h1 : classId ≤ j) (k : Nat) (hk : ∃ g ∈ groups, k ∈ g) :
    ∀ obj, (labelLoop nGroups iReferees (groups.enumFrom j) classId inputs)[k]? = some obj →
      0 ≤ obj.classId ∧ obj.classId ≤ (nGroups : Int) - 1 := by
  induction groups generalizing j classId inputs with
  | nil =>
    obtain ⟨g, hg, _⟩ := hk
    simp at hg
  | cons group rest ih =>
    rw [List.enumFrom_cons]
    unfold labelLoop
    rw [List.length_cons] at hj
    obtain ⟨g, hg, hkg⟩ := hk
    by_cases hin : k ∈ group
    · apply labelLoop_keeps nGroups iReferees rest (j + 1) _ _ (by omega)
        (by split <;> omega) (by split <;> omega)
      exact setGroupClassId_sets (fun v => 0 ≤ v ∧ v ≤ (nGroups : Int) - 1) _
        (thisClassId_bounds nGroups iReferees j classId (by omega) h0 h1) group inputs k hin
    · have hrest : ∃ g ∈ rest, k ∈ g := by
        rcases List.mem_cons.mp hg with h | h
        · rw [h] at hkg
          exact absurd hkg hin
        · exact ⟨g, h, hkg⟩
      exact ih (j + 1) _ _ (by omega) (by split <;> omega) (by split <;> omega) hrest

theorem labelGroups_classId (pcaClusters : List (List Nat)) (inputs : List Cluster)
    (hcover : ∀ k, k < inputs.length → ∃ g ∈ pcaClusters, k ∈ g) :
    ∀ obj ∈ labelGroups pcaClusters inputs,
      0 ≤ obj.classId ∧ obj.classId ≤ (pcaClusters.length : Int) - 1 := by
  intro obj hobj
  obtain ⟨k, hk⟩ := List.getElem?_of_mem hobj
  have hlt : k < inputs.length := by
    have h1 := (List.getElem?_eq_some_iff.mp hk).1
    unfold labelGroups at h1
    rw [labelLoop_length] at h1
    exact h1
  unfold labelGroups at hk
  rw [List.enum] at hk
  exact labelLoop_sets pcaClusters.length (refereesIndex pcaClusters) pcaClusters 0 0 inputs
    (by omega) (le_refl _) (by simp) k (hcover k hlt) obj hk

theorem mem_set_or_eq (l : List (List Nat)) (n : Nat) (a old g : List Nat)
    (hold : l[n]? = some old) (hg : g ∈ l) : g ∈ l.set n a ∨ g = old := by
  induction l generalizing n with
  | nil => simp at hg
  | cons b l ih =>
    cases n with
    | zero =>
      simp only [List.getElem?_cons_zero, Option.some.injEq] at hold
      rcases List.mem_cons.mp hg with h | h
      · right
        rw [h, hold]
      · left
        simp [h]
    | succ n =>
      simp only [List.getElem?_cons_succ] at hold
      rcases List.mem_cons.mp hg with h | h
      · left
        simp [h]
      · rcases ih n hold h with h1 | h1
        · left
          simp [h1]
        · right
          exact h1

theorem assignLoop_covers (seeds : List (Option Point)) (l : List (Nat × Cluster))
    (groups res : List (List Nat)) (h : assignLoop seeds l groups = some res) :
    (∀ x ∈ l, ∃ g ∈ res, x.1 ∈ g) ∧
    (∀ k, (∃ g ∈ groups, k ∈ g) → ∃ g ∈ res, k ∈ g) := by
  induction l generalizing groups with
  | nil =>
    simp only [assignLoop, Option.some.injEq] at h
    rw [← h]
    exact ⟨by simp, fun k hk => hk⟩
  | cons ic rest ih =>
    obtain ⟨i, cl⟩ := ic
    unfold assignLoop at h
    simp only at h
    split at h
    · exact absurd h (by simp)
    · simp only [List.get?_eq_getElem?] at h
      cases hget : groups[(nearestSeed seeds cl).toNat]? with
      | none => simp [hget] at h
      | some group =>
        simp only [hget] at h
        obtain ⟨h1, h2⟩ := ih _ h
        have hlt : (nearestSeed seeds cl).toNat < groups.length :=
          (List.getElem?_eq_some_iff.mp hget).1
        have hnew : (group ++ [i]) ∈ groups.set (nearestSeed seeds cl).toNat (group ++ [i]) :=
          List.mem_set _ _ hlt _
        refine ⟨?_, ?_⟩
        · intro x hx
          rcases List.mem_cons.mp hx with rfl | hmem
          · exact h2 i ⟨group ++ [i], hnew, by simp⟩
          · exact h1 x hmem
        · intro k hk
          obtain ⟨g, hg, hkg⟩ := hk
          apply h2
          rcases mem_set_or_eq groups _ (group ++ [i]) group g hget hg with h3 | h3
          · exact ⟨g, h3, hkg⟩
          · exact ⟨group ++ [i], hnew, by rw [h3] at hkg; simp [hkg]⟩

theorem assignStep_covers (seeds : List (Option Point)) (clusters : List Cluster)
    (groups res : List (List Nat)) (h : assignStep seeds clusters groups = some res) :
    ∀ k, k < clusters.length → ∃ g ∈ res, k ∈ g := by
  intro k hk
  unfold assignStep at h
  have hx : (k, clusters[k]) ∈ clusters.enum :=
    List.mk_mem_enum_iff_getElem?.mpr (List.getElem?_eq_getElem hk)
  exact (assignLoop_covers _ _ _ _ h).1 _ hx

theorem assignStep_length (seeds : List (Option Point)) (clusters : List Cluster)
    (groups res : List (List Nat)) (h : assignStep seeds clusters groups = some res) :
    res.length = groups.length := by
  unfold assignStep at h
  rw [assignLoop_length _ _ _ _ h, List.length_map]

theorem kmeansLoop_groups_assigned (clusters : List Cluster) (n : Nat) (s0 s : KmeansState)
    (hn : 1 ≤ n) (h0 : s0.converged = false) (h : kmeansLoop clusters n s0 = some s) :
    (∃ prevSeeds : List (Option Point),
      assignStep prevSeeds clusters s.pcaClusters = some s.pcaClusters) ∧
    s.pcaClusters.length = s0.pcaClusters.length := by
  induction n generalizing s0 with
  | zero => omega
  | succ n ih =>
    unfold kmeansLoop at h
    simp only [h0] at h
    cases ha : assignStep s0.seeds clusters s0.pcaClusters with
    | none => simp [ha] at h
    | some groups =>
      cases hu : updateLoop clusters groups.enum s0.seeds true with
      | none => simp [ha, hu] at h
      | some res =>
        obtain ⟨seeds1, conv1⟩ := res
        simp only [ha, hu, Bool.false_eq_true, if_false] at h
        have hlen := assignStep_length _ _ _ _ ha
        have hdone : ∀ s1 : KmeansState, s1.pcaClusters = groups → s = s1 →
            (∃ prevSeeds : List (Option Point),
              assignStep prevSeeds clusters s.pcaClusters = some s.pcaClusters) ∧
            s.pcaClusters.length = s0.pcaClusters.length := by
          intro s1 hs1 hs
          rw [hs, hs1]
          exact ⟨⟨s0.seeds, assignStep_idempotent _ _ _ _ ha⟩, hlen⟩
        cases n with
        | zero =>
          simp only [kmeansLoop, Option.some.injEq] at h
          exact hdone _ rfl h.symm
        | succ m =>
          cases hc : conv1 with
          | true =>
            subst hc
            rw [kmeansLoop_of_converged _ _ _ rfl] at h
            simp only [Option.some.injEq] at h
            exact hdone _ rfl h.symm
          | false =>
            subst hc
            obtain ⟨h1, h2⟩ := ih _ (by omega) rfl h
            exact ⟨h1, by rw [h2]; exact hlen⟩

theorem storeTrainingInputs_cores (training objs res left : List Cluster)
    (h : storeTrainingInputs training objs = some (res, left)) :
    (∀ cl ∈ res, ∃ core obj, cl.core = some core ∧ obj ∈ objs ∧ core.classId = obj.classId) ∧
    (∀ x ∈ left, x ∈ objs) := by
  induction training generalizing objs res left with
  | nil =>
    simp only [storeTrainingInputs, Option.some.injEq, Prod.mk.injEq] at h
    obtain ⟨rfl, rfl⟩ := h
    exact ⟨by simp, fun x hx => hx⟩
  | cons bigCl rest ih =>
    unfold storeTrainingInputs at h
    cases hcore : bigCl.core with
    | none => simp [hcore] at h
    | some core =>
      cases objs with
      | nil => simp [hcore] at h
      | cons obj objs1 =>
        simp only [hcore] at h
        split at h
        · cases hrec : storeTrainingInputs rest (objs1.drop core.m_splitClusters.length) with
          | none => simp [hrec] at h
          | some r =>
            obtain ⟨rest1, left1⟩ := r
            simp only [hrec, Option.some.injEq, Prod.mk.injEq] at h
            obtain ⟨rfl, rfl⟩ := h
            obtain ⟨h1, h2⟩ := ih _ _ _ hrec
            have hsub : ∀ x ∈ objs1.drop core.m_splitClusters.length, x ∈ obj :: objs1 :=
              fun x hx => List.mem_cons_of_mem _ (List.mem_of_mem_drop hx)
            refine ⟨?_, fun x hx => hsub x (h2 x hx)⟩
            intro cl hcl
            rcases List.mem_cons.mp hcl with rfl | hmem
            · exact ⟨_, obj, rfl, List.mem_cons_self _ _, rfl⟩
            · obtain ⟨c, o, hc, ho, hco⟩ := h1 cl hmem
              exact ⟨c, o, hc, hsub o ho, hco⟩
        · exact absurd h (by simp)

theorem storeEvaluationInputs_cores (evaluation objs res : List Cluster)
    (h : storeEvaluationInputs evaluation objs = some res) :
    ∀ cl ∈ res, ∃ core obj, cl.core = some core ∧ obj ∈ objs ∧ core.classId = obj.classId := by
  induction evaluation generalizing objs res with
  | nil =>
    simp only [storeEvaluationInputs, Option.some.injEq] at h
    rw [← h]
    simp
  | cons cl0 rest ih =>
    cases objs with
    | nil => simp [storeEvaluationInputs] at h
    | cons obj objs1 =>
      unfold storeEvaluationInputs at h
      cases hrec : storeEvaluationInputs rest objs1 with
      | none => simp [hrec] at h
      | some rest1 =>
        simp only [hrec, Option.some.injEq] at h
        rw [← h]
        intro cl hcl
        rcases List.mem_cons.mp hcl with rfl | hmem
        · exact ⟨obj, obj, rfl, List.mem_cons_self _ _, rfl⟩
        · obtain ⟨c, o, hc, ho, hco⟩ := ih _ _ hrec cl hmem
          exact ⟨c, o, hc, List.mem_cons_of_mem _ ho, hco⟩

theorem mirrorClassIds_cores (l res : List Cluster) (h : mirrorClassIds l = some res) :
    ∀ cl ∈ res, ∃ cl0 ∈ l, ∃ core, cl0.core = some core ∧ cl.core = some core ∧
      cl.classId = core.classId := by
  induction l generalizing res with
  | nil =>
    simp only [mirrorClassIds, Option.some.injEq] at h
    rw [← h]
    simp
  | cons cl0 rest ih =>
    unfold mirrorClassIds at h
    cases hcore : cl0.core with
    | none => simp [hcore] at h
    | some core =>
      cases hrec : mirrorClassIds rest with
      | none => simp [hcore, hrec] at h
      | some rest1 =>
        simp only [hcore, hrec, Option.some.injEq] at h
        rw [← h]
        intro cl hcl
        rcases List.mem_cons.mp hcl with rfl | hmem
        · exact ⟨cl0, List.mem_cons_self _ _, core, hcore, rfl, rfl⟩
        · obtain ⟨c0, hc0, c, h1, h2, h3⟩ := ih _ hrec cl hmem
          exact ⟨c0, List.mem_cons_of_mem _ hc0, c, h1, h2, h3⟩

theorem runKmeansOnPCA_groups_cover (RAND_MAX kmeans : Nat) (clusters : List Cluster)
    (pcaClusters : List (List Nat)) (config : Config) (rng rng1 : Rng) (fuel : Nat)
    (s : KmeansState)
    (h : runKmeansOnPCA RAND_MAX kmeans clusters pcaClusters config rng fuel = some (s, rng1))
    (hit : 1 ≤ config.maxKmeansIterations) :
    (∀ k, k < clusters.length → ∃ g ∈ s.pcaClusters, k ∈ g) ∧
    s.pcaClusters.length = pcaClusters.length := by
  unfold runKmeansOnPCA at h
  cases hi : initSeeds RAND_MAX clusters fuel kmeans [] [] rng with
  | none => simp [hi] at h
  | some res =>
    obtain ⟨seeds0, rng0⟩ := res
    simp only [hi] at h
    cases hk : kmeansLoop clusters config.maxKmeansIterations.toNat
        { seeds := seeds0.map some, pcaClusters := pcaClusters, converged := false,
          nIterations := 0 } with
    | none => simp [hk] at h
    | some s1 =>
      simp only [hk, Option.some.injEq, Prod.mk.injEq] at h
      obtain ⟨rfl, _⟩ := h
      obtain ⟨⟨prev, hprev⟩, hlen⟩ :=
        kmeansLoop_groups_assigned clusters _ _ _ (by omega) rfl hk
      exact ⟨assignStep_covers _ _ _ _ hprev, hlen⟩

/-- C16: when `runPCA` completes and k-means was allowed at least one iteration, every
training cluster and every evaluation cluster has a core, its class id is the class id
of that core, and this value is `0`, `1` or `2`. -/
theorem runPCA_classIds (RAND_MAX : Nat) (fit : List (List ℚ) → List ℚ → List ℚ)
    (trainingDS evaluationDS : DataSet) (config : Config) (rng : Rng) (nextId : Int)
    (fuel : Nat) (training evaluation : DataSet) (names : List String) (rng1 : Rng)
    (id1 : Int)
    (h : runPCA RAND_MAX fit trainingDS evaluationDS config rng nextId fuel
      = some (training, evaluation, names, rng1, id1))
    (hit : 1 ≤ config.maxKmeansIterations) :
    ∀ cl ∈ training.clusters ++ evaluation.clusters,
      ∃ core, cl.core = some core ∧ cl.classId = core.classId ∧
        (cl.classId = 0 ∨ cl.classId = 1 ∨ cl.classId = 2) := by
  unfold runPCA at h
  cases htrain : trainPCALoop RAND_MAX config trainingDS.clusters rng nextId with
  | none => simp [htrain] at h
  | some r1 =>
    obtain ⟨rows, training1, rngA, idA⟩ := r1
    simp only [htrain] at h
    cases hin : kmeansInputsLoop RAND_MAX config training1 rngA with
    | none => simp [hin] at h
    | some r2 =>
      obtain ⟨training2, trainingInputs, rngB⟩ := r2
      cases hev : evaluationCores evaluationDS.clusters with
      | none => simp [hin, hev] at h
      | some evaluationInputs =>
        simp only [hin, hev] at h
        cases happly : applyPCA (fit rows) config.nLayersPerCluster
            (trainingInputs ++ evaluationInputs) idA with
        | none => simp [happly] at h
        | some r3 =>
          obtain ⟨kmeansInputs, idB⟩ := r3
          simp only [happly] at h
          cases hkm : runKmeansOnPCA RAND_MAX 3 kmeansInputs [[], [], []] config rngB fuel with
          | none => simp [hkm] at h
          | some r4 =>
            obtain ⟨s, rngC⟩ := r4
            simp only [hkm] at h
            cases hst : storeTrainingInputs training2
                (labelGroups s.pcaClusters kmeansInputs) with
            | none => simp [hst] at h
            | some r5 =>
              obtain ⟨training3, left⟩ := r5
              simp only [hst] at h
              cases hse : storeEvaluationInputs evaluationDS.clusters left with
              | none => simp [hse] at h
              | some evaluation3 =>
                simp only [hse] at h
                cases hm1 : mirrorClassIds training3 with
                | none => simp [hm1] at h
                | some training4 =>
                  cases hm2 : mirrorClassIds evaluation3 with
                  | none => simp [hm1, hm2] at h
                  | some evaluation4 =>
                    simp only [hm1, hm2, Option.some.injEq, Prod.mk.injEq] at h
                    obtain ⟨rfl, rfl, _⟩ := h
                    obtain ⟨hcover, hlen⟩ :=
                      runKmeansOnPCA_groups_cover _ _ _ _ _ _ _ _ _ hkm hit
                    have hlab := labelGroups_classId s.pcaClusters kmeansInputs hcover
                    rw [hlen] at hlab
                    obtain ⟨hcores, hleft⟩ := storeTrainingInputs_cores _ _ _ _ hst
                    have hcoresE := storeEvaluationInputs_cores _ _ _ hse
                    have hfinal : ∀ (l res : List Cluster), mirrorClassIds l = some res →
                        (∀ cl ∈ l, ∃ core obj, cl.core = some core ∧
                          obj ∈ labelGroups s.pcaClusters kmeansInputs ∧
                          core.classId = obj.classId) →
                        ∀ cl ∈ res, ∃ core, cl.core = some core ∧
                          cl.classId = core.classId ∧
                          (cl.classId = 0 ∨ cl.classId = 1 ∨ cl.classId = 2) := by
                      intro l res hmir hl cl hcl
                      obtain ⟨cl0, hcl0, core, h1, h2, h3⟩ := mirrorClassIds_cores l res hmir cl hcl
                      obtain ⟨core1, obj, h4, hobj, h5⟩ := hl cl0 hcl0
                      rw [h1] at h4
                      have e : core = core1 := Option.some.inj h4
                      subst e
                      obtain ⟨hlo, hhi⟩ := hlab obj hobj
                      refine ⟨core, h2, h3, ?_⟩
                      rw [h3, h5]
                      simp only [List.length_cons, List.length_nil] at hhi
                      omega
                    intro cl hcl
                    rcases List.mem_append.mp hcl with hc | hc
                    · exact hfinal _ _ hm1 hcores cl hc
                    · refine hfinal _ _ hm2 ?_ cl hc
                      intro c hc1
                      obtain ⟨core, obj, h1, h2, h3⟩ := hcoresE c hc1
                      exact ⟨core, obj, h1, hleft obj h2, h3⟩

theorem exampleTrainingData_isSome :
    (runPCA 32767 (fun _ row => row) exampleTrainingData exampleEvaluationData
      exampleClassificationConfig (fun i => i) 3000 3).isSome = true := by
  decide!

/-- C16 at two training clusters and one evaluation cluster, with the identity as
projection. -/
theorem runPCA_classIds_witness :
    ∃ (training evaluation : DataSet) (names : List String) (rng1 : Rng) (id1 : Int),
      runPCA 32767 (fun _ row => row) exampleTrainingData exampleEvaluationData
        exampleClassificationConfig (fun i => i) 3000 3
        = some (training, evaluation, names, rng1, id1) ∧
      (1 : Int) ≤ exampleClassificationConfig.maxKmeansIterations ∧
      ∀ cl ∈ training.clusters ++ evaluation.clusters,
        ∃ core, cl.core = some core ∧ cl.classId = core.classId ∧
          (cl.classId = 0 ∨ cl.classId = 1 ∨ cl.classId = 2) :=
  ⟨_, _, _, _, _, (Option.some_get exampleTrainingData_isSome).symm, by decide,
    runPCA_classIds 32767 (fun _ row => row) exampleTrainingData exampleEvaluationData
      exampleClassificationConfig (fun i => i) 3000 3 _ _ _ _ _
      (Option.some_get exampleTrainingData_isSome).symm (by decide)⟩

/-! ## Unsupervised classification: the labelling rule -/

/-- C15 on three groups of 1000, 999 and 1001 members: no group has fewer than 999
members, the search leaves `iReferees = -1`, and the groups get the class ids `0`, `1`,
`2` in index order: the smallest group, the second, gets the class id `1` of "TeamB"
and not the class id `2` of "Referees". -/
theorem labelling_of_large_groups :
    exampleLargeGroups.map List.length = [1000, 999, 1001] ∧
    refereesIndex exampleLargeGroups = -1 ∧
    groupClassIds 3 (refereesIndex exampleLargeGroups) exampleLargeGroups.enum 0 = [0, 1, 2] ∧
    classNames = ["TeamA", "TeamB", "Referees"] := by
  decide!

/-! ## The scenario of two separate blobs -/

/-- C17 fails as stated, in two ways. With blobs of two points and of one point, both
of radius below `1`, the two seed clusters have the densities `1` and `1/2`. With the
points of the first blob at `(-9/10, 0, 0)` and `(9/10, 0, 0)`, every point set has
radius below `1` and the pipeline yields three seed clusters. -/
theorem two_blobs_not_two_seeds_of_density_one :
    exampleUnequalBlobs.points.map (fun p => (inBlob blobA 1 p, inBlob blobB 1 p))
      = [(true, false), (true, false), (false, true)] ∧
    (runSeededPipeline exampleUnequalBlobs exampleConfig).map
        (fun ds => ds.clusters.map (fun cl => cl.density)) = some [1, 1 / 2] ∧
    exampleWideBlobs.points.map (fun p => (inBlob blobA 1 p, inBlob blobB 1 p))
      = [(true, false), (true, false), (false, true)] ∧
    (runSeededPipeline exampleWideBlobs exampleConfig).map
        (fun ds => ds.clusters.map (fun cl => (cl.density, cl.points.map (fun p => p.id))))
      = some [(1, [2001]), (1, [2002]), (1, [2003])] := by
  decide!

theorem inBlob_box (centre : Point) (p : CloudPoint) (h : inBlob centre (1 / 4) p = true) :
    |p.x - centre.x| ≤ 1 / 4 ∧ |p.z - centre.z| ≤ 1 / 4 := by
  have h1 : (p.x - centre.x) * (p.x - centre.x) + (p.y - centre.y) * (p.y - centre.y)
      + (p.z - centre.z) * (p.z - centre.z) ≤ 1 / 4 * (1 / 4) := by
    have := of_decide_eq_true h
    simpa [Point.dist3DSq] using this
  have hy : 0 ≤ (p.y - centre.y) * (p.y - centre.y) := mul_self_nonneg _
  have hx : 0 ≤ (p.x - centre.x) * (p.x - centre.x) := mul_self_nonneg _
  have hz : 0 ≤ (p.z - centre.z) * (p.z - centre.z) := mul_self_nonneg _
  constructor
  · rw [abs_le]
    constructor <;> nlinarith
  · rw [abs_le]
    constructor <;> nlinarith

theorem inBlob_not_both (p : CloudPoint) (hA : inBlob blobA (1 / 4) p = true)
    (hB : inBlob blobB (1 / 4) p = true) : False := by
  have h1 := (inBlob_box blobA p hA).1
  have h2 := (inBlob_box blobB p hB).1
  rw [abs_le] at h1 h2
  simp only [blobA, blobB] at h1 h2
  linarith [h1.2, h2.1]

theorem running_mean_box (m v cx r : ℚ) (n : ℕ) (hm : n = 0 ∨ |m - cx| ≤ r)
    (hv : |v - cx| ≤ r) : |(m * n + v) / ((n : ℚ) + 1) - cx| ≤ r := by
  have hn : (0 : ℚ) < (n : ℚ) + 1 := by positivity
  have hn0 : (0 : ℚ) ≤ (n : ℚ) := Nat.cast_nonneg _
  have e : (m * n + v) / ((n : ℚ) + 1) - cx
      = ((n : ℚ) * (m - cx) + (v - cx)) / ((n : ℚ) + 1) := by
    field_simp
    ring
  rw [abs_le] at hv
  have hb : -((n : ℚ) * r) ≤ (n : ℚ) * (m - cx) ∧ (n : ℚ) * (m - cx) ≤ (n : ℚ) * r := by
    rcases hm with h0 | h1
    · subst h0
      simp
    · rw [abs_le] at h1
      constructor
      · nlinarith [h1.1]
      · nlinarith [h1.2]
  rw [e, abs_le]
  constructor
  · rw [le_div_iff₀ hn]
    nlinarith [hb.1, hv.1]
  · rw [div_le_iff₀ hn]
    nlinarith [hb.2, hv.2]

theorem Cluster.Pure.addPoint {centre : Point} {c : Cluster} (hc : c.Pure centre)
    (p : CloudPoint) (hp : inBlob centre (1 / 4) p = true) : (c.addPoint p).Pure centre := by
  obtain ⟨_, hall, hx, hz⟩ := hc
  obtain ⟨hpx, hpz⟩ := inBlob_box centre p hp
  refine ⟨by simp [Cluster.addPoint], ?_, ?_, ?_⟩
  · intro q hq
    rw [Cluster.addPoint_points] at hq
    rcases List.mem_append.mp hq with h | h
    · exact hall q h
    · rw [List.mem_singleton] at h
      rw [h]
      exact hp
  · exact running_mean_box _ _ _ _ _ (Or.inr hx) hpx
  · exact running_mean_box _ _ _ _ _ (Or.inr hz) hpz

theorem Cluster.Pure.singleton (centre : Point) (p : CloudPoint)
    (hp : inBlob centre (1 / 4) p = true) : (Cluster.empty.addPoint p).Pure centre := by
  obtain ⟨hpx, hpz⟩ := inBlob_box centre p hp
  refine ⟨by simp [Cluster.addPoint], ?_, ?_, ?_⟩
  · intro q hq
    simp only [Cluster.addPoint, Cluster.empty, List.nil_append, List.mem_singleton] at hq
    rw [hq]
    exact hp
  · exact running_mean_box _ _ _ _ _ (Or.inl rfl) hpx
  · exact running_mean_box _ _ _ _ _ (Or.inl rfl) hpz

theorem forall_mem_modify_at (Q : Cluster → Prop) (f : Cluster → Cluster) (l : List Cluster)
    (i : Nat) (hl : ∀ c ∈ l, Q c) (hf : ∀ c, l[i]? = some c → Q (f c)) :
    ∀ c ∈ l.modify f i, Q c := by
  intro c hc
  obtain ⟨k, hk⟩ := List.getElem?_of_mem hc
  rw [List.getElem?_modify] at hk
  cases hlk : l[k]? with
  | none => simp [hlk] at hk
  | some c0 =>
    simp only [hlk, Option.map_eq_map, Option.map_some', Option.some.injEq] at hk
    by_cases hik : i = k
    · subst hik
      rw [if_pos rfl] at hk
      rw [← hk]
      exact hf c0 hlk
    · rw [if_neg hik] at hk
      rw [← hk]
      exact hl c0 (List.getElem?_mem hlk)

theorem exists_mem_modify_at (P : Cluster → Prop) (f : Cluster → Cluster) (l : List Cluster)
    (i : Nat) (hl : ∃ c ∈ l, P c) (hf : ∀ c, l[i]? = some c → P c → P (f c)) :
    ∃ c ∈ l.modify f i, P c := by
  obtain ⟨c, hc, hPc⟩ := hl
  obtain ⟨k, hk⟩ := List.getElem?_of_mem hc
  by_cases hik : i = k
  · subst hik
    refine ⟨f c, ?_, hf c hk hPc⟩
    apply List.getElem?_mem (n := i)
    rw [List.getElem?_modify_eq, hk]
    rfl
  · refine ⟨c, ?_, hPc⟩
    apply List.getElem?_mem (n := k)
    rw [List.getElem?_modify_ne _ _ hik, hk]

theorem preClusterSearch_found (dmin : ℚ) (cp : CloudPoint) (l : List (Nat × Cluster)) :
    preClusterSearch dmin cp l = -1 ∨
    ∃ x ∈ l, preClusterSearch dmin cp l = (x.1 : Int) ∧
      |x.2.com.x - cp.x| ≤ dmin ∧ |x.2.com.z - cp.z| ≤ dmin := by
  induction l with
  | nil => left; rfl
  | cons jc rest ih =>
    obtain ⟨j, cl⟩ := jc
    unfold preClusterSearch
    by_cases hx : |cl.com.x - cp.x| > dmin
    · rw [if_pos hx]
      rcases ih with h | ⟨x, hx1, hx2⟩
      · exact Or.inl h
      · exact Or.inr ⟨x, List.mem_cons_of_mem _ hx1, hx2⟩
    · rw [if_neg hx]
      by_cases hz : |cl.com.z - cp.z| > dmin
      · rw [if_pos hz]
        rcases ih with h | ⟨x, hx1, hx2⟩
        · exact Or.inl h
        · exact Or.inr ⟨x, List.mem_cons_of_mem _ hx1, hx2⟩
      · rw [if_neg hz]
        exact Or.inr ⟨(j, cl), List.mem_cons_self _ _, rfl, not_lt.mp hx, not_lt.mp hz⟩

theorem Cluster.Pure.of_box {centreP centreC : Point} {c : Cluster} {p : CloudPoint}
    (hcentreP : centreP = blobA ∨ centreP = blobB) (hcentreC : centreC = blobA ∨ centreC = blobB)
    (hc : c.Pure centreC) (hp : inBlob centreP (1 / 4) p = true)
    (hbox : |c.com.x - p.x| ≤ 1 / 2) : centreC = centreP := by
  have h1 := (inBlob_box centreP p hp).1
  have h2 := hc.2.2.1
  rw [abs_le] at h1 h2 hbox
  rcases hcentreP with rfl | rfl <;> rcases hcentreC with rfl | rfl
  · rfl
  · simp only [blobA, blobB] at h1 h2
    linarith [h1.2, h2.1, hbox.2]
  · simp only [blobA, blobB] at h1 h2
    linarith [h1.1, h2.2, hbox.1]
  · rfl

theorem preClusterStep_pure (skip : Bool) (clusters : List Cluster) (p : CloudPoint)
    (hl : ∀ c ∈ clusters, c.Pure blobA ∨ c.Pure blobB)
    (hp : inBlob blobA (1 / 4) p = true ∨ inBlob blobB (1 / 4) p = true) :
    (∀ c ∈ preClusterStep skip (1 / 5) clusters p, c.Pure blobA ∨ c.Pure blobB) ∧
    (allPoints (preClusterStep skip (1 / 5) clusters p)).Perm (allPoints clusters ++ [p]) := by
  have hnew : (∀ c ∈ clusters ++ [Cluster.empty.addPoint p], c.Pure blobA ∨ c.Pure blobB) ∧
      (allPoints (clusters ++ [Cluster.empty.addPoint p])).Perm (allPoints clusters ++ [p]) := by
    constructor
    · intro c hc
      rcases List.mem_append.mp hc with h | h
      · exact hl c h
      · rw [List.mem_singleton] at h
        rw [h]
        rcases hp with h1 | h1
        · exact Or.inl (Cluster.Pure.singleton blobA p h1)
        · exact Or.inr (Cluster.Pure.singleton blobB p h1)
    · rw [allPoints_append, allPoints_singleton]
      simp [Cluster.addPoint, Cluster.empty]
  have hmiss : ∀ icl : Int, ¬ icl ≥ 0 →
      (if icl ≥ 0 then clusters.modify (fun cl => cl.addPoint p) icl.toNat
        else clusters ++ [Cluster.empty.addPoint p])
      = clusters ++ [Cluster.empty.addPoint p] := fun icl h => if_neg h
  cases skip with
  | true =>
    have e : preClusterStep true (1 / 5) clusters p
        = clusters ++ [Cluster.empty.addPoint p] := by
      unfold preClusterStep
      simp
    rw [e]
    exact hnew
  | false =>
    have e : preClusterStep false (1 / 5) clusters p
        = (if preClusterSearch (1 / 5) p clusters.enum ≥ 0 then
            clusters.modify (fun cl => cl.addPoint p)
              (preClusterSearch (1 / 5) p clusters.enum).toNat
          else clusters ++ [Cluster.empty.addPoint p]) := by
      unfold preClusterStep
      simp
    rw [e]
    rcases preClusterSearch_found (1 / 5) p clusters.enum with h | ⟨x, hx, hres, hbx, hbz⟩
    · rw [h, hmiss (-1) (by decide)]
      exact hnew
    · rw [hres, if_pos (Int.ofNat_nonneg _)]
      simp only [Int.toNat_ofNat]
      have hget : clusters[x.1]? = some x.2 := List.mem_enum_iff_getElem?.mp hx
      have hlt : x.1 < clusters.length := (List.getElem?_eq_some_iff.mp hget).1
      have hxpure := hl x.2 (List.getElem?_mem hget)
      have hbx2 : |x.2.com.x - p.x| ≤ 1 / 2 := le_trans hbx (by norm_num)
      constructor
      · apply forall_mem_modify_at _ _ _ _ hl
        intro c hc
        rw [hget] at hc
        have e : x.2 = c := Option.some.inj hc
        subst e
        rcases hp with hpA | hpB
        · left
          rcases hxpure with h1 | h1
          · exact h1.addPoint p hpA
          · have := Cluster.Pure.of_box (Or.inl rfl) (Or.inr rfl) h1 hpA hbx2
            exact absurd this (by simp [blobA, blobB])
        · right
          rcases hxpure with h1 | h1
          · have := Cluster.Pure.of_box (Or.inr rfl) (Or.inl rfl) h1 hpB hbx2
            exact absurd this (by simp [blobA, blobB])
          · exact h1.addPoint p hpB
      · exact allPoints_modify _ [p] (fun c => Cluster.addPoint_points c p) clusters x.1 hlt

theorem preClusterFold_pure (skip : Bool) (points : List CloudPoint) (clusters : List Cluster)
    (hl : ∀ c ∈ clusters, c.Pure blobA ∨ c.Pure blobB)
    (hp : ∀ p ∈ points, inBlob blobA (1 / 4) p = true ∨ inBlob blobB (1 / 4) p = true) :
    (∀ c ∈ points.foldl (preClusterStep skip (1 / 5)) clusters, c.Pure blobA ∨ c.Pure blobB) ∧
    (allPoints (points.foldl (preClusterStep skip (1 / 5)) clusters)).Perm
      (allPoints clusters ++ points) := by
  induction points generalizing clusters with
  | nil => exact ⟨hl, by simp⟩
  | cons p ps ih =>
    rw [List.foldl_cons]
    obtain ⟨h1, h2⟩ := preClusterStep_pure skip clusters p hl (hp p (List.mem_cons_self _ _))
    obtain ⟨h3, h4⟩ := ih _ h1 (fun q hq => hp q (List.mem_cons_of_mem _ hq))
    refine ⟨h3, h4.trans ?_⟩
    have := List.Perm.append_right ps h2
    simpa using this

theorem outsideWindow_of_pure {centreC centreD : Point} {c d : Cluster}
    (hC : centreC = blobA ∨ centreC = blobB) (hD : centreD = blobA ∨ centreD = blobB)
    (hc : c.Pure centreC) (hd : d.Pure centreD) :
    outsideWindow (1 / 2) c d = !decide (centreC = centreD) := by
  have hcx := hc.2.2.1
  have hcz := hc.2.2.2
  have hdx := hd.2.2.1
  have hdz := hd.2.2.2
  rw [abs_le] at hcx hcz hdx hdz
  have same : ∀ (a b e : ℚ), -(1 / 4) ≤ a - e → a - e ≤ 1 / 4 → -(1 / 4) ≤ b - e →
      b - e ≤ 1 / 4 → ¬ |b - a| > 1 / 2 := by
    intro a b e h1 h2 h3 h4
    rw [not_lt, abs_le]
    constructor <;> linarith
  have hnear : ∀ e : Point, c.Pure e → d.Pure e → outsideWindow (1 / 2) c d = false := by
    intro e he1 he2
    have h1 := he1.2.2.1
    have h2 := he1.2.2.2
    have h3 := he2.2.2.1
    have h4 := he2.2.2.2
    rw [abs_le] at h1 h2 h3 h4
    unfold outsideWindow
    rw [decide_eq_false (same _ _ _ h1.1 h1.2 h3.1 h3.2),
      decide_eq_false (same _ _ _ h2.1 h2.2 h4.1 h4.2)]
    rfl
  have hfarW : |d.com.x - c.com.x| > 1 / 2 → outsideWindow (1 / 2) c d = true := by
    intro h
    unfold outsideWindow
    rw [decide_eq_true h]
    rfl
  have hAB : blobA ≠ blobB := by
    intro h
    have hx := congrArg Point.x h
    simp [blobA, blobB] at hx
  rcases hC with rfl | rfl <;> rcases hD with rfl | rfl
  · rw [hnear _ hc hd]
    simp
  · have hfar : |d.com.x - c.com.x| > 1 / 2 := by
      simp only [blobA, blobB] at hcx hdx
      rw [gt_iff_lt, lt_abs]
      left
      linarith [hcx.2, hdx.1]
    rw [hfarW hfar, decide_eq_false hAB]
    rfl
  · have hfar : |d.com.x - c.com.x| > 1 / 2 := by
      simp only [blobA, blobB] at hcx hdx
      rw [gt_iff_lt, lt_abs]
      right
      linarith [hcx.1, hdx.2]
    rw [hfarW hfar, decide_eq_false (Ne.symm hAB)]
    rfl
  · rw [hnear _ hc hd]
    simp

theorem filter_inBlob_of_pure {centre : Point} {d : Cluster} (hd : d.Pure centre) :
    d.points.filter (inBlob centre (1 / 4)) = d.points :=
  List.filter_eq_self.mpr hd.2.1

theorem filter_inBlobA_of_pureB {d : Cluster} (hd : d.Pure blobB) :
    d.points.filter (inBlob blobA (1 / 4)) = [] := by
  rw [List.filter_eq_nil_iff]
  intro p hp hA
  exact inBlob_not_both p hA (hd.2.1 p hp)

theorem filter_inBlobB_of_pureA {d : Cluster} (hd : d.Pure blobA) :
    d.points.filter (inBlob blobB (1 / 4)) = [] := by
  rw [List.filter_eq_nil_iff]
  intro p hp hB
  exact inBlob_not_both p (hd.2.1 p hp) hB

theorem window_summand_of_pure {centre : Point} {c d : Cluster}
    (hC : centre = blobA ∨ centre = blobB) (hc : c.Pure centre)
    (hd : d.Pure blobA ∨ d.Pure blobB) :
    (if outsideWindow (1 / 2) c d then (0 : ℚ) else (d.points.length : ℚ))
      = ((d.points.filter (inBlob centre (1 / 4))).length : ℚ) := by
  rcases hC with rfl | rfl <;> rcases hd with h | h
  · rw [outsideWindow_of_pure (Or.inl rfl) (Or.inl rfl) hc h, filter_inBlob_of_pure h]
    simp
  · rw [outsideWindow_of_pure (Or.inl rfl) (Or.inr rfl) hc h, filter_inBlobA_of_pureB h]
    simp [blobA, blobB]
  · rw [outsideWindow_of_pure (Or.inr rfl) (Or.inl rfl) hc h, filter_inBlobB_of_pureA h]
    simp [blobA, blobB]
  · rw [outsideWindow_of_pure (Or.inr rfl) (Or.inr rfl) hc h, filter_inBlob_of_pure h]
    simp

theorem sum_filter_length_allPoints (f : CloudPoint → Bool) (l : List Cluster) :
    (l.map (fun d => ((d.points.filter f).length : ℚ))).sum
      = (((allPoints l).filter f).length : ℚ) := by
  induction l with
  | nil => simp [allPoints]
  | cons d l ih =>
    rw [List.map_cons, List.sum_cons, ih]
    simp [allPoints, List.filter_append]

theorem rawDensity_of_pure {centre : Point} (preClusters : List Cluster) (c : Cluster)
    (hC : centre = blobA ∨ centre = blobB) (hc : c.Pure centre)
    (hl : ∀ d ∈ preClusters, d.Pure blobA ∨ d.Pure blobB) :
    rawDensity (1 / 2) preClusters c
      = (((allPoints preClusters).filter (inBlob centre (1 / 4))).length : ℚ) := by
  rw [rawDensity_eq_sum, ← sum_filter_length_allPoints]
  congr 1
  apply List.map_congr_left
  intro d hd
  exact window_summand_of_pure hC hc (hl d hd)

theorem maxFold_const (l : List Cluster) (n : ℚ) (hl : ∀ c ∈ l, c.density = n) :
    l.foldl (fun dmax cli => if cli.density > dmax then cli.density else dmax) n = n := by
  induction l with
  | nil => rfl
  | cons c l ih =>
    rw [List.foldl_cons, hl c (List.mem_cons_self _ _), if_neg (lt_irrefl n)]
    exact ih (fun d hd => hl d (List.mem_cons_of_mem _ hd))

theorem maxDensity_const (l : List Cluster) (n : ℚ) (hn : 0 < n) (hne : l ≠ [])
    (hl : ∀ c ∈ l, c.density = n) : maxDensity l = n := by
  unfold maxDensity
  cases l with
  | nil => exact absurd rfl hne
  | cons c l =>
    rw [List.foldl_cons, hl c (List.mem_cons_self _ _), if_pos hn]
    exact maxFold_const l n (fun d hd => hl d (List.mem_cons_of_mem _ hd))

theorem computeDensities_of_constant (ds : DataSet) (config : Config) (n : ℚ) (hn : 0 < n)
    (hne : ds.preClusters ≠ [])
    (hraw : ∀ c ∈ ds.preClusters, rawDensity config.densityWindow ds.preClusters c = n) :
    computeDensities ds config
      = some { ds with preClusters := ds.preClusters.map (fun c => { c with density := 1 }) } := by
  have hcounted : ds.preClusters.map
      (fun cli => { cli with density := rawDensity config.densityWindow ds.preClusters cli })
      = ds.preClusters.map (fun cli => { cli with density := n }) :=
    List.map_congr_left (fun c hc => by rw [hraw c hc])
  have hmax : maxDensity (ds.preClusters.map (fun cli => { cli with density := n })) = n := by
    apply maxDensity_const _ n hn
    · simpa using hne
    · intro c hc
      rw [List.mem_map] at hc
      obtain ⟨c0, _, rfl⟩ := hc
      rfl
  have hempty : (ds.preClusters.map (fun cli => { cli with density := n })).isEmpty = false := by
    cases hp : ds.preClusters with
    | nil => exact absurd hp hne
    | cons a l => rfl
  unfold computeDensities
  simp only [hcounted, hmax, hempty, if_neg (ne_of_gt hn), Bool.false_eq_true, if_false,
    List.map_map]
  congr 2
  apply List.map_congr_left
  intro c _
  simp [div_self (ne_of_gt hn)]

theorem Cluster.Pure.side_A {c : Cluster} (h : c.Pure blobA) : decide (c.com.x < 5) = true := by
  have h1 := h.2.2.1
  rw [abs_le] at h1
  simp only [blobA] at h1
  exact decide_eq_true (by linarith [h1.2])

theorem Cluster.Pure.side_B {c : Cluster} (h : c.Pure blobB) : decide (c.com.x < 5) = false := by
  have h1 := h.2.2.1
  rw [abs_le] at h1
  simp only [blobB] at h1
  exact decide_eq_false (by linarith [h1.1])

theorem outsideWindow_eq_side {c d : Cluster} (hc : c.Pure blobA ∨ c.Pure blobB)
    (hd : d.Pure blobA ∨ d.Pure blobB) :
    outsideWindow (1 / 2) c d = !(decide (d.com.x < 5) == decide (c.com.x < 5)) := by
  have hAB : blobA ≠ blobB := by
    intro h
    have hx := congrArg Point.x h
    simp [blobA, blobB] at hx
  rcases hc with hc | hc <;> rcases hd with hd | hd
  · rw [outsideWindow_of_pure (Or.inl rfl) (Or.inl rfl) hc hd, hc.side_A, hd.side_A]
    simp
  · rw [outsideWindow_of_pure (Or.inl rfl) (Or.inr rfl) hc hd, hc.side_A, hd.side_B,
      decide_eq_false hAB]
    rfl
  · rw [outsideWindow_of_pure (Or.inr rfl) (Or.inl rfl) hc hd, hc.side_B, hd.side_A,
      decide_eq_false (Ne.symm hAB)]
    rfl
  · rw [outsideWindow_of_pure (Or.inr rfl) (Or.inr rfl) hc hd, hc.side_B, hd.side_B]
    simp

theorem isLocalMax_eq_last (front rest : List Cluster) (c : Cluster)
    (hpure : ∀ d ∈ front ++ c :: rest, d.Pure blobA ∨ d.Pure blobB)
    (hdens : ∀ d ∈ front ++ c :: rest, d.density = 1) :
    isLocalMax (1 / 2) (front ++ c :: rest) front.length c
      = !rest.any (fun d => decide (d.com.x < 5) == decide (c.com.x < 5)) := by
  have hcmem : c ∈ front ++ c :: rest := List.mem_append_right _ (List.mem_cons_self _ _)
  have hrmem : ∀ d ∈ rest, d ∈ front ++ c :: rest :=
    fun d hd => List.mem_append_right _ (List.mem_cons_of_mem _ hd)
  rw [Bool.eq_iff_iff]
  unfold isLocalMax
  rw [localMaxLoop_eq_true_iff]
  simp only [true_and, Bool.not_eq_true', List.any_eq_false, beq_iff_eq]
  constructor
  · intro h d hd hside
    obtain ⟨k, hk⟩ := List.getElem?_of_mem hd
    have hget : (front ++ c :: rest)[front.length + (k + 1)]? = some d := by
      rw [List.getElem?_append_right (Nat.le_add_right _ _)]
      simpa using hk
    have hmem : (front.length + (k + 1), d) ∈ (front ++ c :: rest).enum :=
      List.mk_mem_enum_iff_getElem?.mpr hget
    have hout : outsideWindow (1 / 2) c d = false := by
      rw [outsideWindow_eq_side (hpure c hcmem) (hpure d (hrmem d hd)), hside]
      simp
    have := (h _ hmem (by simp) hout).2
      (by rw [hdens d (hrmem d hd), hdens c hcmem])
    simp at this
  · intro h x hx hne hout
    have hget : (front ++ c :: rest)[x.1]? = some x.2 := List.mem_enum_iff_getElem?.mp hx
    have hxmem : x.2 ∈ front ++ c :: rest := List.getElem?_mem hget
    refine ⟨by rw [hdens _ hxmem, hdens c hcmem], fun _ => ?_⟩
    by_contra hge
    have hgt : front.length + 1 ≤ x.1 := by omega
    rw [List.getElem?_append_right (by omega)] at hget
    obtain ⟨k, hk⟩ : ∃ k, x.1 - front.length = k + 1 := ⟨x.1 - front.length - 1, by omega⟩
    rw [hk, List.getElem?_cons_succ] at hget
    have hrest : x.2 ∈ rest := List.getElem?_mem hget
    have hside := h x.2 hrest
    rw [outsideWindow_eq_side (hpure c hcmem) (hpure _ hxmem)] at hout
    simp only [Bool.not_eq_false', beq_iff_eq] at hout
    exact hside hout

theorem filter_isLocalMax_eq_lastOfSide (rest front : List Cluster)
    (hpure : ∀ d ∈ front ++ rest, d.Pure blobA ∨ d.Pure blobB)
    (hdens : ∀ d ∈ front ++ rest, d.density = 1) :
    ((List.enumFrom front.length rest).filter
        (fun x => isLocalMax (1 / 2) (front ++ rest) x.1 x.2)).map Prod.snd
      = lastOfSide rest := by
  induction rest generalizing front with
  | nil => rfl
  | cons c rest ih =>
    have e : front ++ c :: rest = (front ++ [c]) ++ rest := by simp
    have ih1 := ih (front ++ [c]) (by rw [← e]; exact hpure) (by rw [← e]; exact hdens)
    rw [← e, List.length_append, List.length_singleton] at ih1
    rw [List.enumFrom_cons, List.filter_cons, isLocalMax_eq_last front rest c hpure hdens]
    unfold lastOfSide
    by_cases hany : rest.any (fun d => decide (d.com.x < 5) == decide (c.com.x < 5)) = true
    · rw [hany]
      simp only [Bool.not_true, Bool.false_eq_true, if_false, if_true]
      exact ih1
    · rw [Bool.not_eq_true] at hany
      rw [hany]
      simp only [Bool.not_false, if_true, Bool.false_eq_true, if_false, List.map_cons]
      rw [ih1]

theorem lastOfSide_subset (l : List Cluster) : ∀ c ∈ lastOfSide l, c ∈ l := by
  induction l with
  | nil => intro c hc; exact hc
  | cons a l ih =>
    intro c hc
    unfold lastOfSide at hc
    split at hc
    · exact List.mem_cons_of_mem _ (ih c hc)
    · rcases List.mem_cons.mp hc with h | h
      · rw [h]; exact List.mem_cons_self _ _
      · exact List.mem_cons_of_mem _ (ih c h)

theorem lastOfSide_count (b : Bool) (l : List Cluster) :
    ((lastOfSide l).filter (fun c => decide (c.com.x < 5) == b)).length
      = if l.any (fun c => decide (c.com.x < 5) == b) then 1 else 0 := by
  induction l with
  | nil => rfl
  | cons a l ih =>
    unfold lastOfSide
    by_cases hany : l.any (fun d => decide (d.com.x < 5) == decide (a.com.x < 5)) = true
    · rw [if_pos hany, ih, List.any_cons]
      by_cases hab : (decide (a.com.x < 5) == b) = true
      · have hb : b = decide (a.com.x < 5) := (beq_iff_eq.mp hab).symm
        rw [hb, hany]
        simp
      · rw [Bool.not_eq_true] at hab
        rw [hab, Bool.false_or]
    · rw [if_neg hany, List.filter_cons, List.any_cons]
      rw [Bool.not_eq_true] at hany
      by_cases hab : (decide (a.com.x < 5) == b) = true
      · have hb : b = decide (a.com.x < 5) := (beq_iff_eq.mp hab).symm
        rw [if_pos hab, List.length_cons, ih, hab, hb, hany]
        simp
      · rw [if_neg hab, ih]
        rw [Bool.not_eq_true] at hab
        rw [hab, Bool.false_or]

theorem lastOfSide_length (l : List Cluster)
    (hA : l.any (fun c => decide (c.com.x < 5) == true) = true)
    (hB : l.any (fun c => decide (c.com.x < 5) == false) = true) :
    (lastOfSide l).length = 2 := by
  have h1 := lastOfSide_count true l
  have h2 := lastOfSide_count false l
  rw [hA, if_pos rfl] at h1
  rw [hB, if_pos rfl] at h2
  have hsplit : ∀ m : List Cluster, m.length
      = (m.filter (fun c => decide (c.com.x < 5) == true)).length
        + (m.filter (fun c => decide (c.com.x < 5) == false)).length := by
    intro m
    induction m with
    | nil => rfl
    | cons a m ih =>
      rw [List.filter_cons, List.filter_cons]
      cases hd : decide (a.com.x < 5)
      · rw [if_neg (by decide), if_pos (by decide), List.length_cons, List.length_cons, ih]
        omega
      · rw [if_pos (by decide), if_neg (by decide), List.length_cons, List.length_cons, ih]
        omega
  rw [hsplit, h1, h2]

theorem lastOfSide_exists (b : Bool) (l : List Cluster)
    (h : l.any (fun c => decide (c.com.x < 5) == b) = true) :
    ∃ c ∈ lastOfSide l, decide (c.com.x < 5) = b := by
  have h1 := lastOfSide_count b l
  rw [h, if_pos rfl] at h1
  have hpos : 0 < ((lastOfSide l).filter (fun c => decide (c.com.x < 5) == b)).length := by
    rw [h1]
    exact Nat.one_pos
  obtain ⟨c, hc⟩ := List.exists_mem_of_length_pos hpos
  rw [List.mem_filter] at hc
  exact ⟨c, hc.1, beq_iff_eq.mp hc.2⟩

theorem selectSeeds_accept_all (densityTh : ℚ) (seeds clusters leftovers : List Cluster)
    (h : ∀ s ∈ seeds, ¬ s.density < densityTh) :
    selectSeeds densityTh seeds (clusters, leftovers) = (clusters ++ seeds, leftovers) := by
  induction seeds generalizing clusters with
  | nil => simp [selectSeeds]
  | cons s rest ih =>
    unfold selectSeeds
    rw [if_neg (h s (List.mem_cons_self _ _)),
      ih (clusters ++ [s]) (fun t ht => h t (List.mem_cons_of_mem _ ht))]
    simp

theorem Cluster.foldl_addPoint_density (ps : List CloudPoint) (c : Cluster) :
    (ps.foldl Cluster.addPoint c).density = c.density := by
  induction ps generalizing c with
  | nil => rfl
  | cons p ps ih =>
    rw [List.foldl_cons, ih]
    rfl

theorem Cluster.addPoints_density (c cl : Cluster) : (c.addPoints cl).density = c.density :=
  Cluster.foldl_addPoint_density cl.points c

theorem seedCluster_owned {centre : Point} {c : Cluster} (hc : c.Pure centre)
    (hd : c.density = 1) : (seedCluster c).Owned centre := by
  refine ⟨?_, hc.2.2.1, hc.2.2.2, hd⟩
  rw [seedCluster_points]
  exact hc.2.1

theorem Cluster.Owned.addPoints {centre : Point} {c cli : Cluster} (hc : c.Owned centre)
    (hcli : cli.Pure centre) : (c.addPoints cli).Owned centre := by
  obtain ⟨hp, hx, hz, hd⟩ := hc
  refine ⟨?_, ?_, ?_, ?_⟩
  · intro p hpm
    rw [Cluster.addPoints_points] at hpm
    rcases List.mem_append.mp hpm with h | h
    · exact hp p h
    · exact hcli.2.1 p h
  · rw [Cluster.addPoints_seed]
    exact hx
  · rw [Cluster.addPoints_seed]
    exact hz
  · rw [Cluster.addPoints_density]
    exact hd

theorem Cluster.Owned.not_both {c : Cluster} (hA : c.Owned blobA) (hB : c.Owned blobB) :
    False := by
  have h1 := hA.2.1
  have h2 := hB.2.1
  rw [abs_le] at h1 h2
  simp only [blobA, blobB] at h1 h2
  linarith [h1.2, h2.1]

theorem Cluster.Owned.dist_same {centre : Point} {c cli : Cluster} (hc : c.Owned centre)
    (hcli : cli.Pure centre) : c.seed.dist2DSq cli.com ≤ 1 / 2 := by
  have h1 := hc.2.1
  have h2 := hc.2.2.1
  have h3 := hcli.2.2.1
  have h4 := hcli.2.2.2
  rw [abs_le] at h1 h2 h3 h4
  unfold Point.dist2DSq
  have hx : (cli.com.x - c.seed.x) * (cli.com.x - c.seed.x) ≤ 1 / 4 := by
    nlinarith [mul_nonneg (show (0 : ℚ) ≤ 1 / 2 - (cli.com.x - c.seed.x) by linarith [h1.1, h3.2])
      (show (0 : ℚ) ≤ 1 / 2 + (cli.com.x - c.seed.x) by linarith [h1.2, h3.1])]
  have hz : (cli.com.z - c.seed.z) * (cli.com.z - c.seed.z) ≤ 1 / 4 := by
    nlinarith [mul_nonneg (show (0 : ℚ) ≤ 1 / 2 - (cli.com.z - c.seed.z) by linarith [h2.1, h4.2])
      (show (0 : ℚ) ≤ 1 / 2 + (cli.com.z - c.seed.z) by linarith [h2.2, h4.1])]
  linarith

theorem Cluster.Owned.dist_other_AB {c cli : Cluster} (hc : c.Owned blobA)
    (hcli : cli.Pure blobB) : 1 / 2 < c.seed.dist2DSq cli.com := by
  have h1 := hc.2.1
  have h3 := hcli.2.2.1
  rw [abs_le] at h1 h3
  simp only [blobA, blobB] at h1 h3
  unfold Point.dist2DSq
  have hx : (0 : ℚ) ≤ (cli.com.x - c.seed.x) - 19 / 2 := by linarith [h1.2, h3.1]
  nlinarith [mul_self_nonneg (cli.com.z - c.seed.z), mul_nonneg hx hx]

theorem Cluster.Owned.dist_other_BA {c cli : Cluster} (hc : c.Owned blobB)
    (hcli : cli.Pure blobA) : 1 / 2 < c.seed.dist2DSq cli.com := by
  have h1 := hc.2.1
  have h3 := hcli.2.2.1
  rw [abs_le] at h1 h3
  simp only [blobA, blobB] at h1 h3
  unfold Point.dist2DSq
  have hx : (0 : ℚ) ≤ (c.seed.x - cli.com.x) - 19 / 2 := by linarith [h1.1, h3.2]
  nlinarith [mul_self_nonneg (cli.com.z - c.seed.z), mul_nonneg hx hx]

theorem assignLeftover_owned (clusters : List Cluster) (cli : Cluster)
    (hcli : cli.Pure blobA ∨ cli.Pure blobB)
    (hall : ∀ c ∈ clusters, c.Owned blobA ∨ c.Owned blobB)
    (hA : ∃ c ∈ clusters, c.Owned blobA) (hB : ∃ c ∈ clusters, c.Owned blobB) :
    ∃ res, assignLeftover clusters cli = some res ∧ res.length = clusters.length ∧
      (∀ c ∈ res, c.Owned blobA ∨ c.Owned blobB) ∧
      (∃ c ∈ res, c.Owned blobA) ∧ (∃ c ∈ res, c.Owned blobB) ∧
      (allPoints res).Perm (allPoints clusters ++ cli.points) := by
  have hne : clusters ≠ [] := by
    obtain ⟨c, hc, _⟩ := hA
    exact List.ne_nil_of_mem hc
  obtain ⟨icl, c, hget, hassign, hmin, _⟩ := assignLeftover_spec clusters cli hne
  have hlt : icl < clusters.length := (List.getElem?_eq_some_iff.mp hget).1
  have hcmem : c ∈ clusters := List.getElem?_mem hget
  have hsame : (cli.Pure blobA ∧ c.Owned blobA) ∨ (cli.Pure blobB ∧ c.Owned blobB) := by
    rcases hcli with hcA | hcB
    · left
      refine ⟨hcA, ?_⟩
      rcases hall c hcmem with h | h
      · exact h
      · obtain ⟨c0, hc0, hc0A⟩ := hA
        obtain ⟨j, hj⟩ := List.getElem?_of_mem hc0
        have h1 := hmin j c0 hj
        have h2 := hc0A.dist_same hcA
        have h3 := h.dist_other_BA hcA
        linarith
    · right
      refine ⟨hcB, ?_⟩
      rcases hall c hcmem with h | h
      · obtain ⟨c0, hc0, hc0B⟩ := hB
        obtain ⟨j, hj⟩ := List.getElem?_of_mem hc0
        have h1 := hmin j c0 hj
        have h2 := hc0B.dist_same hcB
        have h3 := h.dist_other_AB hcB
        linarith
      · exact h
  have hnew : ∀ c1, clusters[icl]? = some c1 →
      ((c1.Owned blobA → (c1.addPoints cli).Owned blobA) ∧
       (c1.Owned blobB → (c1.addPoints cli).Owned blobB)) := by
    intro c1 hc1
    rw [hget] at hc1
    have e : c = c1 := Option.some.inj hc1
    subst e
    rcases hsame with ⟨h1, h2⟩ | ⟨h1, h2⟩
    · exact ⟨fun h => h.addPoints h1, fun h => absurd (Cluster.Owned.not_both h2 h) id⟩
    · exact ⟨fun h => absurd (Cluster.Owned.not_both h h2) id, fun h => h.addPoints h1⟩
  refine ⟨_, hassign, by simp, ?_, ?_, ?_, ?_⟩
  · apply forall_mem_modify_at _ _ _ _ hall
    intro c1 hc1
    have hc1mem : c1 ∈ clusters := List.getElem?_mem hc1
    rcases hall c1 hc1mem with h | h
    · exact Or.inl ((hnew c1 hc1).1 h)
    · exact Or.inr ((hnew c1 hc1).2 h)
  · exact exists_mem_modify_at (fun c => c.Owned blobA) _ _ _ hA
      (fun c1 hc1 h => (hnew c1 hc1).1 h)
  · exact exists_mem_modify_at (fun c => c.Owned blobB) _ _ _ hB
      (fun c1 hc1 h => (hnew c1 hc1).2 h)
  · exact allPoints_modify _ cli.points (fun c => Cluster.addPoints_points c cli) clusters icl hlt

theorem assignLeftovers_owned (leftovers clusters : List Cluster)
    (hleft : ∀ cli ∈ leftovers, cli.Pure blobA ∨ cli.Pure blobB)
    (hall : ∀ c ∈ clusters, c.Owned blobA ∨ c.Owned blobB)
    (hA : ∃ c ∈ clusters, c.Owned blobA) (hB : ∃ c ∈ clusters, c.Owned blobB) :
    ∃ res, assignLeftovers leftovers clusters = some res ∧ res.length = clusters.length ∧
      (∀ c ∈ res, c.Owned blobA ∨ c.Owned blobB) ∧
      (∃ c ∈ res, c.Owned blobA) ∧ (∃ c ∈ res, c.Owned blobB) ∧
      (allPoints res).Perm (allPoints clusters ++ allPoints leftovers) := by
  induction leftovers generalizing clusters with
  | nil => exact ⟨clusters, rfl, rfl, hall, hA, hB, by simp [allPoints]⟩
  | cons cli rest ih =>
    obtain ⟨res1, h1, hlen1, hall1, hA1, hB1, hperm1⟩ :=
      assignLeftover_owned clusters cli (hleft cli (List.mem_cons_self _ _)) hall hA hB
    obtain ⟨res, h, hlen, hall2, hA2, hB2, hperm⟩ :=
      ih res1 (fun d hd => hleft d (List.mem_cons_of_mem _ hd)) hall1 hA1 hB1
    refine ⟨res, ?_, by rw [hlen, hlen1], hall2, hA2, hB2, ?_⟩
    · unfold assignLeftovers
      rw [h1]
      exact h
    · refine hperm.trans ?_
      simp only [allPoints]
      rw [← List.append_assoc]
      exact List.Perm.append_right _ hperm1

theorem mem_allPoints (p : CloudPoint) (l : List Cluster) :
    p ∈ allPoints l ↔ ∃ c ∈ l, p ∈ c.points := by
  induction l with
  | nil => simp [allPoints]
  | cons a l ih => simp [allPoints, ih]

theorem allPoints_map_density (l : List Cluster) :
    allPoints (l.map (fun c => { c with density := 1 })) = allPoints l := by
  induction l with
  | nil => rfl
  | cons a l ih => simp [allPoints, ih]

theorem findSeeds_of_unit_density (preClusters : List Cluster)
    (hpure : ∀ c ∈ preClusters, c.Pure blobA ∨ c.Pure blobB)
    (hdens : ∀ c ∈ preClusters, c.density = 1) :
    findSeeds (1 / 2) preClusters preClusters.enum ([], [])
      = ((lastOfSide preClusters).map seedCluster,
         (preClusters.enum.filter
            (fun x => !isLocalMax (1 / 2) preClusters x.1 x.2)).map Prod.snd) := by
  have h := filter_isLocalMax_eq_lastOfSide preClusters [] hpure hdens
  simp only [List.nil_append, List.length_nil] at h
  rw [findSeeds_eq_filter]
  simp only [List.nil_append]
  rw [← h, List.map_map]
  rfl

theorem runSeededClustering_of_unit_density (ds : DataSet) (config : Config)
    (hcl : ds.clusters = []) (hwin : config.densityWindow = 1 / 2)
    (hth : config.seedDensityThreshold ≤ 1)
    (hpure : ∀ c ∈ ds.preClusters, c.Pure blobA ∨ c.Pure blobB)
    (hdens : ∀ c ∈ ds.preClusters, c.density = 1)
    (hA : ∃ c ∈ ds.preClusters, c.Pure blobA) (hB : ∃ c ∈ ds.preClusters, c.Pure blobB) :
    ∃ res, runSeededClustering ds config = some { ds with clusters := res } ∧
      res.length = 2 ∧ (∀ c ∈ res, c.Owned blobA ∨ c.Owned blobB) ∧
      (∃ c ∈ res, c.Owned blobA) ∧ (∃ c ∈ res, c.Owned blobB) ∧
      (allPoints res).Perm (allPoints ds.preClusters) := by
  have hfound := findSeeds_of_unit_density ds.preClusters hpure hdens
  have hpoints := findSeeds_points (1 / 2) ds.preClusters ds.preClusters.enum ([], [])
  rw [hfound] at hpoints
  simp only [allPoints, List.nil_append, List.append_nil, List.enum_map_snd] at hpoints
  have hsub := lastOfSide_subset ds.preClusters
  have hseedOwned : ∀ s ∈ (lastOfSide ds.preClusters).map seedCluster,
      s.Owned blobA ∨ s.Owned blobB := by
    intro s hs
    rw [List.mem_map] at hs
    obtain ⟨c, hc, rfl⟩ := hs
    rcases hpure c (hsub c hc) with h | h
    · exact Or.inl (seedCluster_owned h (hdens c (hsub c hc)))
    · exact Or.inr (seedCluster_owned h (hdens c (hsub c hc)))
  have hseedA : ∃ s ∈ (lastOfSide ds.preClusters).map seedCluster, s.Owned blobA := by
    obtain ⟨c0, hc0, hc0A⟩ := hA
    have hany : ds.preClusters.any (fun c => decide (c.com.x < 5) == true) = true := by
      rw [List.any_eq_true]
      exact ⟨c0, hc0, by rw [hc0A.side_A]; rfl⟩
    obtain ⟨c, hc, hside⟩ := lastOfSide_exists true ds.preClusters hany
    refine ⟨seedCluster c, List.mem_map_of_mem _ hc, ?_⟩
    rcases hpure c (hsub c hc) with h | h
    · exact seedCluster_owned h (hdens c (hsub c hc))
    · rw [h.side_B] at hside
      exact absurd hside (by decide)
  have hseedB : ∃ s ∈ (lastOfSide ds.preClusters).map seedCluster, s.Owned blobB := by
    obtain ⟨c0, hc0, hc0B⟩ := hB
    have hany : ds.preClusters.any (fun c => decide (c.com.x < 5) == false) = true := by
      rw [List.any_eq_true]
      exact ⟨c0, hc0, by rw [hc0B.side_B]; rfl⟩
    obtain ⟨c, hc, hside⟩ := lastOfSide_exists false ds.preClusters hany
    refine ⟨seedCluster c, List.mem_map_of_mem _ hc, ?_⟩
    rcases hpure c (hsub c hc) with h | h
    · rw [h.side_A] at hside
      exact absurd hside (by decide)
    · exact seedCluster_owned h (hdens c (hsub c hc))
  have hlen : ((lastOfSide ds.preClusters).map seedCluster).length = 2 := by
    rw [List.length_map]
    apply lastOfSide_length
    · obtain ⟨c0, hc0, hc0A⟩ := hA
      rw [List.any_eq_true]
      exact ⟨c0, hc0, by rw [hc0A.side_A]; rfl⟩
    · obtain ⟨c0, hc0, hc0B⟩ := hB
      rw [List.any_eq_true]
      exact ⟨c0, hc0, by rw [hc0B.side_B]; rfl⟩
  have hleft : ∀ cli ∈ (ds.preClusters.enum.filter
      (fun x => !isLocalMax (1 / 2) ds.preClusters x.1 x.2)).map Prod.snd,
      cli.Pure blobA ∨ cli.Pure blobB := by
    intro cli hcli
    rw [List.mem_map] at hcli
    obtain ⟨x, hx, rfl⟩ := hcli
    have hx1 := (List.mem_filter.mp hx).1
    exact hpure x.2 (List.getElem?_mem (List.mem_enum_iff_getElem?.mp hx1))
  have hsel : selectSeeds config.seedDensityThreshold
      ((lastOfSide ds.preClusters).map seedCluster)
      ([], (ds.preClusters.enum.filter
        (fun x => !isLocalMax (1 / 2) ds.preClusters x.1 x.2)).map Prod.snd)
      = ([] ++ (lastOfSide ds.preClusters).map seedCluster,
         (ds.preClusters.enum.filter
          (fun x => !isLocalMax (1 / 2) ds.preClusters x.1 x.2)).map Prod.snd) := by
    apply selectSeeds_accept_all
    intro s hs
    rcases hseedOwned s hs with h | h
    · rw [h.2.2.2]
      exact not_lt.mpr hth
    · rw [h.2.2.2]
      exact not_lt.mpr hth
  obtain ⟨res, hres, hlen2, hall, hresA, hresB, hperm⟩ :=
    assignLeftovers_owned _ _ hleft hseedOwned hseedA hseedB
  refine ⟨res, ?_, by rw [hlen2, hlen], hall, hresA, hresB, hperm.trans hpoints⟩
  unfold runSeededClustering
  simp only [hwin, hfound, hcl, hsel, List.nil_append, hres]

theorem two_owned_split (res : List Cluster) (pts : List CloudPoint)
    (hlen : res.length = 2) (hall : ∀ c ∈ res, c.Owned blobA ∨ c.Owned blobB)
    (hA : ∃ c ∈ res, c.Owned blobA) (hB : ∃ c ∈ res, c.Owned blobB)
    (hperm : (allPoints res).Perm pts) :
    ∃ clA clB, (res = [clA, clB] ∨ res = [clB, clA]) ∧ clA.density = 1 ∧ clB.density = 1 ∧
      clA.points.Perm (pts.filter (inBlob blobA (1 / 4))) ∧
      clB.points.Perm (pts.filter (inBlob blobB (1 / 4))) := by
  have hfA : ∀ c : Cluster, c.Owned blobA →
      c.points.filter (inBlob blobA (1 / 4)) = c.points ∧
      c.points.filter (inBlob blobB (1 / 4)) = [] := by
    intro c hc
    refine ⟨List.filter_eq_self.mpr hc.1, ?_⟩
    rw [List.filter_eq_nil_iff]
    intro p hp hpB
    exact inBlob_not_both p (hc.1 p hp) hpB
  have hfB : ∀ c : Cluster, c.Owned blobB →
      c.points.filter (inBlob blobB (1 / 4)) = c.points ∧
      c.points.filter (inBlob blobA (1 / 4)) = [] := by
    intro c hc
    refine ⟨List.filter_eq_self.mpr hc.1, ?_⟩
    rw [List.filter_eq_nil_iff]
    intro p hp hpA
    exact inBlob_not_both p hpA (hc.1 p hp)
  match res, hlen with
  | [c1, c2], _ =>
    have hpA := hperm.filter (inBlob blobA (1 / 4))
    have hpB := hperm.filter (inBlob blobB (1 / 4))
    simp only [allPoints, List.append_nil, List.filter_append] at hpA hpB
    have key : (c1.Owned blobA ∧ c2.Owned blobB) ∨ (c1.Owned blobB ∧ c2.Owned blobA) := by
      obtain ⟨a, ha, haA⟩ := hA
      obtain ⟨b, hb, hbB⟩ := hB
      simp only [List.mem_cons, List.mem_singleton, List.not_mem_nil, or_false] at ha hb
      rcases ha with rfl | rfl <;> rcases hb with rfl | rfl
      · exact absurd (Cluster.Owned.not_both haA hbB) id
      · exact Or.inl ⟨haA, hbB⟩
      · exact Or.inr ⟨hbB, haA⟩
      · exact absurd (Cluster.Owned.not_both haA hbB) id
    rcases key with ⟨h1, h2⟩ | ⟨h1, h2⟩
    · refine ⟨c1, c2, Or.inl rfl, h1.2.2.2, h2.2.2.2, ?_, ?_⟩
      · rw [(hfA c1 h1).1, (hfB c2 h2).2, List.append_nil] at hpA
        exact hpA
      · rw [(hfA c1 h1).2, (hfB c2 h2).1, List.nil_append] at hpB
        exact hpB
    · refine ⟨c2, c1, Or.inr rfl, h2.2.2.2, h1.2.2.2, ?_, ?_⟩
      · rw [(hfB c1 h1).2, (hfA c2 h2).1, List.nil_append] at hpA
        exact hpA
      · rw [(hfB c1 h1).1, (hfA c2 h2).2, List.append_nil] at hpB
        exact hpB

theorem computeDensities_of_tight_blobs (ds : DataSet) (config : Config)
    (hpre : ds.preClusters = [])
    (hsize : config.preClusteringSize = 1 / 5) (hwin : config.densityWindow = 1 / 2)
    (hblobs : ∀ p ∈ ds.points, inBlob blobA (1 / 4) p = true ∨ inBlob blobB (1 / 4) p = true)
    (hcount : (ds.points.filter (inBlob blobA (1 / 4))).length
      = (ds.points.filter (inBlob blobB (1 / 4))).length)
    (hne : ds.points ≠ []) :
    ∃ pcs, computeDensities (runPreClustering ds config) config
        = some { ds with preClusters := pcs } ∧
      (∀ c ∈ pcs, c.Pure blobA ∨ c.Pure blobB) ∧ (∀ c ∈ pcs, c.density = 1) ∧
      (∃ c ∈ pcs, c.Pure blobA) ∧ (∃ c ∈ pcs, c.Pure blobB) ∧
      (allPoints pcs).Perm ds.points := by
  obtain ⟨hpure, hperm⟩ := preClusterFold_pure config.skipPreClustering ds.points []
    (fun c hc => absurd hc (List.not_mem_nil c)) hblobs
  simp only [allPoints, List.nil_append] at hperm
  generalize hP : ds.points.foldl (preClusterStep config.skipPreClustering (1 / 5)) [] = P
    at hpure hperm
  have hrun : runPreClustering ds config = { ds with preClusters := P } := by
    unfold runPreClustering
    rw [hsize, hpre, hP]
  have hposA : 0 < (ds.points.filter (inBlob blobA (1 / 4))).length := by
    obtain ⟨p, hp⟩ := List.exists_mem_of_ne_nil _ hne
    rcases hblobs p hp with h | h
    · exact List.length_pos_of_mem (List.mem_filter.mpr ⟨hp, h⟩)
    · rw [hcount]
      exact List.length_pos_of_mem (List.mem_filter.mpr ⟨hp, h⟩)
  have hposB : 0 < (ds.points.filter (inBlob blobB (1 / 4))).length := by
    rw [← hcount]
    exact hposA
  have hex : ∀ centre : Point, (centre = blobA ∨ centre = blobB) →
      0 < (ds.points.filter (inBlob centre (1 / 4))).length → ∃ c ∈ P, c.Pure centre := by
    intro centre hcentre hpos
    obtain ⟨p, hp⟩ := List.exists_mem_of_length_pos hpos
    rw [List.mem_filter] at hp
    have hpP : p ∈ allPoints P := hperm.symm.subset hp.1
    obtain ⟨c, hc, hpc⟩ := (mem_allPoints p P).mp hpP
    refine ⟨c, hc, ?_⟩
    rcases hcentre with rfl | rfl
    · rcases hpure c hc with h | h
      · exact h
      · exact absurd (inBlob_not_both p hp.2 (h.2.1 p hpc)) id
    · rcases hpure c hc with h | h
      · exact absurd (inBlob_not_both p (h.2.1 p hpc) hp.2) id
      · exact h
  have hraw : ∀ c ∈ P, rawDensity config.densityWindow P c
      = ((ds.points.filter (inBlob blobA (1 / 4))).length : ℚ) := by
    intro c hc
    rw [hwin]
    rcases hpure c hc with h | h
    · rw [rawDensity_of_pure P c (Or.inl rfl) h hpure,
        (hperm.filter (inBlob blobA (1 / 4))).length_eq]
    · rw [rawDensity_of_pure P c (Or.inr rfl) h hpure,
        (hperm.filter (inBlob blobB (1 / 4))).length_eq, hcount]
  have hPne : P ≠ [] := by
    obtain ⟨c, hc, _⟩ := hex blobA (Or.inl rfl) hposA
    exact List.ne_nil_of_mem hc
  have hcomp := computeDensities_of_constant { ds with preClusters := P } config
    ((ds.points.filter (inBlob blobA (1 / 4))).length : ℚ) (by exact_mod_cast hposA) hPne hraw
  refine ⟨P.map (fun c => { c with density := 1 }), ?_, ?_, ?_, ?_, ?_, ?_⟩
  · rw [hrun, hcomp]
  · intro c hc
    rw [List.mem_map] at hc
    obtain ⟨c0, hc0, rfl⟩ := hc
    rcases hpure c0 hc0 with h | h
    · exact Or.inl h
    · exact Or.inr h
  · intro c hc
    rw [List.mem_map] at hc
    obtain ⟨c0, _, rfl⟩ := hc
    rfl
  · obtain ⟨c, hc, hcA⟩ := hex blobA (Or.inl rfl) hposA
    exact ⟨_, List.mem_map_of_mem _ hc, hcA⟩
  · obtain ⟨c, hc, hcB⟩ := hex blobB (Or.inr rfl) hposB
    exact ⟨_, List.mem_map_of_mem _ hc, hcB⟩
  · rw [allPoints_map_density]
    exact hperm

/-- C17, as the code has it: for a fresh data set whose points all lie within the
distance `1/4` (half the density window) of `(0, 0, 0)` or of `(10, 0, 0)`, with the
same non-zero number of points in the two blobs, and with `preClusteringSize = 0.2`,
`densityWindow = 0.5` and a seed density threshold of at most `1`, the pipeline
(pre-clustering, densities, seeded clustering) has a value and yields exactly two
clusters, each of density `1`: one holds exactly the points of the first blob, the
other exactly the points of the second blob, so nothing of one blob is assigned to the
seed cluster of the other. -/
theorem two_tight_blobs_two_seeds (ds : DataSet) (config : Config)
    (hpre : ds.preClusters = []) (hcl : ds.clusters = [])
    (hsize : config.preClusteringSize = 1 / 5) (hwin : config.densityWindow = 1 / 2)
    (hth : config.seedDensityThreshold ≤ 1)
    (hblobs : ∀ p ∈ ds.points, inBlob blobA (1 / 4) p = true ∨ inBlob blobB (1 / 4) p = true)
    (hcount : (ds.points.filter (inBlob blobA (1 / 4))).length
      = (ds.points.filter (inBlob blobB (1 / 4))).length)
    (hne : ds.points ≠ []) :
    ∃ ds1 clA clB, runSeededPipeline ds config = some ds1 ∧
      (ds1.clusters = [clA, clB] ∨ ds1.clusters = [clB, clA]) ∧
      clA.density = 1 ∧ clB.density = 1 ∧
      clA.points.Perm (ds.points.filter (inBlob blobA (1 / 4))) ∧
      clB.points.Perm (ds.points.filter (inBlob blobB (1 / 4))) := by
  obtain ⟨pcs, hcomp, hpure, hdens, hA, hB, hperm⟩ :=
    computeDensities_of_tight_blobs ds config hpre hsize hwin hblobs hcount hne
  obtain ⟨res, hres, hlen, hall, hresA, hresB, hperm2⟩ :=
    runSeededClustering_of_unit_density { ds with preClusters := pcs } config hcl hwin hth
      hpure hdens hA hB
  obtain ⟨clA, clB, hshape, hdA, hdB, hpA, hpB⟩ :=
    two_owned_split res ds.points hlen hall hresA hresB (hperm2.trans hperm)
  refine ⟨{ ds with preClusters := pcs, clusters := res }, clA, clB, ?_, hshape, hdA, hdB,
    hpA, hpB⟩
  unfold runSeededPipeline
  rw [hcomp]
  exact hres

/-- C17, amended, at two blobs of radius `1/4` with two points each, the points of the
two blobs alternating in the input. -/
theorem two_tight_blobs_two_seeds_witness :
    exampleTightBlobs.preClusters = [] ∧ exampleTightBlobs.clusters = [] ∧
    exampleConfig.preClusteringSize = 1 / 5 ∧ exampleConfig.densityWindow = 1 / 2 ∧
    exampleConfig.seedDensityThreshold ≤ 1 ∧
    (∀ p ∈ exampleTightBlobs.points,
      inBlob blobA (1 / 4) p = true ∨ inBlob blobB (1 / 4) p = true) ∧
    (exampleTightBlobs.points.filter (inBlob blobA (1 / 4))).length
      = (exampleTightBlobs.points.filter (inBlob blobB (1 / 4))).length ∧
    exampleTightBlobs.points ≠ [] ∧
    ∃ ds1 clA clB, runSeededPipeline exampleTightBlobs exampleConfig = some ds1 ∧
      (ds1.clusters = [clA, clB] ∨ ds1.clusters = [clB, clA]) ∧
      clA.density = 1 ∧ clB.density = 1 ∧
      clA.points.Perm (exampleTightBlobs.points.filter (inBlob blobA (1 / 4))) ∧
      clB.points.Perm (exampleTightBlobs.points.filter (inBlob blobB (1 / 4))) :=
  have hth : exampleConfig.seedDensityThreshold ≤ 1 := by decide!
  have hblobs : ∀ p ∈ exampleTightBlobs.points,
      inBlob blobA (1 / 4) p = true ∨ inBlob blobB (1 / 4) p = true := by decide!
  have hcount : (exampleTightBlobs.points.filter (inBlob blobA (1 / 4))).length
      = (exampleTightBlobs.points.filter (inBlob blobB (1 / 4))).length := by decide!
  have hne : exampleTightBlobs.points ≠ [] := by simp [exampleTightBlobs]
  ⟨rfl, rfl, rfl, rfl, hth, hblobs, hcount, hne,
    two_tight_blobs_two_seeds exampleTightBlobs exampleConfig rfl rfl rfl rfl hth hblobs
      hcount hne⟩

/-! ## Pre-clustering -/

theorem preClusterSearch_first (dmin : ℚ) (cp : CloudPoint) (l : List Cluster) (n : Nat) :
    (preClusterSearch dmin cp (l.enumFrom n) = -1 ∧ ∀ cl ∈ l, ¬ withinBox dmin cl cp) ∨
    ∃ j cl, l[j]? = some cl ∧ withinBox dmin cl cp ∧
      (∀ (k : Nat) (ck : Cluster), k < j → l[k]? = some ck → ¬ withinBox dmin ck cp) ∧
      preClusterSearch dmin cp (l.enumFrom n) = ((n + j : Nat) : Int) := by
  induction l generalizing n with
  | nil =>
    left
    exact ⟨rfl, fun cl hcl => absurd hcl (List.not_mem_nil cl)⟩
  | cons c rest ih =>
    rw [List.enumFrom_cons]
    unfold preClusterSearch
    by_cases hbox : withinBox dmin c cp
    · right
      refine ⟨0, c, by simp, hbox, fun k ck hk => absurd hk (Nat.not_lt_zero k), ?_⟩
      rw [if_neg (not_lt.mpr hbox.1), if_neg (not_lt.mpr hbox.2)]
      rfl
    · have hskip : (if |c.com.x - cp.x| > dmin then preClusterSearch dmin cp (rest.enumFrom (n + 1))
          else if |c.com.z - cp.z| > dmin then preClusterSearch dmin cp (rest.enumFrom (n + 1))
          else (n : Int)) = preClusterSearch dmin cp (rest.enumFrom (n + 1)) := by
        by_cases hx : |c.com.x - cp.x| > dmin
        · rw [if_pos hx]
        · rw [if_neg hx]
          by_cases hz : |c.com.z - cp.z| > dmin
          · rw [if_pos hz]
          · exact absurd ⟨not_lt.mp hx, not_lt.mp hz⟩ hbox
      rw [hskip]
      rcases ih (n + 1) with ⟨h1, h2⟩ | ⟨j, cl, hj, hcl, hfirst, hres⟩
      · left
        refine ⟨h1, ?_⟩
        intro cl hcl
        rcases List.mem_cons.mp hcl with rfl | h
        · exact hbox
        · exact h2 cl h
      · right
        refine ⟨j + 1, cl, by simpa using hj, hcl, ?_, ?_⟩
        · intro k ck hk hck
          cases k with
          | zero =>
            have e : c = ck := by simpa using hck
            rw [← e]
            exact hbox
          | succ k => exact hfirst k ck (by omega) (by simpa using hck)
        · rw [hres]
          congr 1
          omega

theorem preClusterStep_skip (dmin : ℚ) (clusters : List Cluster) (cp : CloudPoint) :
    preClusterStep true dmin clusters cp = clusters ++ [Cluster.empty.addPoint cp] := by
  unfold preClusterStep
  simp

theorem preClusterStep_first_match (dmin : ℚ) (clusters : List Cluster) (cp : CloudPoint) :
    (∃ j cl, clusters[j]? = some cl ∧ withinBox dmin cl cp ∧
      (∀ (k : Nat) (ck : Cluster), k < j → clusters[k]? = some ck → ¬ withinBox dmin ck cp) ∧
      preClusterStep false dmin clusters cp = clusters.modify (fun c => c.addPoint cp) j) ∨
    ((∀ cl ∈ clusters, ¬ withinBox dmin cl cp) ∧
      preClusterStep false dmin clusters cp = clusters ++ [Cluster.empty.addPoint cp]) := by
  have e : preClusterStep false dmin clusters cp
      = (if preClusterSearch dmin cp clusters.enum ≥ 0 then
          clusters.modify (fun cl => cl.addPoint cp)
            (preClusterSearch dmin cp clusters.enum).toNat
        else clusters ++ [Cluster.empty.addPoint cp]) := by
    unfold preClusterStep
    simp
  rw [e]
  rcases preClusterSearch_first dmin cp clusters 0 with ⟨h1, h2⟩ | ⟨j, cl, hj, hcl, hfirst, hres⟩
  · right
    refine ⟨h2, ?_⟩
    have h1a : preClusterSearch dmin cp clusters.enum = -1 := h1
    rw [h1a, if_neg (by decide)]
  · left
    refine ⟨j, cl, hj, hcl, hfirst, ?_⟩
    have hres1 : preClusterSearch dmin cp clusters.enum = ((0 + j : Nat) : Int) := hres
    rw [hres1, if_pos (Int.ofNat_nonneg _)]
    simp

theorem Cluster.singleton_points_com (p : CloudPoint) :
    (Cluster.empty.addPoint p).points = [p] ∧ (Cluster.empty.addPoint p).com = p.toPoint := by
  constructor
  · rfl
  · simp [Cluster.addPoint, Cluster.empty, Point.origin]

theorem preClusterStep_points (skip : Bool) (dmin : ℚ) (clusters : List Cluster)
    (p : CloudPoint) (hne : ∀ c ∈ clusters, c.points ≠ []) :
    (∀ c ∈ preClusterStep skip dmin clusters p, c.points ≠ []) ∧
    (allPoints (preClusterStep skip dmin clusters p)).Perm (allPoints clusters ++ [p]) := by
  have hnew : (∀ c ∈ clusters ++ [Cluster.empty.addPoint p], c.points ≠ []) ∧
      (allPoints (clusters ++ [Cluster.empty.addPoint p])).Perm (allPoints clusters ++ [p]) := by
    constructor
    · intro c hc
      rcases List.mem_append.mp hc with h | h
      · exact hne c h
      · rw [List.mem_singleton] at h
        rw [h, (Cluster.singleton_points_com p).1]
        exact List.cons_ne_nil _ _
    · rw [allPoints_append, allPoints_singleton, (Cluster.singleton_points_com p).1]
  cases skip with
  | true =>
    rw [preClusterStep_skip]
    exact hnew
  | false =>
    rcases preClusterStep_first_match dmin clusters p with ⟨j, cl, hj, _, _, hres⟩ | ⟨_, hres⟩
    · rw [hres]
      have hlt : j < clusters.length := (List.getElem?_eq_some_iff.mp hj).1
      constructor
      · apply forall_mem_modify_at _ _ _ _ hne
        intro c _
        rw [Cluster.addPoint_points]
        simp
      · exact allPoints_modify _ [p] (fun c => Cluster.addPoint_points c p) clusters j hlt
    · rw [hres]
      exact hnew

theorem preClusterFold_points (skip : Bool) (dmin : ℚ) (points : List CloudPoint)
    (clusters : List Cluster) (hne : ∀ c ∈ clusters, c.points ≠ []) :
    (∀ c ∈ points.foldl (preClusterStep skip dmin) clusters, c.points ≠ []) ∧
    (allPoints (points.foldl (preClusterStep skip dmin) clusters)).Perm
      (allPoints clusters ++ points) := by
  induction points generalizing clusters with
  | nil => exact ⟨hne, by simp⟩
  | cons p ps ih =>
    rw [List.foldl_cons]
    obtain ⟨h1, h2⟩ := preClusterStep_points skip dmin clusters p hne
    obtain ⟨h3, h4⟩ := ih _ h1
    refine ⟨h3, h4.trans ?_⟩
    have := List.Perm.append_right ps h2
    simpa using this

theorem sum_sizes_eq_length_allPoints (l : List Cluster) :
    (l.map (fun c => c.points.length)).sum = (allPoints l).length := by
  induction l with
  | nil => rfl
  | cons c l ih => simp [allPoints, ih]

theorem preClusterFold_skip (dmin : ℚ) (points : List CloudPoint) (clusters : List Cluster) :
    points.foldl (preClusterStep true dmin) clusters
      = clusters ++ points.map (fun p => Cluster.empty.addPoint p) := by
  induction points generalizing clusters with
  | nil => simp
  | cons p ps ih =>
    rw [List.foldl_cons, ih, preClusterStep_skip]
    simp

/-- C22: with pre-clustering enabled, `runPreClustering` takes the points in input
order, each step acting on the pre-clusters left by the steps before; a step adds the
point to the first pre-cluster (lowest index, the order of creation) whose center of
mass differs from the point by at most `preClusteringSize` in `x` and in `z`, and when
there is none it appends a new pre-cluster that holds exactly that point. -/
theorem runPreClustering_first_match (ds : DataSet) (config : Config)
    (hskip : config.skipPreClustering = false) :
    (runPreClustering ds config).preClusters
      = ds.points.foldl (preClusterStep false config.preClusteringSize) ds.preClusters ∧
    ∀ (clusters : List Cluster) (cp : CloudPoint),
      (∃ j cl, clusters[j]? = some cl ∧ withinBox config.preClusteringSize cl cp ∧
        (∀ (k : Nat) (ck : Cluster), k < j → clusters[k]? = some ck →
          ¬ withinBox config.preClusteringSize ck cp) ∧
        preClusterStep false config.preClusteringSize clusters cp
          = clusters.modify (fun c => c.addPoint cp) j ∧
        (cl.addPoint cp).points = cl.points ++ [cp]) ∨
      ((∀ cl ∈ clusters, ¬ withinBox config.preClusteringSize cl cp) ∧
        preClusterStep false config.preClusteringSize clusters cp
          = clusters ++ [Cluster.empty.addPoint cp] ∧
        (Cluster.empty.addPoint cp).points = [cp]) := by
  constructor
  · unfold runPreClustering
    rw [hskip]
  · intro clusters cp
    rcases preClusterStep_first_match config.preClusteringSize clusters cp with
      ⟨j, cl, hj, hcl, hfirst, hres⟩ | ⟨hnone, hres⟩
    · exact Or.inl ⟨j, cl, hj, hcl, hfirst, hres, Cluster.addPoint_points cl cp⟩
    · exact Or.inr ⟨hnone, hres, rfl⟩

/-- C22 at three points, the second within the box of the pre-cluster of the first, with
the default configuration. -/
theorem runPreClustering_first_match_witness :
    exampleConfig.skipPreClustering = false ∧
    (runPreClustering exampleUnequalBlobs exampleConfig).preClusters
      = exampleUnequalBlobs.points.foldl (preClusterStep false exampleConfig.preClusteringSize)
          exampleUnequalBlobs.preClusters ∧
    ∀ (clusters : List Cluster) (cp : CloudPoint),
      (∃ j cl, clusters[j]? = some cl ∧ withinBox exampleConfig.preClusteringSize cl cp ∧
        (∀ (k : Nat) (ck : Cluster), k < j → clusters[k]? = some ck →
          ¬ withinBox exampleConfig.preClusteringSize ck cp) ∧
        preClusterStep false exampleConfig.preClusteringSize clusters cp
          = clusters.modify (fun c => c.addPoint cp) j ∧
        (cl.addPoint cp).points = cl.points ++ [cp]) ∨
      ((∀ cl ∈ clusters, ¬ withinBox exampleConfig.preClusteringSize cl cp) ∧
        preClusterStep false exampleConfig.preClusteringSize clusters cp
          = clusters ++ [Cluster.empty.addPoint cp] ∧
        (Cluster.empty.addPoint cp).points = [cp]) :=
  ⟨rfl, runPreClustering_first_match exampleUnequalBlobs exampleConfig rfl⟩

/-- C23: with `skipPreClustering` set, `runPreClustering` appends to the pre-clusters
one pre-cluster per input point, in input order (so from no pre-clusters the result is
exactly these); each of them holds exactly that point and has its position as center of
mass. -/
theorem runPreClustering_skip_singletons (ds : DataSet) (config : Config)
    (hskip : config.skipPreClustering = true) :
    (runPreClustering ds config).preClusters
      = ds.preClusters ++ ds.points.map (fun p => Cluster.empty.addPoint p) ∧
    (ds.preClusters = [] →
      (runPreClustering ds config).preClusters.map (fun c => (c.points, c.com))
        = ds.points.map (fun p => ([p], p.toPoint))) := by
  have h : (runPreClustering ds config).preClusters
      = ds.preClusters ++ ds.points.map (fun p => Cluster.empty.addPoint p) := by
    unfold runPreClustering
    rw [hskip]
    exact preClusterFold_skip _ _ _
  refine ⟨h, fun hpre => ?_⟩
  rw [h, hpre, List.nil_append, List.map_map]
  apply List.map_congr_left
  intro p _
  have hp := Cluster.singleton_points_com p
  simp only [Function.comp, hp.1, hp.2]

/-- C23 at four points of two blobs, with pre-clustering switched off. -/
theorem runPreClustering_skip_singletons_witness :
    exampleSkipConfig.skipPreClustering = true ∧
    (runPreClustering exampleTightBlobs exampleSkipConfig).preClusters
      = exampleTightBlobs.preClusters
        ++ exampleTightBlobs.points.map (fun p => Cluster.empty.addPoint p) ∧
    (exampleTightBlobs.preClusters = [] →
      (runPreClustering exampleTightBlobs exampleSkipConfig).preClusters.map
          (fun c => (c.points, c.com))
        = exampleTightBlobs.points.map (fun p => ([p], p.toPoint))) :=
  ⟨rfl, runPreClustering_skip_singletons exampleTightBlobs exampleSkipConfig rfl⟩

/-- C24: from no pre-clusters, for every point list and every configuration,
`runPreClustering` yields pre-clusters that all have points and whose points together
are a permutation of the input points; the sizes of the pre-clusters add up to the
number of input points. -/
theorem runPreClustering_partition (ds : DataSet) (config : Config)
    (hpre : ds.preClusters = []) :
    (∀ c ∈ (runPreClustering ds config).preClusters, c.points ≠ []) ∧
    (allPoints (runPreClustering ds config).preClusters).Perm ds.points ∧
    ((runPreClustering ds config).preClusters.map (fun c => c.points.length)).sum
      = ds.points.length := by
  obtain ⟨h1, h2⟩ := preClusterFold_points config.skipPreClustering config.preClusteringSize
    ds.points [] (fun c hc => absurd hc (List.not_mem_nil c))
  simp only [allPoints, List.nil_append] at h2
  have e : (runPreClustering ds config).preClusters
      = ds.points.foldl (preClusterStep config.skipPreClustering config.preClusteringSize) [] := by
    unfold runPreClustering
    rw [hpre]
  rw [e]
  exact ⟨h1, h2, by rw [sum_sizes_eq_length_allPoints, h2.length_eq]⟩

/-- C24 at three points, the second within the box of the pre-cluster of the first, with
the default configuration. -/
theorem runPreClustering_partition_witness :
    exampleUnequalBlobs.preClusters = [] ∧
    (∀ c ∈ (runPreClustering exampleUnequalBlobs exampleConfig).preClusters, c.points ≠ []) ∧
    (allPoints (runPreClustering exampleUnequalBlobs exampleConfig).preClusters).Perm
      exampleUnequalBlobs.points ∧
    ((runPreClustering exampleUnequalBlobs exampleConfig).preClusters.map
        (fun c => c.points.length)).sum
      = exampleUnequalBlobs.points.length :=
  ⟨rfl, runPreClustering_partition exampleUnequalBlobs exampleConfig rfl⟩

/-! ## Densities: the raw density and the normalisation -/

theorem rawDensity_eq_claimed (d : ℚ) (preClusters : List Cluster) (cli : Cluster) :
    rawDensity d preClusters cli = claimedRawDensity d preClusters cli := by
  rw [rawDensity_eq_sum]
  unfold claimedRawDensity
  congr 1
  apply List.map_congr_left
  intro clj _
  unfold outsideWindow
  by_cases hx : |clj.com.x - cli.com.x| > d
  · have hx1 : ¬ |clj.com.x - cli.com.x| ≤ d := not_le.mpr hx
    simp [hx, hx1]
  · by_cases hz : |clj.com.z - cli.com.z| > d
    · have hz1 : ¬ |clj.com.z - cli.com.z| ≤ d := not_le.mpr hz
      simp [hz, hz1]
    · have hx1 : |clj.com.x - cli.com.x| ≤ d := not_lt.mp hx
      have hz1 : |clj.com.z - cli.com.z| ≤ d := not_lt.mp hz
      simp [hx, hz, hx1, hz1]

theorem maxDensity_counted (d : ℚ) (preClusters : List Cluster) (hne : preClusters ≠ []) :
    (∀ c ∈ preClusters, rawDensity d preClusters c
      ≤ maxDensity (preClusters.map (fun cli => { cli with density := rawDensity d preClusters cli }))) ∧
    ∃ c ∈ preClusters, rawDensity d preClusters c
      = maxDensity (preClusters.map (fun cli => { cli with density := rawDensity d preClusters cli })) := by
  have hge : ∀ c ∈ preClusters, rawDensity d preClusters c
      ≤ maxDensity (preClusters.map
          (fun cli => { cli with density := rawDensity d preClusters cli })) := by
    intro c hc
    have hm : ({ c with density := rawDensity d preClusters c } : Cluster)
        ∈ preClusters.map (fun cli => { cli with density := rawDensity d preClusters cli }) :=
      List.mem_map.mpr ⟨c, hc, rfl⟩
    exact maxFold_ge_mem _ 0 _ hm
  refine ⟨hge, ?_⟩
  rcases maxFold_attained (preClusters.map
      (fun cli => { cli with density := rawDensity d preClusters cli })) 0 with h | ⟨c, hc, h⟩
  · obtain ⟨c0, hc0⟩ := List.exists_mem_of_ne_nil _ hne
    refine ⟨c0, hc0, le_antisymm (hge c0 hc0) ?_⟩
    have h0 : maxDensity (preClusters.map
        (fun cli => { cli with density := rawDensity d preClusters cli })) = 0 := h
    rw [h0]
    exact rawDensity_nonneg d preClusters c0
  · rw [List.mem_map] at hc
    obtain ⟨c0, hc0, rfl⟩ := hc
    exact ⟨c0, hc0, h⟩

theorem computeDensities_eq (ds : DataSet) (config : Config) (hne : ds.preClusters ≠ []) :
    computeDensities ds config
      = if maxDensity (ds.preClusters.map (fun cli =>
            { cli with density := rawDensity config.densityWindow ds.preClusters cli })) = 0
        then none
        else some { ds with
          preClusters := ds.preClusters.map (fun c =>
            { c with density := rawDensity config.densityWindow ds.preClusters c
                / maxDensity (ds.preClusters.map (fun cli =>
                    { cli with
                      density := rawDensity config.densityWindow ds.preClusters cli })) }) } := by
  have hnotempty : (ds.preClusters.map (fun cli =>
      { cli with density := rawDensity config.densityWindow ds.preClusters cli })).isEmpty
      = false := by
    cases hl : ds.preClusters with
    | nil => exact absurd hl hne
    | cons a l => simp
  unfold computeDensities
  simp only [hnotempty, Bool.false_eq_true, if_false, List.map_map]
  rfl

/-- C25: for a non-empty pre-cluster list, with `raw(i)` the sum of the point counts of
the pre-clusters whose center of mass differs from that of `i` by at most
`densityWindow` in `x` and in `z`, and `m` the greatest of these sums, `computeDensities`
stores the density `raw(i) / m` on every pre-cluster `i` and changes nothing else; when
`m` is zero the quotient does not exist and `computeDensities` has no value. -/
theorem computeDensities_raw_over_max (ds : DataSet) (config : Config)
    (hne : ds.preClusters ≠ []) :
    ∃ m : ℚ,
      (∀ c ∈ ds.preClusters, claimedRawDensity config.densityWindow ds.preClusters c ≤ m) ∧
      (∃ c ∈ ds.preClusters, claimedRawDensity config.densityWindow ds.preClusters c = m) ∧
      computeDensities ds config
        = if m = 0 then none
          else some { ds with
            preClusters := ds.preClusters.map (fun c =>
              { c with
                density := claimedRawDensity config.densityWindow ds.preClusters c / m }) } := by
  obtain ⟨hge, hatt⟩ := maxDensity_counted config.densityWindow ds.preClusters hne
  have heq := computeDensities_eq ds config hne
  generalize maxDensity (ds.preClusters.map (fun cli =>
      { cli with density := rawDensity config.densityWindow ds.preClusters cli })) = m
    at hge hatt heq
  refine ⟨m, ?_, ?_, ?_⟩
  · intro c hc
    rw [← rawDensity_eq_claimed]
    exact hge c hc
  · obtain ⟨c, hc, h⟩ := hatt
    exact ⟨c, hc, by rw [← rawDensity_eq_claimed]; exact h⟩
  · rw [heq]
    have e : (fun c : Cluster =>
          ({ c with density := rawDensity config.densityWindow ds.preClusters c / m } : Cluster))
        = (fun c : Cluster =>
          ({ c with
            density := claimedRawDensity config.densityWindow ds.preClusters c / m } : Cluster)) := by
      funext c
      rw [rawDensity_eq_claimed]
    rw [e]

/-- C25 at three pre-clusters, two of them inside each other's window: the raw densities
are `3`, `3` and `1`. -/
theorem computeDensities_raw_over_max_witness :
    examplePreClusterData.preClusters ≠ [] ∧
    examplePreClusterData.preClusters.map
        (claimedRawDensity exampleConfig.densityWindow examplePreClusterData.preClusters)
      = [3, 3, 1] ∧
    ∃ m : ℚ,
      (∀ c ∈ examplePreClusterData.preClusters,
        claimedRawDensity exampleConfig.densityWindow examplePreClusterData.preClusters c ≤ m) ∧
      (∃ c ∈ examplePreClusterData.preClusters,
        claimedRawDensity exampleConfig.densityWindow examplePreClusterData.preClusters c = m) ∧
      computeDensities examplePreClusterData exampleConfig
        = if m = 0 then none
          else some { examplePreClusterData with
            preClusters := examplePreClusterData.preClusters.map (fun c =>
              { c with
                density := claimedRawDensity exampleConfig.densityWindow
                  examplePreClusterData.preClusters c / m }) } :=
  have hne : examplePreClusterData.preClusters ≠ [] := by simp [examplePreClusterData]
  ⟨hne, by decide!, computeDensities_raw_over_max examplePreClusterData exampleConfig hne⟩

theorem rawDensity_ge_one (d : ℚ) (hd : 0 ≤ d) (preClusters : List Cluster) (c : Cluster)
    (hc : c ∈ preClusters) (hpts : c.points ≠ []) :
    (c.points.length : ℚ) ≤ rawDensity d preClusters c ∧ (1 : ℚ) ≤ (c.points.length : ℚ) := by
  refine ⟨rawDensity_ge_self d hd preClusters c hc, ?_⟩
  have : c.points.length ≠ 0 := fun h0 => hpts (List.length_eq_zero.mp h0)
  exact_mod_cast Nat.one_le_iff_ne_zero.mpr this

/-- C26, as the code has it: for a non-empty list of non-empty pre-clusters and a
density window that is not negative, every pre-cluster counts itself in its raw density
(raw density `≥` its point count `≥ 1`), so the maximum of the raw densities is
positive and `computeDensities` has a value (the normalisation does not divide by
zero). -/
theorem computeDensities_no_division_by_zero (ds : DataSet) (config : Config)
    (hne : ds.preClusters ≠ []) (hpts : ∀ cl ∈ ds.preClusters, cl.points ≠ [])
    (hd : 0 ≤ config.densityWindow) :
    (∀ c ∈ ds.preClusters,
      (c.points.length : ℚ) ≤ rawDensity config.densityWindow ds.preClusters c ∧
      (1 : ℚ) ≤ (c.points.length : ℚ)) ∧
    0 < maxDensity (ds.preClusters.map (fun cli =>
      { cli with density := rawDensity config.densityWindow ds.preClusters cli })) ∧
    (computeDensities ds config).isSome = true := by
  have h1 : ∀ c ∈ ds.preClusters,
      (c.points.length : ℚ) ≤ rawDensity config.densityWindow ds.preClusters c ∧
      (1 : ℚ) ≤ (c.points.length : ℚ) :=
    fun c hc => rawDensity_ge_one _ hd _ c hc (hpts c hc)
  have hpos : 0 < maxDensity (ds.preClusters.map (fun cli =>
      { cli with density := rawDensity config.densityWindow ds.preClusters cli })) := by
    obtain ⟨c0, hc0⟩ := List.exists_mem_of_ne_nil _ hne
    have h2 := (maxDensity_counted config.densityWindow ds.preClusters hne).1 c0 hc0
    have h3 := h1 c0 hc0
    linarith [h3.1, h3.2]
  refine ⟨h1, hpos, ?_⟩
  rw [computeDensities_eq ds config hne, if_neg (ne_of_gt hpos)]
  rfl

/-- C26, as the code has it, at three pre-clusters with the default density window. -/
theorem computeDensities_no_division_by_zero_witness :
    examplePreClusterData.preClusters ≠ [] ∧
    (∀ cl ∈ examplePreClusterData.preClusters, cl.points ≠ []) ∧
    0 ≤ exampleConfig.densityWindow ∧
    (∀ c ∈ examplePreClusterData.preClusters,
      (c.points.length : ℚ)
        ≤ rawDensity exampleConfig.densityWindow examplePreClusterData.preClusters c ∧
      (1 : ℚ) ≤ (c.points.length : ℚ)) ∧
    0 < maxDensity (examplePreClusterData.preClusters.map (fun cli =>
      { cli with
        density := rawDensity exampleConfig.densityWindow
          examplePreClusterData.preClusters cli })) ∧
    (computeDensities examplePreClusterData exampleConfig).isSome = true :=
  have hne : examplePreClusterData.preClusters ≠ [] := by simp [examplePreClusterData]
  have hpts : ∀ cl ∈ examplePreClusterData.preClusters, cl.points ≠ [] := by
    simp [examplePreClusterData, Cluster.addPoint, Cluster.empty]
  have hd : 0 ≤ exampleConfig.densityWindow := by decide!
  ⟨hne, hpts, hd,
    computeDensities_no_division_by_zero examplePreClusterData exampleConfig hne hpts hd⟩

/-- C26 fails as stated: with the density window `-1` no pre-cluster is inside its own
window, every raw density of the three non-empty pre-clusters is `0`, the maximum is
`0`, and the normalisation divides by zero. -/
theorem computeDensities_negative_window_divides_by_zero :
    examplePreClusterData.preClusters.map (fun c => c.points.length) = [2, 1, 1] ∧
    exampleNegativeWindowConfig.densityWindow = -1 ∧
    examplePreClusterData.preClusters.map
        (rawDensity exampleNegativeWindowConfig.densityWindow examplePreClusterData.preClusters)
      = [0, 0, 0] ∧
    maxDensity (examplePreClusterData.preClusters.map (fun cli =>
      { cli with
        density := rawDensity exampleNegativeWindowConfig.densityWindow
          examplePreClusterData.preClusters cli })) = 0 ∧
    (computeDensities examplePreClusterData exampleNegativeWindowConfig).isSome = false := by
  decide!

/-! ## Outlier removal: the pooled covariance and the core -/

theorem covFold_sums (seed : Point) (ps : List CloudPoint) (s : CovSums) :
    ps.foldl (covAdd seed) s
      = { sx := s.sx + ((ps.map (fun p => (seed.x - p.x, seed.z - p.z))).map Prod.fst).sum
          sz := s.sz + ((ps.map (fun p => (seed.x - p.x, seed.z - p.z))).map Prod.snd).sum
          sxx := s.sxx + ((ps.map (fun p => (seed.x - p.x, seed.z - p.z))).map
            (fun d => d.1 * d.1)).sum
          szz := s.szz + ((ps.map (fun p => (seed.x - p.x, seed.z - p.z))).map
            (fun d => d.2 * d.2)).sum
          sxz := s.sxz + ((ps.map (fun p => (seed.x - p.x, seed.z - p.z))).map
            (fun d => d.1 * d.2)).sum
          nPoints := s.nPoints + (ps.length : ℚ) } := by
  induction ps generalizing s with
  | nil => simp
  | cons p ps ih =>
    rw [List.foldl_cons, ih]
    simp only [covAdd, List.map_cons, List.sum_cons, List.length_cons, Nat.cast_add,
      Nat.cast_one, CovSums.mk.injEq]
    refine ⟨?_, ?_, ?_, ?_, ?_, ?_⟩ <;> ring

theorem covSumsFold_sums (clusters : List Cluster) (s : CovSums) :
    clusters.foldl (fun s cl => cl.points.foldl (covAdd cl.seed) s) s
      = { sx := s.sx + ((seedOffsets clusters).map Prod.fst).sum
          sz := s.sz + ((seedOffsets clusters).map Prod.snd).sum
          sxx := s.sxx + ((seedOffsets clusters).map (fun d => d.1 * d.1)).sum
          szz := s.szz + ((seedOffsets clusters).map (fun d => d.2 * d.2)).sum
          sxz := s.sxz + ((seedOffsets clusters).map (fun d => d.1 * d.2)).sum
          nPoints := s.nPoints + ((seedOffsets clusters).length : ℚ) } := by
  induction clusters generalizing s with
  | nil => simp [seedOffsets]
  | cons cl rest ih =>
    rw [List.foldl_cons, ih, covFold_sums]
    simp only [seedOffsets, List.map_append, List.sum_append, List.length_append,
      List.length_map, Nat.cast_add, CovSums.mk.injEq]
    refine ⟨?_, ?_, ?_, ?_, ?_, ?_⟩ <;> ring

theorem sum_centred (o : List (ℚ × ℚ)) (f g : ℚ × ℚ → ℚ) (a b : ℚ) :
    (o.map (fun d => (f d - a) * (g d - b))).sum
      = (o.map (fun d => f d * g d)).sum - b * (o.map f).sum - a * (o.map g).sum
        + (o.length : ℚ) * a * b := by
  induction o with
  | nil => simp
  | cons d o ih =>
    simp only [List.map_cons, List.sum_cons, List.length_cons, Nat.cast_add, Nat.cast_one, ih]
    ring

theorem mean_centred (o : List (ℚ × ℚ)) (f g : ℚ × ℚ → ℚ) :
    listMean (o.map (fun d => (f d - listMean (o.map f)) * (g d - listMean (o.map g))))
      = (o.map (fun d => f d * g d)).sum / (o.length : ℚ)
        - (o.map f).sum / (o.length : ℚ) * ((o.map g).sum / (o.length : ℚ)) := by
  unfold listMean
  rw [sum_centred]
  simp only [List.length_map]
  by_cases hn : (o.length : ℚ) = 0
  · rw [hn]
    simp
  · field_simp
    ring

theorem covariance_eq_pooled (clusters : List Cluster) :
    covariance (covSums clusters) = pooledCovariance clusters := by
  unfold covSums
  rw [covSumsFold_sums]
  unfold pooledCovariance covariance
  simp only [zero_add]
  rw [mean_centred (seedOffsets clusters) Prod.fst Prod.fst,
    mean_centred (seedOffsets clusters) Prod.snd Prod.snd,
    mean_centred (seedOffsets clusters) Prod.fst Prod.snd]

theorem deviation_eq_claimed (cov : ℚ × ℚ × ℚ) (seed : Point) (p : CloudPoint) :
    deviation cov seed p = claimedDeviation cov seed p := by
  unfold deviation claimedDeviation covDet
  simp only [pow_two]

theorem coreFold_filter (cov : ℚ × ℚ × ℚ) (smax : ℚ) (seed : Point) (ps : List CloudPoint)
    (core : Cluster) :
    (ps.foldl (fun core p => if deviation cov seed p > smax then core else core.addPoint p)
        core).points
      = core.points ++ ps.filter (fun p => decide (claimedDeviation cov seed p ≤ smax)) := by
  induction ps generalizing core with
  | nil => simp
  | cons p ps ih =>
    rw [List.foldl_cons, ih, List.filter_cons, ← deviation_eq_claimed]
    by_cases h : deviation cov seed p > smax
    · rw [if_pos h, if_neg (by simpa using h)]
    · rw [if_neg h, if_pos (by simpa using h), Cluster.addPoint_points]
      simp

theorem coreOf_points (cov : ℚ × ℚ × ℚ) (smax : ℚ) (cl : Cluster) :
    (coreOf cov smax cl).points
      = cl.points.filter (fun p => decide (claimedDeviation cov cl.seed p ≤ smax)) := by
  unfold coreOf
  rw [coreFold_filter]
  rfl

/-- C21: when the determinant `D = sxx·szz − sxz²` of the covariance of `(dx, dz) =
seed − point` pooled over all points of all final clusters is not zero,
`cleanupClusters` has a value, keeps the points of every cluster, and gives every
cluster a core whose points are, in order, the points of the cluster with
`(dx²·szz + dz²·sxx − 2·dx·dz·sxz) / D ≤ clusterCoreSize²`; so a point is in the core
of a cluster if and only if it is a point of the cluster that satisfies this. -/
theorem cleanupClusters_core_iff (ds : DataSet) (config : Config)
    (hD : (pooledCovariance ds.clusters).1 * (pooledCovariance ds.clusters).2.1
      - (pooledCovariance ds.clusters).2.2 ^ 2 ≠ 0) :
    ∃ ds1, cleanupClusters ds config = some ds1 ∧
      ds1.clusters.map (fun cl => (cl.points, cl.seed, cl.core.map (fun core => core.points)))
        = ds.clusters.map (fun cl => (cl.points, cl.seed,
            some (cl.points.filter (fun p =>
              decide (claimedDeviation (pooledCovariance ds.clusters) cl.seed p
                ≤ config.clusterCoreSize ^ 2))))) ∧
      ∀ cl ∈ ds1.clusters, ∃ core, cl.core = some core ∧
        ∀ p, p ∈ core.points ↔
          p ∈ cl.points ∧
          claimedDeviation (pooledCovariance ds.clusters) cl.seed p
            ≤ config.clusterCoreSize ^ 2 := by
  have hdet : covDet (covariance (covSums ds.clusters)) ≠ 0 := by
    rw [covariance_eq_pooled]
    unfold covDet
    rw [← pow_two]
    exact hD
  have hsome := cleanupClusters_isSome_of_det_ne_zero ds config hdet
  have hget := (Option.some_get hsome).symm
  have hcl := cleanupClusters_eq_some ds _ config hget
  rw [covariance_eq_pooled, ← pow_two] at hcl
  refine ⟨_, hget, ?_, ?_⟩
  · rw [hcl, List.map_map]
    apply List.map_congr_left
    intro cl _
    simp only [Function.comp, Option.map_some', coreOf_points]
  · intro cl hmem
    rw [hcl, List.mem_map] at hmem
    obtain ⟨cl0, _, rfl⟩ := hmem
    refine ⟨_, rfl, fun p => ?_⟩
    rw [coreOf_points, List.mem_filter, decide_eq_true_iff]

theorem exampleCleanupData_det :
    (pooledCovariance exampleCleanupData.clusters).1
        * (pooledCovariance exampleCleanupData.clusters).2.1
      - (pooledCovariance exampleCleanupData.clusters).2.2 ^ 2 ≠ 0 := by
  decide!

/-- C21 at a cluster of three points around its seed, with `clusterCoreSize = 2`. -/
theorem cleanupClusters_core_iff_witness :
    ((pooledCovariance exampleCleanupData.clusters).1
        * (pooledCovariance exampleCleanupData.clusters).2.1
      - (pooledCovariance exampleCleanupData.clusters).2.2 ^ 2 ≠ 0) ∧
    ∃ ds1, cleanupClusters exampleCleanupData exampleConfig = some ds1 ∧
      ds1.clusters.map (fun cl => (cl.points, cl.seed, cl.core.map (fun core => core.points)))
        = exampleCleanupData.clusters.map (fun cl => (cl.points, cl.seed,
            some (cl.points.filter (fun p =>
              decide (claimedDeviation (pooledCovariance exampleCleanupData.clusters) cl.seed p
                ≤ exampleConfig.clusterCoreSize ^ 2))))) ∧
      ∀ cl ∈ ds1.clusters, ∃ core, cl.core = some core ∧
        ∀ p, p ∈ core.points ↔
          p ∈ cl.points ∧
          claimedDeviation (pooledCovariance exampleCleanupData.clusters) cl.seed p
            ≤ exampleConfig.clusterCoreSize ^ 2 :=
  ⟨exampleCleanupData_det,
    cleanupClusters_core_iff exampleCleanupData exampleConfig exampleCleanupData_det⟩

/-! ## Seeded clustering: the selection of the seeds and the final clusters -/

theorem selectSeeds_eq_filter (densityTh : ℚ) (seeds clusters leftovers : List Cluster) :
    selectSeeds densityTh seeds (clusters, leftovers)
      = (clusters ++ seeds.filter (fun s => !decide (s.density < densityTh)),
         leftovers ++ seeds.filter (fun s => decide (s.density < densityTh))) := by
  induction seeds generalizing clusters leftovers with
  | nil => simp [selectSeeds]
  | cons s rest ih =>
    unfold selectSeeds
    by_cases h : s.density < densityTh
    · rw [if_pos h, ih]
      simp [List.filter_cons, h]
    · rw [if_neg h, ih]
      simp [List.filter_cons, h]

theorem Cluster.foldl_addPoint_caches (ps : List CloudPoint) (c : Cluster)
    (h1 : c.m_layers = []) (h2 : c.m_splitClusters = []) :
    ps.foldl Cluster.addPoint c
      = { c with points := (ps.foldl Cluster.addPoint c).points,
                 com := (ps.foldl Cluster.addPoint c).com } := by
  induction ps generalizing c with
  | nil =>
    cases c
    rfl
  | cons p ps ih =>
    rw [List.foldl_cons]
    have h := ih (c.addPoint p) rfl rfl
    generalize ps.foldl Cluster.addPoint (c.addPoint p) = r at h ⊢
    rw [h]
    simp only [Cluster.addPoint, h1, h2]

theorem seedCluster_caches (cli : Cluster) :
    (seedCluster cli).m_layers = [] ∧ (seedCluster cli).m_splitClusters = [] := by
  have h := Cluster.foldl_addPoint_caches cli.points Cluster.empty rfl rfl
  unfold seedCluster Cluster.addPoints
  generalize cli.points.foldl Cluster.addPoint Cluster.empty = r at h ⊢
  rw [h]
  exact ⟨rfl, rfl⟩

theorem Cluster.Absorbed.refl (s : Cluster) : s.Absorbed s :=
  ⟨by cases s; rfl, List.prefix_refl _⟩

theorem Cluster.Absorbed.absorb {s c : Cluster} (h : s.Absorbed c)
    (h1 : s.m_layers = []) (h2 : s.m_splitClusters = []) (cli : Cluster) :
    s.Absorbed (c.addPoints cli) := by
  obtain ⟨heq, hpre⟩ := h
  have hc1 : c.m_layers = [] := by rw [heq]; exact h1
  have hc2 : c.m_splitClusters = [] := by rw [heq]; exact h2
  have hfold := Cluster.foldl_addPoint_caches cli.points c hc1 hc2
  have hpts := Cluster.addPoints_points c cli
  unfold Cluster.addPoints at hpts ⊢
  generalize cli.points.foldl Cluster.addPoint c = r at hfold hpts ⊢
  constructor
  · rw [hfold, heq]
  · rw [hpts]
    exact hpre.trans (List.prefix_append _ _)

theorem forall₂_modify_right (R : Cluster → Cluster → Prop) (f : Cluster → Cluster)
    (l1 l2 : List Cluster) (i : Nat) (h : List.Forall₂ R l1 l2)
    (hf : ∀ a c, a ∈ l1 → R a c → R a (f c)) :
    List.Forall₂ R l1 (l2.modify f i) := by
  induction h generalizing i with
  | nil => simp
  | @cons a c l1 l2 hac _ ih =>
    cases i with
    | zero =>
      rw [List.modify_zero_cons]
      exact List.Forall₂.cons (hf a c (List.mem_cons_self _ _) hac) (by assumption)
    | succ i =>
      rw [List.modify_succ_cons]
      exact List.Forall₂.cons hac
        (ih i (fun a1 c1 ha1 => hf a1 c1 (List.mem_cons_of_mem _ ha1)))

theorem assignLeftovers_absorbed (leftovers seeds clusters : List Cluster)
    (hcaches : ∀ s ∈ seeds, s.m_layers = [] ∧ s.m_splitClusters = [])
    (hR : List.Forall₂ Cluster.Absorbed seeds clusters) (hne : clusters ≠ []) :
    ∃ res, assignLeftovers leftovers clusters = some res ∧
      List.Forall₂ Cluster.Absorbed seeds res := by
  induction leftovers generalizing clusters with
  | nil => exact ⟨clusters, rfl, hR⟩
  | cons cli rest ih =>
    obtain ⟨icl, c, _, hassign, _, _⟩ := assignLeftover_spec clusters cli hne
    have hR1 : List.Forall₂ Cluster.Absorbed seeds
        (clusters.modify (fun cl => cl.addPoints cli) icl) :=
      forall₂_modify_right _ _ _ _ _ hR
        (fun a c1 ha h => h.absorb (hcaches a ha).1 (hcaches a ha).2 cli)
    have hne1 : clusters.modify (fun cl => cl.addPoints cli) icl ≠ [] := by
      intro h0
      have hl := congrArg List.length h0
      rw [List.length_modify] at hl
      exact hne (List.length_eq_zero.mp hl)
    obtain ⟨res, hres, hRres⟩ := ih _ hR1 hne1
    refine ⟨res, ?_, hRres⟩
    unfold assignLeftovers
    rw [hassign]
    exact hres

theorem acceptedSeeds_eq (ds : DataSet) (config : Config) :
    acceptedSeeds ds config = (seedingPreClusters ds config).map seedCluster ∧
    acceptedSeeds ds config
      = (findSeeds config.densityWindow ds.preClusters ds.preClusters.enum ([], [])).1.filter
          (fun s => !decide (s.density < config.seedDensityThreshold)) := by
  have h2 : acceptedSeeds ds config
      = (findSeeds config.densityWindow ds.preClusters ds.preClusters.enum ([], [])).1.filter
          (fun s => !decide (s.density < config.seedDensityThreshold)) := by
    unfold acceptedSeeds
    rw [selectSeeds_eq_filter]
    simp
  refine ⟨?_, h2⟩
  rw [h2, findSeeds_eq_filter]
  unfold seedingPreClusters
  simp only [List.nil_append, List.filter_map, List.filter_filter, List.map_map]
  congr 1
  apply List.filter_congr
  intro x _
  simp only [Function.comp]
  rw [Bool.and_comm]
  rfl

theorem runSeededClustering_absorbed (ds : DataSet) (config : Config)
    (hfresh : ds.clusters = []) (hacc : acceptedSeeds ds config ≠ []) :
    ∃ res, runSeededClustering ds config = some { ds with clusters := res } ∧
      List.Forall₂ Cluster.Absorbed (acceptedSeeds ds config) res := by
  have hcaches : ∀ s ∈ acceptedSeeds ds config, s.m_layers = [] ∧ s.m_splitClusters = [] := by
    intro s hs
    rw [(acceptedSeeds_eq ds config).1, List.mem_map] at hs
    obtain ⟨c, _, rfl⟩ := hs
    exact seedCluster_caches c
  have hsel : (selectSeeds config.seedDensityThreshold
      (findSeeds config.densityWindow ds.preClusters ds.preClusters.enum ([], [])).1
      (ds.clusters,
        (findSeeds config.densityWindow ds.preClusters ds.preClusters.enum ([], [])).2)).1
      = acceptedSeeds ds config := by
    rw [selectSeeds_clusters_append, hfresh]
    rfl
  have hR : List.Forall₂ Cluster.Absorbed (acceptedSeeds ds config) (acceptedSeeds ds config) :=
    List.forall₂_same.mpr (fun s _ => Cluster.Absorbed.refl s)
  obtain ⟨res, hres, hRres⟩ := assignLeftovers_absorbed
    (selectSeeds config.seedDensityThreshold
      (findSeeds config.densityWindow ds.preClusters ds.preClusters.enum ([], [])).1
      (ds.clusters,
        (findSeeds config.densityWindow ds.preClusters ds.preClusters.enum ([], [])).2)).2
    _ _ hcaches hR hacc
  refine ⟨res, ?_, hRres⟩
  unfold runSeededClustering
  simp only [hsel, hres]

theorem forall₂_map_eq {β : Type} (R : Cluster → Cluster → Prop) (g : Cluster → β)
    (l1 l2 : List Cluster) (h : List.Forall₂ R l1 l2) (hg : ∀ a c, R a c → g c = g a) :
    l2.map g = l1.map g := by
  induction h with
  | nil => rfl
  | @cons a c l1 l2 hac _ ih =>
    rw [List.map_cons, List.map_cons, hg a c hac, ih]

theorem Cluster.Absorbed.seed_density {s fin : Cluster} (h : s.Absorbed fin) :
    (fin.seed, fin.density) = (s.seed, s.density) := by
  rw [h.1]

theorem assignLeftovers_nil (leftovers res : List Cluster)
    (h : assignLeftovers leftovers [] = some res) : res = [] := by
  cases leftovers with
  | nil =>
    unfold assignLeftovers at h
    exact (Option.some.inj h).symm
  | cons cli rest =>
    unfold assignLeftovers at h
    simp [assignLeftover] at h

theorem exampleDensityData_accepted_ne :
    acceptedSeeds exampleDensityData exampleConfig ≠ [] := fun h0 =>
  absurd (h0 ▸ exampleDensityData_accepted : ([] : List Cluster).length = 1) (by simp)

/-- C27: in `runSeededClustering` (on a data set without final clusters yet), the second
loop appends the seeds whose density is not below `seedDensityThreshold` to the final
clusters and the other seeds, in order, to the leftovers (behind the non-maxima that
are there already); when at least one seed is accepted the function has a value and
its final clusters are, one for one, these accepted seeds, with their seed position and
density; and whenever the function has a value every final cluster has a density of at
least `seedDensityThreshold`. -/
theorem runSeededClustering_threshold (ds : DataSet) (config : Config)
    (hfresh : ds.clusters = []) :
    (∀ (seeds clusters leftovers : List Cluster),
      selectSeeds config.seedDensityThreshold seeds (clusters, leftovers)
        = (clusters ++ seeds.filter
              (fun s => !decide (s.density < config.seedDensityThreshold)),
           leftovers ++ seeds.filter
              (fun s => decide (s.density < config.seedDensityThreshold)))) ∧
    (acceptedSeeds ds config ≠ [] →
      ∃ ds1, runSeededClustering ds config = some ds1 ∧
        ds1.clusters.map (fun cl => (cl.seed, cl.density))
          = ((findSeeds config.densityWindow ds.preClusters ds.preClusters.enum
                ([], [])).1.filter
              (fun s => !decide (s.density < config.seedDensityThreshold))).map
              (fun s => (s.seed, s.density))) ∧
    (∀ ds1, runSeededClustering ds config = some ds1 →
      ∀ cl ∈ ds1.clusters, config.seedDensityThreshold ≤ cl.density) := by
  have hmap : ∀ res, List.Forall₂ Cluster.Absorbed (acceptedSeeds ds config) res →
      res.map (fun cl => (cl.seed, cl.density))
        = (acceptedSeeds ds config).map (fun s => (s.seed, s.density)) :=
    fun res hR => forall₂_map_eq _ _ _ _ hR (fun a c hac => hac.seed_density)
  refine ⟨fun seeds clusters leftovers => selectSeeds_eq_filter _ _ _ _, ?_, ?_⟩
  · intro hacc
    obtain ⟨res, hres, hR⟩ := runSeededClustering_absorbed ds config hfresh hacc
    refine ⟨_, hres, ?_⟩
    rw [← (acceptedSeeds_eq ds config).2]
    exact hmap res hR
  · intro ds1 h cl hcl
    by_cases hacc : acceptedSeeds ds config = []
    · have hsel : (selectSeeds config.seedDensityThreshold
          (findSeeds config.densityWindow ds.preClusters ds.preClusters.enum ([], [])).1
          (ds.clusters,
            (findSeeds config.densityWindow ds.preClusters ds.preClusters.enum ([], [])).2)).1
          = [] := by
        rw [selectSeeds_clusters_append, hfresh]
        exact hacc
      unfold runSeededClustering at h
      simp only [hsel] at h
      split at h
      · exact absurd h (by simp)
      · rename_i clusters hassign
        have hnil := assignLeftovers_nil _ _ hassign
        simp only [Option.some.injEq] at h
        rw [← h, hnil] at hcl
        exact absurd hcl (List.not_mem_nil cl)
    · obtain ⟨res, hres, hR⟩ := runSeededClustering_absorbed ds config hfresh hacc
      rw [hres] at h
      have e : ds1.clusters = res := by
        rw [← Option.some.inj h]
      rw [e] at hcl
      have hm := hmap res hR
      have hin : (cl.seed, cl.density) ∈ res.map (fun cl => (cl.seed, cl.density)) :=
        List.mem_map_of_mem _ hcl
      rw [hm, (acceptedSeeds_eq ds config).2, List.mem_map] at hin
      obtain ⟨s, hs, hsd⟩ := hin
      have hs2 := (List.mem_filter.mp hs).2
      have hd : cl.density = s.density := (congrArg Prod.snd hsd).symm
      rw [hd]
      simpa using hs2

/-- C27 at three pre-clusters with the densities `1`, `1` and `1/3` and the threshold
`1/2`: the seeds are the second and the third pre-cluster, the third is rejected, and
the only final cluster has the density `1`. -/
theorem runSeededClustering_threshold_witness :
    exampleDensityData.clusters = [] ∧
    acceptedSeeds exampleDensityData exampleConfig ≠ [] ∧
    (findSeeds exampleConfig.densityWindow exampleDensityData.preClusters
        exampleDensityData.preClusters.enum ([], [])).1.map (fun s => s.density)
      = [1, 1 / 3] ∧
    (∀ (seeds clusters leftovers : List Cluster),
      selectSeeds exampleConfig.seedDensityThreshold seeds (clusters, leftovers)
        = (clusters ++ seeds.filter
              (fun s => !decide (s.density < exampleConfig.seedDensityThreshold)),
           leftovers ++ seeds.filter
              (fun s => decide (s.density < exampleConfig.seedDensityThreshold)))) ∧
    (acceptedSeeds exampleDensityData exampleConfig ≠ [] →
      ∃ ds1, runSeededClustering exampleDensityData exampleConfig = some ds1 ∧
        ds1.clusters.map (fun cl => (cl.seed, cl.density))
          = ((findSeeds exampleConfig.densityWindow exampleDensityData.preClusters
                exampleDensityData.preClusters.enum ([], [])).1.filter
              (fun s => !decide (s.density < exampleConfig.seedDensityThreshold))).map
              (fun s => (s.seed, s.density))) ∧
    (∀ ds1, runSeededClustering exampleDensityData exampleConfig = some ds1 →
      ∀ cl ∈ ds1.clusters, exampleConfig.seedDensityThreshold ≤ cl.density) :=
  ⟨rfl, exampleDensityData_accepted_ne, by decide!,
    runSeededClustering_threshold exampleDensityData exampleConfig rfl⟩

/-- C28: when `runSeededClustering` (on a data set without final clusters yet) accepts
at least one seed, it has a value and its final clusters are, one for one and in order,
seeded from the local maxima whose density is not below the threshold: the seed position
of a final cluster is the center of mass of its pre-cluster, its density is the density
of its pre-cluster, the points of the pre-cluster are a prefix of its points, and apart
from the points and the center of mass it is the seed cluster of its pre-cluster. -/
theorem runSeededClustering_seed_frame (ds : DataSet) (config : Config)
    (hfresh : ds.clusters = []) (hacc : acceptedSeeds ds config ≠ []) :
    ∃ ds1, runSeededClustering ds config = some ds1 ∧
      List.Forall₂
        (fun pre fin => fin.seed = pre.com ∧ fin.density = pre.density ∧
          pre.points <+: fin.points ∧
          fin = { seedCluster pre with points := fin.points, com := fin.com })
        (seedingPreClusters ds config) ds1.clusters := by
  obtain ⟨res, hres, hR⟩ := runSeededClustering_absorbed ds config hfresh hacc
  refine ⟨_, hres, ?_⟩
  rw [(acceptedSeeds_eq ds config).1, List.forall₂_map_left_iff] at hR
  refine hR.imp ?_
  intro pre fin h
  obtain ⟨heq, hpre⟩ := h
  rw [seedCluster_points] at hpre
  refine ⟨?_, ?_, hpre, heq⟩
  · rw [heq]
    rfl
  · rw [heq]
    rfl

/-- C28 at three pre-clusters of which the second is the only accepted seed. -/
theorem runSeededClustering_seed_frame_witness :
    exampleDensityData.clusters = [] ∧
    acceptedSeeds exampleDensityData exampleConfig ≠ [] ∧
    ∃ ds1, runSeededClustering exampleDensityData exampleConfig = some ds1 ∧
      List.Forall₂
        (fun pre fin => fin.seed = pre.com ∧ fin.density = pre.density ∧
          pre.points <+: fin.points ∧
          fin = { seedCluster pre with points := fin.points, com := fin.com })
        (seedingPreClusters exampleDensityData exampleConfig) ds1.clusters :=
  ⟨rfl, exampleDensityData_accepted_ne,
    runSeededClustering_seed_frame exampleDensityData exampleConfig rfl
      exampleDensityData_accepted_ne⟩

/-! ## K-means: the assignment step -/

theorem nearestSeedLoop_min (pcaColor : Point) (l : List (Nat × Option Point)) (jj : Int)
    (m : ℚ) (hsorted : l.Pairwise (fun a b => a.1 < b.1))
    (hjj : ∀ x ∈ l, jj < (x.1 : Int)) :
    ∃ m1, m1 ≤ m ∧ (∀ x ∈ l, ∀ s, x.2 = some s → m1 ≤ pcaColor.dist3DSq s) ∧
      (∀ x ∈ l, (x.1 : Int) < nearestSeedLoop pcaColor l jj m → ∀ s, x.2 = some s →
        m1 < pcaColor.dist3DSq s) ∧
      ((nearestSeedLoop pcaColor l jj m = jj ∧ m1 = m) ∨
        (∃ j s, (j, some s) ∈ l ∧ nearestSeedLoop pcaColor l jj m = (j : Int) ∧
          pcaColor.dist3DSq s = m1 ∧ m1 < m)) := by
  induction l generalizing jj m with
  | nil => exact ⟨m, le_refl _, by simp, by simp, Or.inl ⟨rfl, rfl⟩⟩
  | cons jc rest ih =>
    obtain ⟨j, os⟩ := jc
    rw [List.pairwise_cons] at hsorted
    obtain ⟨hj, hrest⟩ := hsorted
    have hjlt : jj < (j : Int) := hjj (j, os) (List.mem_cons_self _ _)
    have hjj1 : ∀ x ∈ rest, jj < (x.1 : Int) := fun x hx => hjj x (List.mem_cons_of_mem _ hx)
    have hj1 : ∀ x ∈ rest, (j : Int) < (x.1 : Int) := fun x hx => by
      exact_mod_cast hj x hx
    cases os with
    | none =>
      unfold nearestSeedLoop
      obtain ⟨m1, hle, hall, hbefore, hres⟩ := ih jj m hrest hjj1
      refine ⟨m1, hle, ?_, ?_, ?_⟩
      · intro x hx s hs
        rcases List.mem_cons.mp hx with rfl | hmem
        · exact absurd hs (by simp)
        · exact hall x hmem s hs
      · intro x hx hxr s hs
        rcases List.mem_cons.mp hx with rfl | hmem
        · exact absurd hs (by simp)
        · exact hbefore x hmem hxr s hs
      · rcases hres with h1 | ⟨j1, s1, hmem, hr, hd, hlt1⟩
        · exact Or.inl h1
        · exact Or.inr ⟨j1, s1, List.mem_cons_of_mem _ hmem, hr, hd, hlt1⟩
    | some seed =>
      unfold nearestSeedLoop
      simp only
      by_cases hlt : pcaColor.dist3DSq seed < m
      · rw [if_pos hlt]
        obtain ⟨m1, hle, hall, hbefore, hres⟩ := ih (j : Int) (pcaColor.dist3DSq seed) hrest hj1
        refine ⟨m1, le_of_lt (lt_of_le_of_lt hle hlt), ?_, ?_, ?_⟩
        · intro x hx s hs
          rcases List.mem_cons.mp hx with rfl | hmem
          · have e : seed = s := Option.some.inj hs
            rw [← e]
            exact hle
          · exact hall x hmem s hs
        · intro x hx hxr s hs
          rcases List.mem_cons.mp hx with rfl | hmem
          · have e : seed = s := Option.some.inj hs
            rw [← e]
            rcases hres with ⟨hr, _⟩ | ⟨_, _, _, _, _, hlt1⟩
            · rw [hr] at hxr
              exact absurd hxr (lt_irrefl _)
            · exact hlt1
          · exact hbefore x hmem hxr s hs
        · right
          rcases hres with ⟨hr, hm⟩ | ⟨j1, s1, hmem, hr, hd, hlt1⟩
          · exact ⟨j, seed, List.mem_cons_self _ _, hr, hm.symm, by rw [hm]; exact hlt⟩
          · exact ⟨j1, s1, List.mem_cons_of_mem _ hmem, hr, hd, lt_trans hlt1 hlt⟩
      · rw [if_neg hlt]
        have hge : m ≤ pcaColor.dist3DSq seed := not_lt.mp hlt
        obtain ⟨m1, hle, hall, hbefore, hres⟩ := ih jj m hrest hjj1
        refine ⟨m1, hle, ?_, ?_, ?_⟩
        · intro x hx s hs
          rcases List.mem_cons.mp hx with rfl | hmem
          · have e : seed = s := Option.some.inj hs
            rw [← e]
            exact le_trans hle hge
          · exact hall x hmem s hs
        · intro x hx hxr s hs
          rcases List.mem_cons.mp hx with rfl | hmem
          · have e : seed = s := Option.some.inj hs
            rw [← e]
            rcases hres with ⟨hr, _⟩ | ⟨_, _, _, _, _, hlt1⟩
            · rw [hr] at hxr
              exact absurd hxr (not_lt.mpr (le_of_lt hjlt))
            · exact lt_of_lt_of_le hlt1 hge
          · exact hbefore x hmem hxr s hs
        · rcases hres with h1 | ⟨j1, s1, hmem, hr, hd, hlt1⟩
          · exact Or.inl h1
          · exact Or.inr ⟨j1, s1, List.mem_cons_of_mem _ hmem, hr, hd, hlt1⟩

theorem nearestSeed_spec (seeds : List (Option Point)) (cl : Cluster) :
    (nearestSeed seeds cl = -1 ∧
      ∀ (k : Nat) (t : Point), seeds[k]? = some (some t) → 99999 ≤ cl.pcaColor.dist3DSq t) ∨
    ∃ (j : Nat) (s : Point), seeds[j]? = some (some s) ∧ nearestSeed seeds cl = (j : Int) ∧
      cl.pcaColor.dist3DSq s < 99999 ∧
      (∀ (k : Nat) (t : Point), seeds[k]? = some (some t) →
        cl.pcaColor.dist3DSq s ≤ cl.pcaColor.dist3DSq t) ∧
      (∀ (k : Nat) (t : Point), k < j → seeds[k]? = some (some t) →
        cl.pcaColor.dist3DSq s < cl.pcaColor.dist3DSq t) := by
  have hsorted : seeds.enum.Pairwise (fun a b => a.1 < b.1) := by
    have h := List.pairwise_lt_range' 0 seeds.length
    rw [← List.enumFrom_map_fst 0 seeds, List.pairwise_map] at h
    exact h
  have hneg : ∀ x ∈ seeds.enum, (-1 : Int) < (x.1 : Int) := by
    intro x _
    have : (0 : Int) ≤ (x.1 : Int) := Int.ofNat_nonneg _
    omega
  have key := nearestSeedLoop_min cl.pcaColor seeds.enum (-1) 99999 hsorted hneg
  unfold nearestSeed
  generalize nearestSeedLoop cl.pcaColor seeds.enum (-1) 99999 = r at key
  obtain ⟨m1, hle, hall, hbefore, hres⟩ := key
  have hmem : ∀ (k : Nat) (t : Point), seeds[k]? = some (some t) → (k, some t) ∈ seeds.enum :=
    fun k t hk => List.mk_mem_enum_iff_getElem?.mpr hk
  rcases hres with ⟨hr, hm⟩ | ⟨j, s, hjs, hr, hd, hlt⟩
  · left
    refine ⟨hr, ?_⟩
    intro k t hk
    rw [← hm]
    exact hall (k, some t) (hmem k t hk) t rfl
  · right
    refine ⟨j, s, List.mk_mem_enum_iff_getElem?.mp hjs, hr, by rw [hd]; exact hlt, ?_, ?_⟩
    · intro k t hk
      rw [hd]
      exact hall (k, some t) (hmem k t hk) t rfl
    · intro k t hkj hk
      rw [hd]
      exact hbefore (k, some t) (hmem k t hk) (by rw [hr]; exact_mod_cast hkj) t rfl

/-- C29 on four objects with the PCA colours `(0,0,0)`, `(1,0,0)`, `(2,0,0)` and
`(400,0,0)`, the first three taken as the initial seeds: the squared distances of the
fourth object to the seeds are `160000`, `159201` and `158404`, none below the initial
`minDist = 99999`, so the search leaves `jj = -1`, the object is put in no group
(`pcaClusters[-1]` is outside the vector) and neither the assignment step nor the run
has a value; the group of the nearest seed is the third. -/
theorem nearestSeed_far_object_no_group :
    [(⟨0, 0, 0⟩ : Point), ⟨1, 0, 0⟩, ⟨2, 0, 0⟩].map
        (fun s => (exampleObject 400).pcaColor.dist3DSq s)
      = [160000, 159201, 158404] ∧
    nearestSeed [some ⟨0, 0, 0⟩, some ⟨1, 0, 0⟩, some ⟨2, 0, 0⟩] (exampleObject 400) = -1 ∧
    (assignStep [some ⟨0, 0, 0⟩, some ⟨1, 0, 0⟩, some ⟨2, 0, 0⟩] exampleFarObjects
        [[], [], []]).isSome = false ∧
    (runKmeansOnPCA 32767 3 exampleFarObjects [[], [], []] exampleConfig
        (fun i => i) 1).isSome = false := by
  decide!

/-! ## K-means: the update step -/

theorem assignLoop_members_lt (seeds : List (Option Point)) (n : Nat)
    (l : List (Nat × Cluster)) (groups res : List (List Nat))
    (hl : ∀ x ∈ l, x.1 < n) (hg : ∀ g ∈ groups, ∀ k ∈ g, k < n)
    (h : assignLoop seeds l groups = some res) : ∀ g ∈ res, ∀ k ∈ g, k < n := by
  induction l generalizing groups with
  | nil =>
    simp only [assignLoop, Option.some.injEq] at h
    rw [← h]
    exact hg
  | cons ic rest ih =>
    obtain ⟨i, cl⟩ := ic
    unfold assignLoop at h
    simp only at h
    split at h
    · exact absurd h (by simp)
    · simp only [List.get?_eq_getElem?] at h
      cases hget : groups[(nearestSeed seeds cl).toNat]? with
      | none => simp [hget] at h
      | some group =>
        simp only [hget] at h
        apply ih _ (fun x hx => hl x (List.mem_cons_of_mem _ hx)) _ h
        intro g hgm k hk
        rcases List.mem_or_eq_of_mem_set hgm with h1 | h1
        · exact hg g h1 k hk
        · rw [h1] at hk
          rcases List.mem_append.mp hk with h2 | h2
          · exact hg group (List.getElem?_mem hget) k h2
          · rw [List.mem_singleton] at h2
            rw [h2]
            exact hl (i, cl) (List.mem_cons_self _ _)

theorem assignStep_members_lt (seeds : List (Option Point)) (clusters : List Cluster)
    (pcaClusters groups : List (List Nat))
    (h : assignStep seeds clusters pcaClusters = some groups) :
    ∀ g ∈ groups, ∀ k ∈ g, k < clusters.length := by
  unfold assignStep at h
  apply assignLoop_members_lt seeds clusters.length _ _ _ _ _ h
  · intro x hx
    exact List.fst_lt_of_mem_enum hx
  · intro g hg k hk
    rw [List.mem_map] at hg
    obtain ⟨_, _, rfl⟩ := hg
    exact absurd hk (List.not_mem_nil k)

theorem members_of_valid (clusters : List Cluster) (group : List Nat)
    (hvalid : ∀ k ∈ group, k < clusters.length) :
    ∃ members : List Cluster,
      List.Forall₂ (fun k cl => clusters[k]? = some cl) group members ∧
      group.filterMap (fun i => (clusters.get? i).map (fun cl => cl.pcaColor))
        = members.map (fun cl => cl.pcaColor) := by
  induction group with
  | nil => exact ⟨[], List.Forall₂.nil, rfl⟩
  | cons k rest ih =>
    obtain ⟨members, hF, hcol⟩ := ih (fun j hj => hvalid j (List.mem_cons_of_mem _ hj))
    have hk : k < clusters.length := hvalid k (List.mem_cons_self _ _)
    have hget : clusters[k]? = some clusters[k] := List.getElem?_eq_getElem hk
    refine ⟨clusters[k] :: members, List.Forall₂.cons hget hF, ?_⟩
    rw [List.filterMap_cons]
    simp only [List.get?_eq_getElem?, hget, Option.map_some', List.map_cons]
    simp only [List.get?_eq_getElem?] at hcol
    rw [hcol]

theorem groupMean_nil (clusters : List Cluster) : groupMean clusters [] = none := rfl

theorem groupMean_of_valid (clusters : List Cluster) (group : List Nat) (hne : group ≠ [])
    (hvalid : ∀ k ∈ group, k < clusters.length) :
    ∃ members : List Cluster,
      List.Forall₂ (fun k cl => clusters[k]? = some cl) group members ∧
      groupMean clusters group = some (meanPcaColor members) := by
  obtain ⟨members, hF, hcol⟩ := members_of_valid clusters group hvalid
  refine ⟨members, hF, ?_⟩
  have hlen : group.length = members.length := hF.length_eq
  have hpos : group.length ≠ 0 := fun h0 => hne (List.length_eq_zero.mp h0)
  have hpos1 : members.length ≠ 0 := by rw [← hlen]; exact hpos
  unfold groupMean
  simp only [hcol, meanPcaColor, listMean, List.map_map, List.length_map, hlen, if_neg hpos1]
  rfl

theorem updateLoop_spec (clusters : List Cluster) (l : List (List Nat)) (n : Nat)
    (seeds : List (Option Point)) (converged : Bool) (hlen : n + l.length ≤ seeds.length) :
    ∃ newSeeds converged1,
      updateLoop clusters (l.enumFrom n) seeds converged = some (newSeeds, converged1) ∧
      newSeeds.length = seeds.length ∧
      (∀ i, i < n → newSeeds[i]? = seeds[i]?) ∧
      (∀ (i : Nat) (group : List Nat), l[i]? = some group →
        newSeeds[n + i]? = some (groupMean clusters group)) := by
  induction l generalizing n seeds converged with
  | nil => exact ⟨seeds, converged, rfl, rfl, fun i _ => rfl, by simp⟩
  | cons group rest ih =>
    rw [List.length_cons] at hlen
    have hn : n < seeds.length := by omega
    obtain ⟨newSeeds, converged1, hres, hlen1, hkeep, hset⟩ :=
      ih (n + 1) (seeds.set n (groupMean clusters group))
        (if seedMoved (groupMean clusters group) seeds[n] then false else converged)
        (by rw [List.length_set]; omega)
    refine ⟨newSeeds, converged1, ?_, ?_, ?_, ?_⟩
    · rw [List.enumFrom_cons]
      unfold updateLoop
      simp only [List.get?_eq_getElem?, List.getElem?_eq_getElem hn]
      exact hres
    · rw [hlen1, List.length_set]
    · intro i hi
      rw [hkeep i (by omega), List.getElem?_set_ne (by omega)]
    · intro i g hg
      cases i with
      | zero =>
        have e : group = g := by simpa using hg
        rw [← e, Nat.add_zero, hkeep n (Nat.lt_succ_self n), List.getElem?_set_self hn]
      | succ i =>
        have hg1 : rest[i]? = some g := by simpa using hg
        have := hset i g hg1
        rw [show n + (i + 1) = n + 1 + i by omega]
        exact this

/-- C30, as the code has it: in an update step of `runKmeansOnPCA` (as many seeds as
groups), after an assignment step that has put every object in a group, every group
that received at least one object gets as new seed the coordinate-wise arithmetic mean
of the PCA colours of its members, and every group that received no object gets the
quotient `0/0` in every coordinate, which is not a point. -/
theorem updateStep_group_means (clusters : List Cluster) (seeds : List (Option Point))
    (pcaClusters groups : List (List Nat))
    (hassign : assignStep seeds clusters pcaClusters = some groups)
    (hlen : pcaClusters.length ≤ seeds.length) :
    ∃ newSeeds converged,
      updateLoop clusters groups.enum seeds true = some (newSeeds, converged) ∧
      ∀ (i : Nat) (group : List Nat), groups[i]? = some group →
        (group ≠ [] → ∃ members : List Cluster,
          List.Forall₂ (fun k cl => clusters[k]? = some cl) group members ∧
          newSeeds[i]? = some (some (meanPcaColor members))) ∧
        (group = [] → newSeeds[i]? = some none) := by
  have hglen : groups.length = pcaClusters.length := assignStep_length _ _ _ _ hassign
  have hvalid := assignStep_members_lt _ _ _ _ hassign
  obtain ⟨newSeeds, converged, hres, _, _, hset⟩ :=
    updateLoop_spec clusters groups 0 seeds true (by omega)
  refine ⟨newSeeds, converged, hres, ?_⟩
  intro i group hg
  have hnew := hset i group hg
  rw [Nat.zero_add] at hnew
  constructor
  · intro hne
    obtain ⟨members, hF, hmean⟩ :=
      groupMean_of_valid clusters group hne (hvalid group (List.getElem?_mem hg))
    exact ⟨members, hF, by rw [hnew, hmean]⟩
  · intro hnil
    rw [hnew, hnil, groupMean_nil]

theorem exampleTiedObjects_assign :
    assignStep [some ⟨0, 0, 0⟩, some ⟨0, 0, 0⟩, some ⟨10, 0, 0⟩] exampleTiedObjects
      [[], [], []] = some [[0, 1], [], [2]] := by
  decide!

/-- C30, as the code has it, at three objects of which the first two have the same PCA
colour, with the objects as seeds: the assignment step gives the groups `[0, 1]`, `[]`
and `[2]`. -/
theorem updateStep_group_means_witness :
    assignStep [some ⟨0, 0, 0⟩, some ⟨0, 0, 0⟩, some ⟨10, 0, 0⟩] exampleTiedObjects
      [[], [], []] = some [[0, 1], [], [2]] ∧
    ([[], [], []] : List (List Nat)).length
      ≤ [some (⟨0, 0, 0⟩ : Point), some ⟨0, 0, 0⟩, some ⟨10, 0, 0⟩].length ∧
    ∃ newSeeds converged,
      updateLoop exampleTiedObjects ([[0, 1], [], [2]] : List (List Nat)).enum
        [some ⟨0, 0, 0⟩, some ⟨0, 0, 0⟩, some ⟨10, 0, 0⟩] true = some (newSeeds, converged) ∧
      ∀ (i : Nat) (group : List Nat), ([[0, 1], [], [2]] : List (List Nat))[i]? = some group →
        (group ≠ [] → ∃ members : List Cluster,
          List.Forall₂ (fun k cl => exampleTiedObjects[k]? = some cl) group members ∧
          newSeeds[i]? = some (some (meanPcaColor members))) ∧
        (group = [] → newSeeds[i]? = some none) :=
  ⟨exampleTiedObjects_assign, by decide,
    updateStep_group_means exampleTiedObjects _ _ _ exampleTiedObjects_assign (by decide)⟩

/-- C30 fails as stated: on three objects with the PCA colours `(0,0,0)`, `(0,0,0)` and
`(10,0,0)`, taken as the initial seeds, both objects at `(0,0,0)` join the first group
and the second group receives no object; the update step leaves the second seed without
a value (`0/0` in every coordinate), not a mean, and the run stops with convergence
declared. -/
theorem updateStep_empty_group_no_mean :
    assignStep [some ⟨0, 0, 0⟩, some ⟨0, 0, 0⟩, some ⟨10, 0, 0⟩] exampleTiedObjects
      [[], [], []] = some [[0, 1], [], [2]] ∧
    updateLoop exampleTiedObjects ([[0, 1], [], [2]] : List (List Nat)).enum
        [some ⟨0, 0, 0⟩, some ⟨0, 0, 0⟩, some ⟨10, 0, 0⟩] true
      = some ([some ⟨0, 0, 0⟩, none, some ⟨10, 0, 0⟩], true) ∧
    (runKmeansOnPCA 32767 3 exampleTiedObjects [[], [], []] exampleConfig (fun i => i) 1).map
        Prod.fst
      = some ⟨[some ⟨0, 0, 0⟩, none, some ⟨10, 0, 0⟩], [[0, 1], [], [2]], true, 1⟩ := by
  decide!

/-! ## Seeded clustering: the local maxima are apart -/

theorem outsideWindow_symm (d : ℚ) (cli clj : Cluster) :
    outsideWindow d cli clj = outsideWindow d clj cli := by
  unfold outsideWindow
  rw [abs_sub_comm clj.com.x cli.com.x, abs_sub_comm clj.com.z cli.com.z]

theorem isLocalMax_dominates (d : ℚ) (preClusters : List Cluster) (i j : Nat)
    (cli clj : Cluster) (hi : isLocalMax d preClusters i cli = true)
    (hj : preClusters[j]? = some clj) (hij : j ≠ i) (hwin : outsideWindow d cli clj = false) :
    clj.density ≤ cli.density ∧ (clj.density = cli.density → j < i) := by
  unfold isLocalMax at hi
  rw [localMaxLoop_eq_true_iff] at hi
  exact hi.2 (j, clj) (List.mk_mem_enum_iff_getElem?.mpr hj) hij hwin

/-- C33: for every pre-cluster list and every density window, two different
pre-clusters that are both taken as local maxima by `runSeededClustering` are not inside
each other's window: their centers of mass differ by more than `densityWindow` in `x` or
in `z`. -/
theorem local_maxima_not_neighbours (d : ℚ) (preClusters : List Cluster) (i j : Nat)
    (cli clj : Cluster) (hci : preClusters[i]? = some cli) (hcj : preClusters[j]? = some clj)
    (hij : i ≠ j) (hi : isLocalMax d preClusters i cli = true)
    (hj : isLocalMax d preClusters j clj = true) :
    |clj.com.x - cli.com.x| > d ∨ |clj.com.z - cli.com.z| > d := by
  by_contra hnot
  have hwin : outsideWindow d cli clj = false := by
    unfold outsideWindow
    rw [not_or] at hnot
    rw [decide_eq_false hnot.1, decide_eq_false hnot.2]
    rfl
  have h1 := isLocalMax_dominates d preClusters i j cli clj hi hcj (Ne.symm hij) hwin
  have h2 := isLocalMax_dominates d preClusters j i clj cli hj hci hij
    (by rw [outsideWindow_symm]; exact hwin)
  have heq : clj.density = cli.density := le_antisymm h1.1 h2.1
  have hlt1 := h1.2 heq
  have hlt2 := h2.2 heq.symm
  omega

/-- C33 at three pre-clusters of which the second and the third are taken as local
maxima: their centers of mass are `(2/5, 1, 1/10)` and `(10, 0, 0)`. -/
theorem local_maxima_not_neighbours_witness :
    ∃ cli clj, exampleDensityData.preClusters[1]? = some cli ∧
      exampleDensityData.preClusters[2]? = some clj ∧ (1 : Nat) ≠ 2 ∧
      isLocalMax (1 / 2) exampleDensityData.preClusters 1 cli = true ∧
      isLocalMax (1 / 2) exampleDensityData.preClusters 2 clj = true ∧
      (|clj.com.x - cli.com.x| > 1 / 2 ∨ |clj.com.z - cli.com.z| > 1 / 2) :=
  have h1 : isLocalMax (1 / 2) exampleDensityData.preClusters 1
      (exampleDensityData.preClusters.get ⟨1, by decide⟩) = true := by decide!
  have h2 : isLocalMax (1 / 2) exampleDensityData.preClusters 2
      (exampleDensityData.preClusters.get ⟨2, by decide⟩) = true := by decide!
  ⟨_, _, rfl, rfl, by decide, h1, h2,
    local_maxima_not_neighbours (1 / 2) exampleDensityData.preClusters 1 2 _ _ rfl rfl
      (by decide) h1 h2⟩

/-! ## Outlier removal: the core grows with the core size -/

theorem coreOf_points_mono (cov : ℚ × ℚ × ℚ) (s1 s2 : ℚ) (h : s1 ≤ s2) (cl : Cluster) :
    (coreOf cov s1 cl).points.Sublist (coreOf cov s2 cl).points := by
  rw [coreOf_points, coreOf_points]
  apply List.monotone_filter_right
  intro p hp
  rw [decide_eq_true_iff] at hp ⊢
  exact le_trans hp h

/-- C35: for the same final clusters with `D ≠ 0` and `0 ≤ c1 ≤ c2`, `cleanupClusters`
has a value with `clusterCoreSize = c1` and with `clusterCoreSize = c2`, and cluster by
cluster the points of the core with `c1` are a sub-sequence of the points of the core
with `c2`: every point kept with `c1` is kept with `c2`. -/
theorem cleanupClusters_core_monotone (ds : DataSet) (config1 config2 : Config)
    (hD : (pooledCovariance ds.clusters).1 * (pooledCovariance ds.clusters).2.1
      - (pooledCovariance ds.clusters).2.2 ^ 2 ≠ 0)
    (h0 : 0 ≤ config1.clusterCoreSize)
    (h12 : config1.clusterCoreSize ≤ config2.clusterCoreSize) :
    ∃ ds1 ds2, cleanupClusters ds config1 = some ds1 ∧ cleanupClusters ds config2 = some ds2 ∧
      List.Forall₂
        (fun cl1 cl2 => cl1.points = cl2.points ∧
          ∃ core1 core2, cl1.core = some core1 ∧ cl2.core = some core2 ∧
            core1.points.Sublist core2.points ∧ ∀ p ∈ core1.points, p ∈ core2.points)
        ds1.clusters ds2.clusters := by
  have hdet : covDet (covariance (covSums ds.clusters)) ≠ 0 := by
    rw [covariance_eq_pooled]
    unfold covDet
    rw [← pow_two]
    exact hD
  have hsome1 := cleanupClusters_isSome_of_det_ne_zero ds config1 hdet
  have hsome2 := cleanupClusters_isSome_of_det_ne_zero ds config2 hdet
  have hget1 := (Option.some_get hsome1).symm
  have hget2 := (Option.some_get hsome2).symm
  refine ⟨_, _, hget1, hget2, ?_⟩
  rw [cleanupClusters_eq_some ds _ config1 hget1, cleanupClusters_eq_some ds _ config2 hget2,
    List.forall₂_map_left_iff, List.forall₂_map_right_iff, List.forall₂_same]
  intro cl _
  have hsq : config1.clusterCoreSize * config1.clusterCoreSize
      ≤ config2.clusterCoreSize * config2.clusterCoreSize :=
    mul_le_mul h12 h12 h0 (le_trans h0 h12)
  have hsub := coreOf_points_mono (covariance (covSums ds.clusters)) _ _ hsq cl
  exact ⟨rfl, _, _, rfl, rfl, hsub, fun p hp => hsub.subset hp⟩

/-- C35 at a cluster of three points around its seed, with the core sizes `2` and `3`
(the deviations of the points are `6`, `6` and `0`). -/
theorem cleanupClusters_core_monotone_witness :
    ((pooledCovariance exampleCleanupData.clusters).1
        * (pooledCovariance exampleCleanupData.clusters).2.1
      - (pooledCovariance exampleCleanupData.clusters).2.2 ^ 2 ≠ 0) ∧
    0 ≤ exampleConfig.clusterCoreSize ∧
    exampleConfig.clusterCoreSize ≤ exampleLargeCoreConfig.clusterCoreSize ∧
    ∃ ds1 ds2, cleanupClusters exampleCleanupData exampleConfig = some ds1 ∧
      cleanupClusters exampleCleanupData exampleLargeCoreConfig = some ds2 ∧
      List.Forall₂
        (fun cl1 cl2 => cl1.points = cl2.points ∧
          ∃ core1 core2, cl1.core = some core1 ∧ cl2.core = some core2 ∧
            core1.points.Sublist core2.points ∧ ∀ p ∈ core1.points, p ∈ core2.points)
        ds1.clusters ds2.clusters :=
  have h0 : 0 ≤ exampleConfig.clusterCoreSize := by decide!
  have h12 : exampleConfig.clusterCoreSize ≤ exampleLargeCoreConfig.clusterCoreSize := by
    decide!
  ⟨exampleCleanupData_det, h0, h12,
    cleanupClusters_core_monotone exampleCleanupData exampleConfig exampleLargeCoreConfig
      exampleCleanupData_det h0 h12⟩

/-! ## Unsupervised classification: the class ids of the three groups -/

theorem groupClassIds_three (r : Int) (g0 g1 g2 : List Nat) :
    (groupClassIds 3 r [g0, g1, g2].enum 0).Perm [0, 1, 2] := by
  have e : [g0, g1, g2].enum = [(0, g0), (1, g1), (2, g2)] := rfl
  rw [e]
  simp only [groupClassIds, thisClassId]
  by_cases h0 : ((0 : Nat) : Int) = r
  · have h1 : ¬ ((1 : Nat) : Int) = r := by omega
    have h2 : ¬ ((2 : Nat) : Int) = r := by omega
    simp only [h0, h1, h2, if_true, if_false]
    decide
  · by_cases h1 : ((1 : Nat) : Int) = r
    · have h2 : ¬ ((2 : Nat) : Int) = r := by omega
      simp only [h0, h1, h2, if_true, if_false]
      decide
    · by_cases h2 : ((2 : Nat) : Int) = r
      · simp only [h0, h1, h2, if_true, if_false]
        decide
      · simp only [h0, h1, h2, if_false]
        decide

theorem setGroupClassId_getElem (v : Int) (group : List Nat) (inputs : List Cluster) (k : Nat)
    (obj : Cluster) (h : (setGroupClassId v group inputs)[k]? = some obj) :
    ∃ obj0, inputs[k]? = some obj0 ∧ obj.classId = if k ∈ group then v else obj0.classId := by
  induction group generalizing inputs with
  | nil => exact ⟨obj, h, by simp⟩
  | cons j group ih =>
    have h1 : (setGroupClassId v group
        (inputs.modify (fun cl => { cl with classId := v }) j))[k]? = some obj := h
    obtain ⟨obj1, hobj1, hcl⟩ := ih _ h1
    rw [List.getElem?_modify] at hobj1
    cases hin : inputs[k]? with
    | none => simp [hin] at hobj1
    | some obj0 =>
      simp only [hin, Option.map_eq_map, Option.map_some', Option.some.injEq] at hobj1
      refine ⟨obj0, rfl, ?_⟩
      rw [hcl, ← hobj1]
      by_cases hjk : j = k
      · subst hjk
        simp
      · have hkj : ¬ k = j := fun e => hjk e.symm
        simp [hjk, hkj]

theorem labelLoop_untouched (nGroups : Nat) (iReferees : Int) (groups : List (List Nat))
    (j : Nat) (classId : Int) (inputs : List Cluster) (k : Nat) (obj : Cluster)
    (hk : ∀ g ∈ groups, k ∉ g)
    (h : (labelLoop nGroups iReferees (groups.enumFrom j) classId inputs)[k]? = some obj) :
    ∃ obj0, inputs[k]? = some obj0 ∧ obj.classId = obj0.classId := by
  induction groups generalizing j classId inputs with
  | nil => exact ⟨obj, h, rfl⟩
  | cons group rest ih =>
    rw [List.enumFrom_cons] at h
    unfold labelLoop at h
    obtain ⟨obj1, hobj1, hcl1⟩ :=
      ih (j + 1) _ _ (fun g hg => hk g (List.mem_cons_of_mem _ hg)) h
    obtain ⟨obj0, hobj0, hcl0⟩ := setGroupClassId_getElem _ group inputs k obj1 hobj1
    rw [if_neg (hk group (List.mem_cons_self _ _))] at hcl0
    exact ⟨obj0, hobj0, hcl1.trans hcl0⟩

theorem labelLoop_classId (nGroups : Nat) (iReferees : Int) (groups : List (List Nat))
    (j : Nat) (classId : Int) (inputs : List Cluster) (k : Nat) (obj : Cluster) (i : Nat)
    (g : List Nat)
    (h : (labelLoop nGroups iReferees (groups.enumFrom j) classId inputs)[k]? = some obj)
    (hg : groups[i]? = some g) (hkg : k ∈ g)
    (hlast : ∀ (i1 : Nat) (g1 : List Nat), i < i1 → groups[i1]? = some g1 → k ∉ g1) :
    (groupClassIds nGroups iReferees (groups.enumFrom j) classId)[i]? = some obj.classId := by
  induction groups generalizing j classId inputs i with
  | nil => simp at hg
  | cons group rest ih =>
    rw [List.enumFrom_cons] at h ⊢
    unfold labelLoop at h
    unfold groupClassIds
    cases i with
    | zero =>
      have e : group = g := by simpa using hg
      subst e
      have hrest : ∀ g1 ∈ rest, k ∉ g1 := by
        intro g1 hg1
        obtain ⟨i1, hi1⟩ := List.getElem?_of_mem hg1
        exact hlast (i1 + 1) g1 (Nat.succ_pos _) (by simpa using hi1)
      obtain ⟨obj1, hobj1, hcl1⟩ := labelLoop_untouched _ _ rest (j + 1) _ _ k obj hrest h
      obtain ⟨obj0, _, hcl0⟩ := setGroupClassId_getElem _ group inputs k obj1 hobj1
      rw [if_pos hkg] at hcl0
      rw [List.getElem?_cons_zero, hcl1, hcl0]
    | succ i =>
      rw [List.getElem?_cons_succ]
      apply ih (j + 1) _ _ i h (by simpa using hg)
      intro i1 g1 hi1 hg1
      exact hlast (i1 + 1) g1 (by omega) (by simpa using hg1)

/-- C36: for every three k-means groups, whatever their sizes, the class ids that the
labelling loop of `runPCA` gives to the three groups are `0`, `1` and `2` in some order,
so they are pairwise distinct; and every object that is a member of one group only has
the class id of that group after the labelling. -/
theorem classIds_of_three_groups (g0 g1 g2 : List Nat) :
    (groupClassIds 3 (refereesIndex [g0, g1, g2]) [g0, g1, g2].enum 0).Perm [0, 1, 2] ∧
    (groupClassIds 3 (refereesIndex [g0, g1, g2]) [g0, g1, g2].enum 0).Nodup ∧
    ∀ (inputs : List Cluster) (k : Nat) (obj : Cluster) (i : Nat) (g : List Nat),
      (labelGroups [g0, g1, g2] inputs)[k]? = some obj →
      [g0, g1, g2][i]? = some g → k ∈ g →
      (∀ (j : Nat) (gj : List Nat), j ≠ i → [g0, g1, g2][j]? = some gj → k ∉ gj) →
      (groupClassIds 3 (refereesIndex [g0, g1, g2]) [g0, g1, g2].enum 0)[i]?
        = some obj.classId := by
  have hperm := groupClassIds_three (refereesIndex [g0, g1, g2]) g0 g1 g2
  refine ⟨hperm, hperm.nodup_iff.mpr (by decide), ?_⟩
  intro inputs k obj i g h hg hkg hother
  exact labelLoop_classId 3 (refereesIndex [g0, g1, g2]) [g0, g1, g2] 0 0 inputs k obj i g h
    hg hkg (fun j gj hj hgj => hother j gj (by omega) hgj)

/-! ## Outlier removal: the sign of the determinant and of the deviation -/

theorem sum_sq_comb (o : List (ℚ × ℚ)) (f g : ℚ × ℚ → ℚ) (a b : ℚ) :
    (o.map (fun d => (a * f d - b * g d) * (a * f d - b * g d))).sum
      = a * a * (o.map (fun d => f d * f d)).sum - 2 * a * b * (o.map (fun d => f d * g d)).sum
        + b * b * (o.map (fun d => g d * g d)).sum := by
  induction o with
  | nil => simp
  | cons d o ih =>
    simp only [List.map_cons, List.sum_cons, ih]
    ring

theorem sum_sq_nonneg (o : List (ℚ × ℚ)) (h : ℚ × ℚ → ℚ) :
    0 ≤ (o.map (fun d => h d * h d)).sum := by
  apply List.sum_nonneg
  intro x hx
  rw [List.mem_map] at hx
  obtain ⟨d, _, rfl⟩ := hx
  exact mul_self_nonneg _

theorem sum_mul_sq_le (o : List (ℚ × ℚ)) (f g : ℚ × ℚ → ℚ) :
    (o.map (fun d => f d * g d)).sum * (o.map (fun d => f d * g d)).sum
      ≤ (o.map (fun d => f d * f d)).sum * (o.map (fun d => g d * g d)).sum := by
  have hquad : ∀ t : ℚ, 0 ≤ t * t * (o.map (fun d => f d * f d)).sum
      - 2 * t * 1 * (o.map (fun d => f d * g d)).sum
      + 1 * 1 * (o.map (fun d => g d * g d)).sum := by
    intro t
    rw [← sum_sq_comb o f g t 1]
    exact sum_sq_nonneg o (fun d => t * f d - 1 * g d)
  have hU := sum_sq_nonneg o f
  have hV := sum_sq_nonneg o g
  generalize (o.map (fun d => f d * f d)).sum = U at hquad hU ⊢
  generalize (o.map (fun d => f d * g d)).sum = S at hquad ⊢
  generalize (o.map (fun d => g d * g d)).sum = V at hquad hV ⊢
  rcases eq_or_lt_of_le hU with h0 | hpos
  · have hS : S = 0 := by
      by_contra hne
      have := hquad ((V + 1) / (2 * S))
      rw [← h0] at this
      have e : 2 * ((V + 1) / (2 * S)) * 1 * S = V + 1 := by
        field_simp
        ring
      rw [e] at this
      linarith
    rw [hS, ← h0]
    simp
  · have := hquad (S / U)
    have e : S / U * (S / U) * U - 2 * (S / U) * 1 * S + 1 * 1 * V = (U * V - S * S) / U := by
      field_simp
      ring
    rw [e] at this
    have h2 : 0 ≤ U * V - S * S := by
      by_contra hneg
      have hlt : U * V - S * S < 0 := not_le.mp hneg
      exact absurd this (not_le.mpr (div_neg_of_neg_of_pos hlt hpos))
    linarith

theorem pooledCovariance_det_nonneg (clusters : List Cluster) :
    0 ≤ (pooledCovariance clusters).1 * (pooledCovariance clusters).2.1
      - (pooledCovariance clusters).2.2 ^ 2 := by
  unfold pooledCovariance listMean
  simp only [List.length_map]
  have h := sum_mul_sq_le (seedOffsets clusters)
    (fun d => d.1 - (List.map Prod.fst (seedOffsets clusters)).sum
      / ((seedOffsets clusters).length : ℚ))
    (fun d => d.2 - (List.map Prod.snd (seedOffsets clusters)).sum
      / ((seedOffsets clusters).length : ℚ))
  simp only at h
  generalize (List.map (fun d : ℚ × ℚ => (d.1 - (List.map Prod.fst (seedOffsets clusters)).sum
      / ((seedOffsets clusters).length : ℚ)) * (d.1 - (List.map Prod.fst (seedOffsets clusters)).sum
      / ((seedOffsets clusters).length : ℚ))) (seedOffsets clusters)).sum = U at h ⊢
  generalize (List.map (fun d : ℚ × ℚ => (d.2 - (List.map Prod.snd (seedOffsets clusters)).sum
      / ((seedOffsets clusters).length : ℚ)) * (d.2 - (List.map Prod.snd (seedOffsets clusters)).sum
      / ((seedOffsets clusters).length : ℚ))) (seedOffsets clusters)).sum = V at h ⊢
  generalize (List.map (fun d : ℚ × ℚ => (d.1 - (List.map Prod.fst (seedOffsets clusters)).sum
      / ((seedOffsets clusters).length : ℚ)) * (d.2 - (List.map Prod.snd (seedOffsets clusters)).sum
      / ((seedOffsets clusters).length : ℚ))) (seedOffsets clusters)).sum = S at h ⊢
  have e : U / ((seedOffsets clusters).length : ℚ) * (V / ((seedOffsets clusters).length : ℚ))
      - (S / ((seedOffsets clusters).length : ℚ)) ^ 2
      = (U * V - S * S)
        / (((seedOffsets clusters).length : ℚ) * ((seedOffsets clusters).length : ℚ)) := by
    by_cases hn : ((seedOffsets clusters).length : ℚ) = 0
    · rw [hn]
      simp
    · field_simp
      ring
  rw [e]
  exact div_nonneg (by linarith) (mul_self_nonneg _)

theorem pooledCovariance_form_nonneg (clusters : List Cluster) (dx dz : ℚ) :
    0 ≤ dx ^ 2 * (pooledCovariance clusters).2.1 + dz ^ 2 * (pooledCovariance clusters).1
      - 2 * dx * dz * (pooledCovariance clusters).2.2 := by
  unfold pooledCovariance listMean
  simp only [List.length_map]
  have h := sum_sq_comb (seedOffsets clusters)
    (fun d => d.2 - (List.map Prod.snd (seedOffsets clusters)).sum
      / ((seedOffsets clusters).length : ℚ))
    (fun d => d.1 - (List.map Prod.fst (seedOffsets clusters)).sum
      / ((seedOffsets clusters).length : ℚ)) dx dz
  have hnn := sum_sq_nonneg (seedOffsets clusters)
    (fun d => dx * (d.2 - (List.map Prod.snd (seedOffsets clusters)).sum
        / ((seedOffsets clusters).length : ℚ))
      - dz * (d.1 - (List.map Prod.fst (seedOffsets clusters)).sum
        / ((seedOffsets clusters).length : ℚ)))
  simp only at h hnn
  rw [h] at hnn
  have hcomm : (List.map (fun d : ℚ × ℚ => (d.2 - (List.map Prod.snd (seedOffsets clusters)).sum
      / ((seedOffsets clusters).length : ℚ)) * (d.1 - (List.map Prod.fst (seedOffsets clusters)).sum
      / ((seedOffsets clusters).length : ℚ))) (seedOffsets clusters))
      = List.map (fun d : ℚ × ℚ => (d.1 - (List.map Prod.fst (seedOffsets clusters)).sum
      / ((seedOffsets clusters).length : ℚ)) * (d.2 - (List.map Prod.snd (seedOffsets clusters)).sum
      / ((seedOffsets clusters).length : ℚ))) (seedOffsets clusters) := by
    apply List.map_congr_left
    intro d _
    ring
  rw [hcomm] at hnn
  generalize (List.map (fun d : ℚ × ℚ => (d.1 - (List.map Prod.fst (seedOffsets clusters)).sum
      / ((seedOffsets clusters).length : ℚ)) * (d.1 - (List.map Prod.fst (seedOffsets clusters)).sum
      / ((seedOffsets clusters).length : ℚ))) (seedOffsets clusters)).sum = U at hnn ⊢
  generalize (List.map (fun d : ℚ × ℚ => (d.2 - (List.map Prod.snd (seedOffsets clusters)).sum
      / ((seedOffsets clusters).length : ℚ)) * (d.2 - (List.map Prod.snd (seedOffsets clusters)).sum
      / ((seedOffsets clusters).length : ℚ))) (seedOffsets clusters)).sum = V at hnn ⊢
  generalize (List.map (fun d : ℚ × ℚ => (d.1 - (List.map Prod.fst (seedOffsets clusters)).sum
      / ((seedOffsets clusters).length : ℚ)) * (d.2 - (List.map Prod.snd (seedOffsets clusters)).sum
      / ((seedOffsets clusters).length : ℚ))) (seedOffsets clusters)).sum = S at hnn ⊢
  have e : dx ^ 2 * (V / ((seedOffsets clusters).length : ℚ))
      + dz ^ 2 * (U / ((seedOffsets clusters).length : ℚ))
      - 2 * dx * dz * (S / ((seedOffsets clusters).length : ℚ))
      = (dx * dx * V - 2 * dx * dz * S + dz * dz * U) / ((seedOffsets clusters).length : ℚ) := by
    ring
  rw [e]
  exact div_nonneg hnn (Nat.cast_nonneg _)

theorem claimedDeviation_at_seed (cov : ℚ × ℚ × ℚ) (seed : Point) (p : CloudPoint)
    (hx : p.x = seed.x) (hz : p.z = seed.z) : claimedDeviation cov seed p = 0 := by
  unfold claimedDeviation
  rw [hx, hz]
  simp

/-- C34: in exact arithmetic the determinant `D = sxx·szz − sxz²` of the pooled
covariance of `cleanupClusters` is not negative; and when `D > 0`, the normalised
deviation `dS` of every point from every seed position is not negative,
`cleanupClusters` has a value, and a point of a cluster that lies at the seed position
of the cluster in `x` and in `z` is in the core of the cluster, whatever
`clusterCoreSize` is. -/
theorem cleanupClusters_det_nonneg (ds : DataSet) (config : Config) :
    covDet (covariance (covSums ds.clusters))
      = (pooledCovariance ds.clusters).1 * (pooledCovariance ds.clusters).2.1
        - (pooledCovariance ds.clusters).2.2 ^ 2 ∧
    0 ≤ (pooledCovariance ds.clusters).1 * (pooledCovariance ds.clusters).2.1
      - (pooledCovariance ds.clusters).2.2 ^ 2 ∧
    (0 < (pooledCovariance ds.clusters).1 * (pooledCovariance ds.clusters).2.1
        - (pooledCovariance ds.clusters).2.2 ^ 2 →
      (∀ (seed : Point) (p : CloudPoint),
        0 ≤ claimedDeviation (pooledCovariance ds.clusters) seed p) ∧
      ∃ ds1, cleanupClusters ds config = some ds1 ∧
        ∀ cl ∈ ds1.clusters, ∃ core, cl.core = some core ∧
          ∀ p ∈ cl.points, p.x = cl.seed.x → p.z = cl.seed.z → p ∈ core.points) := by
  refine ⟨?_, pooledCovariance_det_nonneg ds.clusters, fun hD => ⟨?_, ?_⟩⟩
  · rw [covariance_eq_pooled]
    unfold covDet
    rw [← pow_two]
  · intro seed p
    unfold claimedDeviation
    exact div_nonneg (pooledCovariance_form_nonneg ds.clusters _ _) (le_of_lt hD)
  · have hdet : covDet (covariance (covSums ds.clusters)) ≠ 0 := by
      rw [covariance_eq_pooled]
      unfold covDet
      rw [← pow_two]
      exact ne_of_gt hD
    have hsome := cleanupClusters_isSome_of_det_ne_zero ds config hdet
    have hget := (Option.some_get hsome).symm
    have hcl := cleanupClusters_eq_some ds _ config hget
    rw [covariance_eq_pooled] at hcl
    refine ⟨_, hget, ?_⟩
    intro cl hmem
    rw [hcl, List.mem_map] at hmem
    obtain ⟨cl0, _, rfl⟩ := hmem
    refine ⟨_, rfl, ?_⟩
    intro p hp hx hz
    rw [coreOf_points, List.mem_filter, decide_eq_true_iff]
    refine ⟨hp, ?_⟩
    have h0 : claimedDeviation (pooledCovariance ds.clusters) cl0.seed p = 0 :=
      claimedDeviation_at_seed _ _ _ hx hz
    show claimedDeviation (pooledCovariance ds.clusters) cl0.seed p
      ≤ config.clusterCoreSize * config.clusterCoreSize
    rw [h0]
    exact mul_self_nonneg _

theorem exampleCleanupData_det_pos :
    0 < (pooledCovariance exampleCleanupData.clusters).1
        * (pooledCovariance exampleCleanupData.clusters).2.1
      - (pooledCovariance exampleCleanupData.clusters).2.2 ^ 2 := by
  decide!

/-- C34 at a cluster of three points of which the third lies at the seed position: the
determinant is positive. -/
theorem cleanupClusters_det_nonneg_witness :
    0 < (pooledCovariance exampleCleanupData.clusters).1
        * (pooledCovariance exampleCleanupData.clusters).2.1
      - (pooledCovariance exampleCleanupData.clusters).2.2 ^ 2 ∧
    (∀ (seed : Point) (p : CloudPoint),
      0 ≤ claimedDeviation (pooledCovariance exampleCleanupData.clusters) seed p) ∧
    ∃ ds1, cleanupClusters exampleCleanupData exampleConfig = some ds1 ∧
      ∀ cl ∈ ds1.clusters, ∃ core, cl.core = some core ∧
        ∀ p ∈ cl.points, p.x = cl.seed.x → p.z = cl.seed.z → p ∈ core.points :=
  ⟨exampleCleanupData_det_pos,
    (cleanupClusters_det_nonneg exampleCleanupData exampleConfig).2.2
      exampleCleanupData_det_pos⟩

/-! ## Seeded clustering: at least one seed is accepted -/

theorem exists_last_with_density (preClusters : List Cluster) (D : ℚ)
    (hex : ∃ c ∈ preClusters, c.density = D) :
    ∃ i c, preClusters[i]? = some c ∧ c.density = D ∧
      ∀ (j : Nat) (cj : Cluster), i < j → preClusters[j]? = some cj → cj.density ≠ D := by
  induction preClusters with
  | nil =>
    obtain ⟨c, hc, _⟩ := hex
    exact absurd hc (List.not_mem_nil c)
  | cons a rest ih =>
    by_cases hrest : ∃ c ∈ rest, c.density = D
    · obtain ⟨i, c, hi, hc, hlast⟩ := ih hrest
      refine ⟨i + 1, c, by simpa using hi, hc, ?_⟩
      intro j cj hj hcj
      cases j with
      | zero => omega
      | succ j => exact hlast j cj (by omega) (by simpa using hcj)
    · have ha : a.density = D := by
        obtain ⟨c, hc, hcD⟩ := hex
        rcases List.mem_cons.mp hc with rfl | h
        · exact hcD
        · exact absurd ⟨c, h, hcD⟩ hrest
      refine ⟨0, a, by simp, ha, ?_⟩
      intro j cj hj hcj
      cases j with
      | zero => omega
      | succ j =>
        intro hD
        have hmem : cj ∈ rest := List.getElem?_mem (by simpa using hcj)
        exact hrest ⟨cj, hmem, hD⟩

theorem exists_localMax_of_max (d : ℚ) (preClusters : List Cluster) (D : ℚ)
    (hle : ∀ c ∈ preClusters, c.density ≤ D) (hex : ∃ c ∈ preClusters, c.density = D) :
    ∃ i c, preClusters[i]? = some c ∧ c.density = D ∧ isLocalMax d preClusters i c = true := by
  obtain ⟨i, c, hi, hc, hlast⟩ := exists_last_with_density preClusters D hex
  refine ⟨i, c, hi, hc, ?_⟩
  unfold isLocalMax
  rw [localMaxLoop_eq_true_iff]
  refine ⟨rfl, ?_⟩
  intro x hx hne _
  have hget : preClusters[x.1]? = some x.2 := List.mem_enum_iff_getElem?.mp hx
  have hxle : x.2.density ≤ D := hle x.2 (List.getElem?_mem hget)
  rw [hc]
  refine ⟨hxle, fun heq => ?_⟩
  by_contra hnlt
  have hlt : i < x.1 := by omega
  exact hlast x.1 x.2 hlt hget heq

theorem computeDensities_unit_max (ds0 ds : DataSet) (config : Config)
    (hne : ds0.preClusters ≠ []) (hdens : computeDensities ds0 config = some ds) :
    ds.clusters = ds0.clusters ∧ (∀ c ∈ ds.preClusters, c.density ≤ 1) ∧
    ∃ c ∈ ds.preClusters, c.density = 1 := by
  obtain ⟨hge, c0, hc0, hatt⟩ := maxDensity_counted config.densityWindow ds0.preClusters hne
  have heq := computeDensities_eq ds0 config hne
  rw [hdens] at heq
  generalize maxDensity (ds0.preClusters.map (fun cli =>
      { cli with density := rawDensity config.densityWindow ds0.preClusters cli })) = m
    at hge hatt heq
  by_cases hm : m = 0
  · rw [if_pos hm] at heq
    exact absurd heq (by simp)
  · rw [if_neg hm] at heq
    have hds := Option.some.inj heq
    have hpos : 0 < m := by
      have h0 := rawDensity_nonneg config.densityWindow ds0.preClusters c0
      rw [hatt] at h0
      exact lt_of_le_of_ne h0 (Ne.symm hm)
    rw [hds]
    refine ⟨rfl, ?_, ?_⟩
    · intro c hc
      simp only [List.mem_map] at hc
      obtain ⟨c1, hc1, rfl⟩ := hc
      exact (div_le_one hpos).mpr (hge c1 hc1)
    · refine ⟨_, List.mem_map_of_mem _ hc0, ?_⟩
      show rawDensity config.densityWindow ds0.preClusters c0 / m = 1
      rw [hatt]
      exact div_self hm

/-- C32: for a non-empty list of pre-clusters whose densities have been set by
`computeDensities`, a data set without final clusters yet, and a seed density threshold
of at most `1`, `runSeededClustering` finds at least one local maximum and accepts at
least one seed, has a value, and its list of final clusters is not empty (so index `0`
exists when the leftovers are assigned). -/
theorem runSeededClustering_accepts_a_seed (ds0 ds : DataSet) (config : Config)
    (hne : ds0.preClusters ≠ []) (hdens : computeDensities ds0 config = some ds)
    (hfresh : ds0.clusters = []) (hth : config.seedDensityThreshold ≤ 1) :
    (findSeeds config.densityWindow ds.preClusters ds.preClusters.enum ([], [])).1 ≠ [] ∧
    acceptedSeeds ds config ≠ [] ∧
    ∃ ds1, runSeededClustering ds config = some ds1 ∧ ds1.clusters ≠ [] := by
  obtain ⟨hcl, hle, hex⟩ := computeDensities_unit_max ds0 ds config hne hdens
  obtain ⟨i, c, hi, hc, hmax⟩ :=
    exists_localMax_of_max config.densityWindow ds.preClusters 1 hle hex
  have hmem : seedCluster c
      ∈ (findSeeds config.densityWindow ds.preClusters ds.preClusters.enum ([], [])).1 := by
    rw [findSeeds_eq_filter]
    simp only [List.nil_append, List.mem_map, List.mem_filter]
    exact ⟨(i, c), ⟨List.mk_mem_enum_iff_getElem?.mpr hi, hmax⟩, rfl⟩
  have hacc : seedCluster c ∈ acceptedSeeds ds config := by
    rw [(acceptedSeeds_eq ds config).2, List.mem_filter]
    refine ⟨hmem, ?_⟩
    have hd : (seedCluster c).density = 1 := hc
    rw [hd]
    simpa using hth
  have hacc_ne : acceptedSeeds ds config ≠ [] := List.ne_nil_of_mem hacc
  obtain ⟨res, hres, hR⟩ :=
    runSeededClustering_absorbed ds config (by rw [hcl]; exact hfresh) hacc_ne
  refine ⟨List.ne_nil_of_mem hmem, hacc_ne, _, hres, ?_⟩
  intro h0
  have hlen := hR.length_eq
  have h1 : res = [] := h0
  rw [h1] at hlen
  exact hacc_ne (List.length_eq_zero.mp hlen)

theorem examplePreClusterData_densities :
    (computeDensities examplePreClusterData exampleConfig).isSome = true := by
  decide!

/-- C32 at three pre-clusters with the default configuration. -/
theorem runSeededClustering_accepts_a_seed_witness :
    examplePreClusterData.preClusters ≠ [] ∧ examplePreClusterData.clusters = [] ∧
    exampleConfig.seedDensityThreshold ≤ 1 ∧
    ∃ ds, computeDensities examplePreClusterData exampleConfig = some ds ∧
      (findSeeds exampleConfig.densityWindow ds.preClusters ds.preClusters.enum ([], [])).1
        ≠ [] ∧
      acceptedSeeds ds exampleConfig ≠ [] ∧
      ∃ ds1, runSeededClustering ds exampleConfig = some ds1 ∧ ds1.clusters ≠ [] :=
  have hne : examplePreClusterData.preClusters ≠ [] := by simp [examplePreClusterData]
  have hth : exampleConfig.seedDensityThreshold ≤ 1 := by decide!
  ⟨hne, rfl, hth, _, (Option.some_get examplePreClusterData_densities).symm,
    runSeededClustering_accepts_a_seed examplePreClusterData _ exampleConfig hne
      (Option.some_get examplePreClusterData_densities).symm rfl hth⟩

/-! ## K-means: the loop -/

theorem kmeansLoop_succ (clusters : List Cluster) (n : Nat) (s : KmeansState) :
    kmeansLoop clusters (n + 1) s
      = if s.converged then some s
        else match kmeansIteration clusters s with
          | none => none
          | some s1 => kmeansLoop clusters n s1 := by
  rw [kmeansLoop]
  unfold kmeansIteration
  by_cases hc : s.converged = true
  · simp [hc]
  · simp only [hc, Bool.false_eq_true, if_false]
    cases assignStep s.seeds clusters s.pcaClusters with
    | none => rfl
    | some groups =>
      simp only
      cases updateLoop clusters groups.enum s.seeds true with
      | none => rfl
      | some r => rfl

theorem kmeansLoop_trace (clusters : List Cluster) (n : Nat) (s0 s : KmeansState)
    (h : kmeansLoop clusters n s0 = some s) :
    ∃ k, k ≤ n ∧ kmeansIterations clusters k s0 = some s ∧
      s.nIterations = s0.nIterations + (k : Int) ∧
      (∀ j, j < k → ∃ sj, kmeansIterations clusters j s0 = some sj ∧ sj.converged = false) ∧
      (s.converged = true ∨ k = n) := by
  induction n generalizing s0 with
  | zero =>
    simp only [kmeansLoop, Option.some.injEq] at h
    subst h
    exact ⟨0, le_refl _, rfl, by simp, fun j hj => absurd hj (Nat.not_lt_zero j), Or.inr rfl⟩
  | succ n ih =>
    rw [kmeansLoop_succ] at h
    by_cases hc : s0.converged = true
    · rw [if_pos hc] at h
      have e : s0 = s := Option.some.inj h
      subst e
      exact ⟨0, Nat.zero_le _, rfl, by simp, fun j hj => absurd hj (Nat.not_lt_zero j),
        Or.inl hc⟩
    · rw [if_neg hc] at h
      cases hit : kmeansIteration clusters s0 with
      | none => simp [hit] at h
      | some s1 =>
        simp only [hit] at h
        obtain ⟨k, hk, hiter, hn, hbefore, hstop⟩ := ih s1 h
        have hs1 : s1.nIterations = s0.nIterations + 1 := by
          unfold kmeansIteration at hit
          cases ha : assignStep s0.seeds clusters s0.pcaClusters with
          | none => simp [ha] at hit
          | some groups =>
            simp only [ha] at hit
            cases hu : updateLoop clusters groups.enum s0.seeds true with
            | none => simp [hu] at hit
            | some r =>
              simp only [hu, Option.some.injEq] at hit
              rw [← hit]
        refine ⟨k + 1, Nat.succ_le_succ hk, ?_, ?_, ?_, ?_⟩
        · simp only [kmeansIterations, hit]
          exact hiter
        · rw [hn, hs1]
          push_cast
          ring
        · intro j hj
          cases j with
          | zero => exact ⟨s0, rfl, by simpa using hc⟩
          | succ j =>
            obtain ⟨sj, hsj, hconv⟩ := hbefore j (by omega)
            refine ⟨sj, ?_, hconv⟩
            simp only [kmeansIterations, hit]
            exact hsj
        · rcases hstop with h1 | h1
          · exact Or.inl h1
          · exact Or.inr (by rw [h1])

theorem seedMoved_eq_false_iff (newSeed oldSeed : Option Point) :
    seedMoved newSeed oldSeed = false ↔
      ∀ n o, newSeed = some n → oldSeed = some o → n.dist3DSq o ≤ 1 / 1000 := by
  cases newSeed with
  | none => simp [seedMoved]
  | some n =>
    cases oldSeed with
    | none => simp [seedMoved]
    | some o => simp [seedMoved]

theorem updateLoop_result (clusters : List Cluster) (l : List (List Nat)) (n : Nat)
    (seeds : List (Option Point)) (converged : Bool) (newSeeds : List (Option Point))
    (converged1 : Bool)
    (h : updateLoop clusters (l.enumFrom n) seeds converged = some (newSeeds, converged1)) :
    newSeeds.length = seeds.length ∧
    (∀ i, i < n → newSeeds[i]? = seeds[i]?) ∧
    (∀ (i : Nat) (group : List Nat), l[i]? = some group →
      newSeeds[n + i]? = some (groupMean clusters group)) ∧
    (converged1 = true ↔ converged = true ∧
      ∀ (i : Nat) (group : List Nat) (old : Option Point), l[i]? = some group →
        seeds[n + i]? = some old → seedMoved (groupMean clusters group) old = false) := by
  induction l generalizing n seeds converged with
  | nil =>
    simp only [List.enumFrom_nil, updateLoop, Option.some.injEq, Prod.mk.injEq] at h
    obtain ⟨h1, h2⟩ := h
    subst h1
    subst h2
    exact ⟨rfl, fun i _ => rfl, by simp, by simp⟩
  | cons group rest ih =>
    rw [List.enumFrom_cons] at h
    unfold updateLoop at h
    simp only [List.get?_eq_getElem?] at h
    cases hold : seeds[n]? with
    | none => simp [hold] at h
    | some oldSeed =>
      simp only [hold] at h
      have hn : n < seeds.length := (List.getElem?_eq_some_iff.mp hold).1
      obtain ⟨hlen, hkeep, hset, hconv⟩ := ih (n + 1) _ _ h
      refine ⟨by rw [hlen, List.length_set], ?_, ?_, ?_⟩
      · intro i hi
        rw [hkeep i (by omega), List.getElem?_set_ne (by omega)]
      · intro i g hg
        cases i with
        | zero =>
          have e : group = g := by simpa using hg
          rw [← e, Nat.add_zero, hkeep n (Nat.lt_succ_self n), List.getElem?_set_self hn]
        | succ i =>
          have hg1 : rest[i]? = some g := by simpa using hg
          rw [show n + (i + 1) = n + 1 + i by omega]
          exact hset i g hg1
      · rw [hconv]
        constructor
        · rintro ⟨hc, hall⟩
          have hmoved : seedMoved (groupMean clusters group) oldSeed = false := by
            by_contra hm
            rw [Bool.not_eq_false] at hm
            rw [hm] at hc
            simp at hc
          rw [hmoved] at hc
          refine ⟨by simpa using hc, ?_⟩
          intro i g old hg hold1
          cases i with
          | zero =>
            have e : group = g := by simpa using hg
            rw [Nat.add_zero, hold] at hold1
            rw [← e, ← Option.some.inj hold1]
            exact hmoved
          | succ i =>
            have hg1 : rest[i]? = some g := by simpa using hg
            apply hall i g old hg1
            rw [List.getElem?_set_ne (by omega), show n + 1 + i = n + (i + 1) by omega]
            exact hold1
        · rintro ⟨hc, hall⟩
          have hmoved : seedMoved (groupMean clusters group) oldSeed = false :=
            hall 0 group oldSeed (by simp) (by rw [Nat.add_zero]; exact hold)
          refine ⟨by rw [hmoved]; simpa using hc, ?_⟩
          intro i g old hg hold1
          apply hall (i + 1) g old (by simpa using hg)
          rw [List.getElem?_set_ne (by omega), show n + 1 + i = n + (i + 1) by omega] at hold1
          exact hold1

theorem kmeansIteration_converged (clusters : List Cluster) (s s1 : KmeansState)
    (h : kmeansIteration clusters s = some s1) :
    s1.nIterations = s.nIterations + 1 ∧
    assignStep s.seeds clusters s.pcaClusters = some s1.pcaClusters ∧
    (s1.converged = true ↔
      ∀ (i : Nat) (old new : Option Point), i < s1.pcaClusters.length →
        s.seeds[i]? = some old → s1.seeds[i]? = some new →
        ∀ n o, new = some n → old = some o → n.dist3DSq o ≤ 1 / 1000) := by
  unfold kmeansIteration at h
  cases ha : assignStep s.seeds clusters s.pcaClusters with
  | none => simp [ha] at h
  | some groups =>
    simp only [ha] at h
    cases hu : updateLoop clusters groups.enum s.seeds true with
    | none => simp [hu] at h
    | some r =>
      obtain ⟨newSeeds, conv⟩ := r
      simp only [hu, Option.some.injEq] at h
      subst h
      obtain ⟨_, _, hset, hconv⟩ := updateLoop_result clusters groups 0 s.seeds true _ _ hu
      refine ⟨rfl, rfl, ?_⟩
      show conv = true ↔ _
      rw [hconv]
      simp only [true_and, Nat.zero_add]
      constructor
      · intro hall i old new hi hold hnew
        have hg : groups[i]? = some groups[i] := List.getElem?_eq_getElem hi
        have h1 := hset i _ hg
        rw [Nat.zero_add, hnew] at h1
        have e : new = groupMean clusters groups[i] := Option.some.inj h1
        rw [e]
        exact (seedMoved_eq_false_iff _ _).mp (hall i _ old hg hold)
      · intro hall i g old hg hold
        have hi : i < groups.length := (List.getElem?_eq_some_iff.mp hg).1
        have h1 := hset i g hg
        rw [Nat.zero_add] at h1
        exact (seedMoved_eq_false_iff _ _).mpr (hall i old _ hi hold h1)

/-! ## K-means: the loop has a value when the objects are close to each other -/

theorem assignLoop_defined (seeds : List (Option Point)) (l : List (Nat × Cluster))
    (groups : List (List Nat))
    (h : ∀ x ∈ l, ∃ j : Nat, j < groups.length ∧ nearestSeed seeds x.2 = (j : Int)) :
    ∃ res, assignLoop seeds l groups = some res := by
  induction l generalizing groups with
  | nil => exact ⟨groups, rfl⟩
  | cons ic rest ih =>
    obtain ⟨i, cl⟩ := ic
    obtain ⟨j, hj, hjj⟩ := h (i, cl) (List.mem_cons_self _ _)
    have hjj1 : nearestSeed seeds cl = (j : Int) := hjj
    unfold assignLoop
    simp only [hjj1, List.get?_eq_getElem?, Int.toNat_ofNat]
    rw [if_neg (by omega), List.getElem?_eq_getElem hj]
    apply ih
    intro x hx
    obtain ⟨j1, hj1, hjj2⟩ := h x (List.mem_cons_of_mem _ hx)
    exact ⟨j1, by rw [List.length_set]; exact hj1, hjj2⟩

theorem nearestSeed_defined (clusters : List Cluster) (seeds : List (Option Point))
    (hs : seedsNear clusters seeds) (cl : Cluster) (hcl : cl ∈ clusters) :
    ∃ j : Nat, j < seeds.length ∧ nearestSeed seeds cl = (j : Int) := by
  rcases nearestSeed_spec seeds cl with ⟨_, hfar⟩ | ⟨j, s, hj, hjj, _⟩
  · obtain ⟨p, hp⟩ := hs.2
    obtain ⟨k, hk⟩ := List.getElem?_of_mem hp
    have h1 := hfar k p hk
    have h2 := hs.1 p hp cl hcl
    linarith
  · exact ⟨j, (List.getElem?_eq_some_iff.mp hj).1, hjj⟩

theorem list_sum_sq_shift (a : List ℚ) (t : ℚ) :
    (a.map (fun x => (x - t) * (x - t))).sum
      = (a.map (fun x => x * x)).sum - 2 * t * a.sum + (a.length : ℚ) * t * t := by
  induction a with
  | nil => simp
  | cons x a ih =>
    simp only [List.map_cons, List.sum_cons, List.length_cons, Nat.cast_add, Nat.cast_one, ih]
    ring

theorem mean_sq_le (a : List ℚ) (t : ℚ) (hne : a ≠ []) :
    (listMean a - t) * (listMean a - t) * (a.length : ℚ)
      ≤ (a.map (fun x => (x - t) * (x - t))).sum := by
  have hn : (0 : ℚ) < (a.length : ℚ) := by
    have : 0 < a.length := List.length_pos.mpr hne
    exact_mod_cast this
  have hA : a.sum = (a.length : ℚ) * listMean a := by
    unfold listMean
    field_simp
  have h1 := list_sum_sq_shift a t
  have h2 := list_sum_sq_shift a (listMean a)
  have h3 : 0 ≤ (a.map (fun x => (x - listMean a) * (x - listMean a))).sum := by
    apply List.sum_nonneg
    intro x hx
    rw [List.mem_map] at hx
    obtain ⟨y, _, rfl⟩ := hx
    exact mul_self_nonneg _
  rw [h2, hA] at h3
  rw [h1, hA]
  nlinarith [h3]

theorem sum_lt_length_mul {α : Type} (l : List α) (f : α → ℚ) (B : ℚ) (hne : l ≠ [])
    (h : ∀ x ∈ l, f x < B) : (l.map f).sum < (l.length : ℚ) * B := by
  induction l with
  | nil => exact absurd rfl hne
  | cons x l ih =>
    simp only [List.map_cons, List.sum_cons, List.length_cons, Nat.cast_add, Nat.cast_one]
    have hx := h x (List.mem_cons_self _ _)
    by_cases hl : l = []
    · subst hl
      simp only [List.map_nil, List.sum_nil, List.length_nil, Nat.cast_zero]
      linarith
    · have := ih hl (fun y hy => h y (List.mem_cons_of_mem _ hy))
      linarith

theorem sum_dist_split (members : List Cluster) (q : Point) :
    (members.map (fun m => q.dist3DSq m.pcaColor)).sum
      = ((members.map (fun m => m.pcaColor.x)).map (fun x => (x - q.x) * (x - q.x))).sum
        + ((members.map (fun m => m.pcaColor.y)).map (fun x => (x - q.y) * (x - q.y))).sum
        + ((members.map (fun m => m.pcaColor.z)).map (fun x => (x - q.z) * (x - q.z))).sum := by
  induction members with
  | nil => simp
  | cons m members ih =>
    rw [List.map_cons, List.sum_cons, ih]
    simp only [List.map_cons, List.sum_cons, Point.dist3DSq]
    ring

theorem dist_mean_lt (members : List Cluster) (q : Point) (B : ℚ) (hne : members ≠ [])
    (h : ∀ m ∈ members, q.dist3DSq m.pcaColor < B) :
    q.dist3DSq (meanPcaColor members) < B := by
  have hn : (0 : ℚ) < (members.length : ℚ) := by
    have : 0 < members.length := List.length_pos.mpr hne
    exact_mod_cast this
  have hmap : ∀ f : Cluster → ℚ, members.map f ≠ [] := by
    intro f h0
    exact hne (List.map_eq_nil_iff.mp h0)
  have hx := mean_sq_le (members.map (fun m => m.pcaColor.x)) q.x (hmap _)
  have hy := mean_sq_le (members.map (fun m => m.pcaColor.y)) q.y (hmap _)
  have hz := mean_sq_le (members.map (fun m => m.pcaColor.z)) q.z (hmap _)
  rw [List.length_map] at hx hy hz
  have hsum := sum_lt_length_mul members (fun m => q.dist3DSq m.pcaColor) B hne h
  rw [sum_dist_split] at hsum
  have hd : q.dist3DSq (meanPcaColor members) * (members.length : ℚ)
      < (members.length : ℚ) * B := by
    unfold Point.dist3DSq meanPcaColor
    simp only
    linarith
  by_contra hnot
  have hge : B ≤ q.dist3DSq (meanPcaColor members) := not_lt.mp hnot
  have : (members.length : ℚ) * B ≤ q.dist3DSq (meanPcaColor members) * (members.length : ℚ) := by
    rw [mul_comm]
    exact mul_le_mul_of_nonneg_right hge (le_of_lt hn)
  linarith

theorem forall₂_mem_right (clusters : List Cluster) (group : List Nat)
    (members : List Cluster)
    (h : List.Forall₂ (fun k cl => clusters[k]? = some cl) group members) :
    ∀ m ∈ members, m ∈ clusters := by
  induction h with
  | nil => intro m hm; exact absurd hm (List.not_mem_nil m)
  | @cons k cl group members hk _ ih =>
    intro m hm
    rcases List.mem_cons.mp hm with rfl | h1
    · exact List.getElem?_mem hk
    · exact ih m h1

theorem groupMean_near (clusters : List Cluster)
    (hnear : ∀ a ∈ clusters, ∀ b ∈ clusters, a.pcaColor.dist3DSq b.pcaColor < 99999)
    (group : List Nat) (hvalid : ∀ k ∈ group, k < clusters.length) (hne : group ≠ []) :
    ∃ p, groupMean clusters group = some p ∧
      ∀ cl ∈ clusters, cl.pcaColor.dist3DSq p < 99999 := by
  obtain ⟨members, hF, hmean⟩ := groupMean_of_valid clusters group hne hvalid
  have hmne : members ≠ [] := by
    intro h0
    have hl := hF.length_eq
    rw [h0] at hl
    exact hne (List.length_eq_zero.mp hl)
  have hmem := forall₂_mem_right clusters group members hF
  exact ⟨_, hmean, fun cl hcl =>
    dist_mean_lt members cl.pcaColor 99999 hmne (fun m hm => hnear cl hcl m (hmem m hm))⟩

theorem kmeansIteration_defined (clusters : List Cluster) (hne : clusters ≠ [])
    (hnear : ∀ a ∈ clusters, ∀ b ∈ clusters, a.pcaColor.dist3DSq b.pcaColor < 99999)
    (s : KmeansState) (hlen : s.pcaClusters.length = s.seeds.length)
    (hs : seedsNear clusters s.seeds) :
    ∃ s1, kmeansIteration clusters s = some s1 ∧ s1.pcaClusters.length = s1.seeds.length ∧
      seedsNear clusters s1.seeds := by
  have hassign : ∃ groups, assignStep s.seeds clusters s.pcaClusters = some groups := by
    unfold assignStep
    apply assignLoop_defined
    intro x hx
    have hxmem : x.2 ∈ clusters := List.getElem?_mem (List.mem_enum_iff_getElem?.mp hx)
    obtain ⟨j, hj, hjj⟩ := nearestSeed_defined clusters s.seeds hs x.2 hxmem
    exact ⟨j, by rw [List.length_map, hlen]; exact hj, hjj⟩
  obtain ⟨groups, ha⟩ := hassign
  have hglen : groups.length = s.pcaClusters.length := assignStep_length _ _ _ _ ha
  have hvalid := assignStep_members_lt _ _ _ _ ha
  have hcover := assignStep_covers _ _ _ _ ha
  obtain ⟨newSeeds, conv, hres, hlen1, _, hset⟩ :=
    updateLoop_spec clusters groups 0 s.seeds true (by omega)
  have hres1 : updateLoop clusters groups.enum s.seeds true = some (newSeeds, conv) := hres
  refine ⟨{ seeds := newSeeds, pcaClusters := groups, converged := conv,
            nIterations := s.nIterations + 1 }, ?_, ?_, ?_, ?_⟩
  · unfold kmeansIteration
    simp only [ha, hres1]
  · show groups.length = newSeeds.length
    rw [hlen1, hglen, hlen]
  · intro p hp cl hcl
    obtain ⟨k, hk⟩ := List.getElem?_of_mem hp
    have hklt : k < groups.length := by
      have := (List.getElem?_eq_some_iff.mp hk).1
      have e : newSeeds.length = groups.length := by rw [hlen1, hglen, hlen]
      change k < newSeeds.length at this
      omega
    have hg : groups[k]? = some groups[k] := List.getElem?_eq_getElem hklt
    have h1 := hset k _ hg
    rw [Nat.zero_add] at h1
    have hk1 : newSeeds[k]? = some (some p) := hk
    rw [hk1] at h1
    have hmean : groupMean clusters groups[k] = some p := (Option.some.inj h1).symm
    have hgne : groups[k] ≠ [] := by
      intro h0
      rw [h0, groupMean_nil] at hmean
      exact absurd hmean (by simp)
    obtain ⟨p1, hp1, hnearp⟩ := groupMean_near clusters hnear groups[k]
      (hvalid _ (List.getElem?_mem hg)) hgne
    rw [hmean] at hp1
    rw [Option.some.inj hp1]
    exact hnearp cl hcl
  · have h0 : 0 < clusters.length := List.length_pos.mpr hne
    obtain ⟨g, hg, h0g⟩ := hcover 0 h0
    obtain ⟨k, hk⟩ := List.getElem?_of_mem hg
    have hgne : g ≠ [] := List.ne_nil_of_mem h0g
    obtain ⟨p, hp, _⟩ := groupMean_near clusters hnear g (hvalid g hg) hgne
    have h1 := hset k g hk
    rw [Nat.zero_add, hp] at h1
    exact ⟨p, List.getElem?_mem h1⟩

theorem kmeansLoop_defined (clusters : List Cluster) (hne : clusters ≠ [])
    (hnear : ∀ a ∈ clusters, ∀ b ∈ clusters, a.pcaColor.dist3DSq b.pcaColor < 99999)
    (n : Nat) (s : KmeansState) (hlen : s.pcaClusters.length = s.seeds.length)
    (hs : seedsNear clusters s.seeds) :
    ∃ s1, kmeansLoop clusters n s = some s1 := by
  induction n generalizing s with
  | zero => exact ⟨s, rfl⟩
  | succ n ih =>
    rw [kmeansLoop_succ]
    by_cases hc : s.converged = true
    · exact ⟨s, by rw [if_pos hc]⟩
    · rw [if_neg hc]
      obtain ⟨s1, hit, hlen1, hs1⟩ := kmeansIteration_defined clusters hne hnear s hlen hs
      simp only [hit]
      exact ih s1 hlen1 hs1

theorem initSeeds_spec (RAND_MAX : Nat) (clusters : List Cluster) (fuel k : Nat)
    (seeds : List Point) (used : List Nat) (rng rng1 : Rng) (res : List Point)
    (h : initSeeds RAND_MAX clusters fuel k seeds used rng = some (res, rng1)) :
    res.length = seeds.length + k ∧
    ∀ p ∈ res, p ∈ seeds ∨ ∃ cl ∈ clusters, p = cl.pcaColor := by
  induction k generalizing seeds used rng with
  | zero =>
    simp only [initSeeds, Option.some.injEq, Prod.mk.injEq] at h
    rw [← h.1]
    exact ⟨rfl, fun p hp => Or.inl hp⟩
  | succ k ih =>
    unfold initSeeds at h
    cases hd : drawIndex RAND_MAX clusters.length used fuel rng with
    | none => simp [hd] at h
    | some r =>
      obtain ⟨iCl, rng2⟩ := r
      simp only [hd, List.get?_eq_getElem?] at h
      cases hget : clusters[iCl]? with
      | none => simp [hget] at h
      | some cl =>
        simp only [hget] at h
        obtain ⟨hlen, hall⟩ := ih _ _ _ h
        refine ⟨by rw [hlen, List.length_append, List.length_singleton]; omega, ?_⟩
        intro p hp
        rcases hall p hp with h1 | h1
        · rcases List.mem_append.mp h1 with h2 | h2
          · exact Or.inl h2
          · rw [List.mem_singleton] at h2
            exact Or.inr ⟨cl, List.getElem?_mem hget, h2⟩
        · exact Or.inr h1

/-- C31, as the code has it: when the initial seeds have been drawn, there are as many
groups as seeds (at least one), and the PCA colours of the objects are at squared
distances below `99999` from each other, `runKmeansOnPCA` with
`maxKmeansIterations ≥ 0` has a value after `k` passes of the loop body, where `k` is
the returned `nIterations` and `k ≤ maxKmeansIterations`; no state before the `k`-th
pass has `converged` set, and the loop stops either with `converged` set or with
`k = maxKmeansIterations`; a pass sets `converged` exactly when no seed that is a point
before and after the pass moved by more than `0.001` in squared distance. -/
theorem runKmeansOnPCA_stops (RAND_MAX kmeans : Nat) (clusters : List Cluster)
    (pcaClusters : List (List Nat)) (config : Config) (rng rng1 : Rng) (fuel : Nat)
    (seeds0 : List Point)
    (hinit : initSeeds RAND_MAX clusters fuel kmeans [] [] rng = some (seeds0, rng1))
    (hk : 1 ≤ kmeans) (hgroups : pcaClusters.length = kmeans)
    (hnear : ∀ a ∈ clusters, ∀ b ∈ clusters, a.pcaColor.dist3DSq b.pcaColor < 99999)
    (hmax : 0 ≤ config.maxKmeansIterations) :
    ∃ (s : KmeansState) (k : Nat),
      runKmeansOnPCA RAND_MAX kmeans clusters pcaClusters config rng fuel = some (s, rng1) ∧
      s.nIterations = (k : Int) ∧ (k : Int) ≤ config.maxKmeansIterations ∧
      kmeansIterations clusters k
        { seeds := seeds0.map some, pcaClusters := pcaClusters, converged := false,
          nIterations := 0 } = some s ∧
      (∀ j, j < k → ∃ sj, kmeansIterations clusters j
          { seeds := seeds0.map some, pcaClusters := pcaClusters, converged := false,
            nIterations := 0 } = some sj ∧ sj.converged = false) ∧
      (s.converged = true ∨ (k : Int) = config.maxKmeansIterations) ∧
      ∀ s1 s2, kmeansIteration clusters s1 = some s2 →
        (s2.converged = true ↔
          ∀ (i : Nat) (old new : Option Point), i < s2.pcaClusters.length →
            s1.seeds[i]? = some old → s2.seeds[i]? = some new →
            ∀ n o, new = some n → old = some o → n.dist3DSq o ≤ 1 / 1000) := by
  obtain ⟨hlen0, hfrom⟩ := initSeeds_spec RAND_MAX clusters fuel kmeans [] [] rng rng1 seeds0 hinit
  simp only [List.length_nil, Nat.zero_add] at hlen0
  have hseed0 : ∃ p, p ∈ seeds0 := by
    apply List.exists_mem_of_length_pos
    omega
  have hfrom1 : ∀ p ∈ seeds0, ∃ cl ∈ clusters, p = cl.pcaColor := by
    intro p hp
    rcases hfrom p hp with h | h
    · exact absurd h (List.not_mem_nil p)
    · exact h
  have hne : clusters ≠ [] := by
    obtain ⟨p, hp⟩ := hseed0
    obtain ⟨cl, hcl, _⟩ := hfrom1 p hp
    exact List.ne_nil_of_mem hcl
  have hs : seedsNear clusters (seeds0.map some) := by
    constructor
    · intro p hp cl hcl
      rw [List.mem_map] at hp
      obtain ⟨p1, hp1, e⟩ := hp
      have e1 : p1 = p := Option.some.inj e
      subst e1
      obtain ⟨cl1, hcl1, e2⟩ := hfrom1 p1 hp1
      rw [e2]
      exact hnear cl hcl cl1 hcl1
    · obtain ⟨p, hp⟩ := hseed0
      exact ⟨p, List.mem_map_of_mem _ hp⟩
  obtain ⟨s, hloop⟩ := kmeansLoop_defined clusters hne hnear config.maxKmeansIterations.toNat
    { seeds := seeds0.map some, pcaClusters := pcaClusters, converged := false,
      nIterations := 0 }
    (by simp only [List.length_map]; omega) hs
  obtain ⟨k, hkn, hiter, hn, hbefore, hstop⟩ := kmeansLoop_trace clusters _ _ s hloop
  have htoNat : ((config.maxKmeansIterations.toNat : Nat) : Int) = config.maxKmeansIterations :=
    Int.toNat_of_nonneg hmax
  refine ⟨s, k, ?_, ?_, ?_, hiter, hbefore, ?_, ?_⟩
  · unfold runKmeansOnPCA
    simp only [hinit, hloop]
  · rw [hn]
    simp
  · rw [← htoNat]
    exact_mod_cast hkn
  · rcases hstop with h1 | h1
    · exact Or.inl h1
    · right
      rw [← htoNat, h1]
  · intro s1 s2 h12
    exact (kmeansIteration_converged clusters s1 s2 h12).2.2

theorem exampleSeparatedObjects_init :
    (initSeeds 32767 exampleSeparatedObjects 1 3 [] [] (fun i => i)).isSome = true := by
  decide!

theorem exampleSeparatedObjects_near :
    ∀ a ∈ exampleSeparatedObjects, ∀ b ∈ exampleSeparatedObjects,
      a.pcaColor.dist3DSq b.pcaColor < 99999 := by
  intro a ha b hb
  simp only [exampleSeparatedObjects, List.mem_cons, List.mem_singleton, List.not_mem_nil,
    or_false] at ha hb
  rcases ha with rfl | rfl | rfl <;> rcases hb with rfl | rfl | rfl <;>
    simp only [exampleObject, Cluster.empty, Point.dist3DSq] <;> norm_num

/-- C31, as the code has it, at three objects far from each other (PCA colours
`(0,0,0)`, `(1,0,0)`, `(10,0,0)`), taken as the initial seeds by the draws `0, 1, 2`,
with `maxKmeansIterations = 1000`. -/
theorem runKmeansOnPCA_stops_witness :
    ∃ (seeds0 : List Point) (rng1 : Rng),
      initSeeds 32767 exampleSeparatedObjects 1 3 [] [] (fun i => i) = some (seeds0, rng1) ∧
      (1 : Nat) ≤ 3 ∧ ([[], [], []] : List (List Nat)).length = 3 ∧
      (∀ a ∈ exampleSeparatedObjects, ∀ b ∈ exampleSeparatedObjects,
        a.pcaColor.dist3DSq b.pcaColor < 99999) ∧
      0 ≤ exampleConfig.maxKmeansIterations ∧
      ∃ (s : KmeansState) (k : Nat),
        runKmeansOnPCA 32767 3 exampleSeparatedObjects [[], [], []] exampleConfig
          (fun i => i) 1 = some (s, rng1) ∧
        s.nIterations = (k : Int) ∧ (k : Int) ≤ exampleConfig.maxKmeansIterations ∧
        kmeansIterations exampleSeparatedObjects k
          { seeds := seeds0.map some, pcaClusters := [[], [], []], converged := false,
            nIterations := 0 } = some s ∧
        (∀ j, j < k → ∃ sj, kmeansIterations exampleSeparatedObjects j
            { seeds := seeds0.map some, pcaClusters := [[], [], []], converged := false,
              nIterations := 0 } = some sj ∧ sj.converged = false) ∧
        (s.converged = true ∨ (k : Int) = exampleConfig.maxKmeansIterations) ∧
        ∀ s1 s2, kmeansIteration exampleSeparatedObjects s1 = some s2 →
          (s2.converged = true ↔
            ∀ (i : Nat) (old new : Option Point), i < s2.pcaClusters.length →
              s1.seeds[i]? = some old → s2.seeds[i]? = some new →
              ∀ n o, new = some n → old = some o → n.dist3DSq o ≤ 1 / 1000) :=
  ⟨_, _, (Option.some_get exampleSeparatedObjects_init).symm, by decide, rfl,
    exampleSeparatedObjects_near, by decide,
    runKmeansOnPCA_stops 32767 3 exampleSeparatedObjects [[], [], []] exampleConfig
      (fun i => i) _ 1 _ (Option.some_get exampleSeparatedObjects_init).symm (by decide) rfl
      exampleSeparatedObjects_near (by decide)⟩

/-- C31 fails as stated: on three objects with the PCA colours `(0,0,0)`, `(0,0,0)` and
`(10,0,0)`, taken as the initial seeds, with `maxKmeansIterations = 1000`, the run stops
after its first pass with `converged` set and returns `1`, although the second seed did
not move by less than `0.001`: its group received no object and its new value is not a
number. One more pass leaves the second seed not a number again, so by the stated rule
the loop would only stop at `maxKmeansIterations`. -/
theorem runKmeansOnPCA_stops_with_unsettled_seed :
    exampleConfig.maxKmeansIterations = 1000 ∧
    (runKmeansOnPCA 32767 3 exampleTiedObjects [[], [], []] exampleConfig (fun i => i) 1).map
        Prod.fst
      = some ⟨[some ⟨0, 0, 0⟩, none, some ⟨10, 0, 0⟩], [[0, 1], [], [2]], true, 1⟩ ∧
    List.zipWith claimedSeedSettled [some ⟨0, 0, 0⟩, none, some ⟨10, 0, 0⟩]
        [some ⟨0, 0, 0⟩, some ⟨0, 0, 0⟩, some ⟨10, 0, 0⟩]
      = [true, false, true] ∧
    (kmeansIteration exampleTiedObjects
        ⟨[some ⟨0, 0, 0⟩, none, some ⟨10, 0, 0⟩], [[0, 1], [], [2]], false, 1⟩).map
        (fun s => s.seeds)
      = some [some ⟨0, 0, 0⟩, none, some ⟨10, 0, 0⟩] ∧
    List.zipWith claimedSeedSettled [some ⟨0, 0, 0⟩, none, some ⟨10, 0, 0⟩]
        [some ⟨0, 0, 0⟩, none, some ⟨10, 0, 0⟩]
      = [true, false, true] := by
  decide!

end PointCloud
